import Mathlib

/-!
# MKCL package system (`src/c/package.c`)

A shallow embedding of the package (namespace) manager of MKCL.

* Objects are references (natural numbers) into two heaps held by the state: one of
  packages (`x->pack`) and one of symbols (`s->symbol`).  The symbol reference `0` is
  `mk_cl_Cnil`, the symbol `NIL`, which the C code also uses as the null result.
* A package hash table is an association list from names to symbol references.
* `mkcl_CEpackage_error` signals a continuable error: the handler either returns (the
  `continue` restart, the default) or leaves by a non-local exit.  `mkcl_FEpackage_error`
  never returns.  Every operation therefore yields an `Outcome`: the state it leaves,
  the continuable errors it signalled, and how it was left.
* The retry loops (`goto TRY_AGAIN_LABEL`) of `mkcl_intern` and `mkcl_unintern` take fuel.
* Locks are not part of this model.
-/

namespace MKCL

/-! ## Data model -/

/-- The value stored in `*intern_flag`: `zero` is the C value `0` (nothing found, or a
symbol that was just created), the other three are the constants
`MKCL_SYMBOL_IS_INTERNAL`, `MKCL_SYMBOL_IS_EXTERNAL` and `MKCL_SYMBOL_IS_INHERITED`. -/
inductive InternFlag where
  | zero
  | internal
  | external
  | inherited
  deriving DecidableEq, Repr

/-- A package hash table (`pack.external`, `pack.internal`): name to symbol reference. -/
abbrev HashTable := List (String × Nat)

/-- The fields of `s->symbol` that the package system reads or writes. -/
structure Symbol where
  name : String
  hpack : Option Nat
  constant : Bool
  value : Option Nat
  deriving DecidableEq, Repr

/-- The fields of `x->pack`; `name = none` is the tombstone `mk_cl_Cnil` of a deleted
package. -/
structure Package where
  name : Option String
  nicknames : List String
  external : HashTable
  internal : HashTable
  uses : List Nat
  usedby : List Nat
  shadowings : List Nat
  closed : Bool
  deriving DecidableEq, Repr

/-- The heaps and the part of `mkcl_core` the package system uses.  `pack_count` and
`symbol_count` are the next references the allocator hands out. -/
structure State where
  pack : Nat → Package
  symbol : Nat → Symbol
  pack_count : Nat
  symbol_count : Nat
  packages : List Nat
  packages_to_be_created : List (String × Nat)
  keyword_package : Nat
  lisp_package : Nat
  atotlim : Int

/-- A package designator after `mk_cl_string`: a package object or a name. -/
inductive Designator where
  | package (p : Nat)
  | string (name : String)
  deriving DecidableEq, Repr

/-- The continuable errors (`mkcl_CEpackage_error`). -/
inductive CError where
  | closed_package (p : Nat)
  | not_accessible (s p : Nat)
  | import_conflict (s p : Nat)
  | already_exists (name : String) (other : Nat)
  | package_not_found
  | used_by_others (p : Nat) (users : List Nat)
  deriving DecidableEq, Repr

/-- The fatal errors (`mkcl_FEpackage_error`, and the type error of
`mkcl_fixnum_in_range`). -/
inductive FError where
  | no_package (d : Designator)
  | export_other_symbol (s p : Nat)
  | export_conflict (s p q : Nat)
  | unintern_conflict (s p x y : Nat)
  | unexport_keyword
  | unexport_not_belong (s p : Nat)
  | use_keyword
  | use_in_keyword
  | use_conflict (x p here there : Nat)
  | rename_exists (name : String)
  | cannot_remove (p : Nat)
  | size_out_of_range
  deriving DecidableEq, Repr

/-- How an operation was left: it returned, it signalled a fatal error, the handler of a
continuable error did not continue, the model ran out of fuel, or (`deadlock`) the
operation waits for ever for a lock that it holds itself. -/
inductive Exit (α : Type) where
  | ret (a : α)
  | fatal (e : FError)
  | declined (c : CError)
  | out_of_fuel
  | deadlock
  deriving DecidableEq, Repr

/-- What an operation leaves behind. -/
structure Outcome (α : Type) where
  state : State
  signals : List CError
  exit : Exit α

/-- The condition handler: `true` takes the `continue` restart, `false` is a non-local
exit. -/
abbrev Handler := CError → Bool

/-- The handler that always continues (the default recovery). -/
def default_handler : Handler := fun _ => true

/-- The symbol `NIL`, also the null object. -/
def mk_cl_Cnil : Nat := 0

/-- Store a package record. -/
def State.set_pack (st : State) (p : Nat) (v : Package) : State :=
  { st with pack := Function.update st.pack p v }

/-- Store a symbol record. -/
def State.set_symbol (st : State) (s : Nat) (v : Symbol) : State :=
  { st with symbol := Function.update st.symbol s v }

/-- The name of a symbol (`mkcl_symbol_name`). -/
def mkcl_symbol_name (st : State) (s : Nat) : String := (st.symbol s).name

/-! ## Collaborators: hash tables and lists -/

/-- Modelled from the spec: the map collaborator's lookup (`hash.c` is not in the
sources); `none` stands for `MKCL_OBJNULL`. -/
def mkcl_gethash_safe (name : String) : HashTable → Option Nat
  | [] => none
  | (k, v) :: rest => if k = name then some v else mkcl_gethash_safe name rest

/-- Modelled from the spec: the map collaborator's remove. -/
def mkcl_remhash (name : String) (h : HashTable) : HashTable :=
  h.filter (fun e => decide (e.1 ≠ name))

/-- Modelled from the spec: the map collaborator's insert, which replaces the entry of
the key; `mkcl_package_sethash_new` is the same insert with a precomputed hash. -/
def mkcl_sethash (name : String) (h : HashTable) (v : Nat) : HashTable :=
  (name, v) :: mkcl_remhash name h

/-- Membership by identity (`mkcl_member_eq`). -/
def mkcl_member_eq (x : Nat) (l : List Nat) : Bool := decide (x ∈ l)

/-- Modelled from the spec: non-destructive removal of every occurrence
(`mkcl_remove_eq`, in `list.c`, not in the sources). -/
def mkcl_remove_eq (x : Nat) (l : List Nat) : List Nat :=
  l.filter (fun y => decide (y ≠ x))

/-- String membership (`member_string_E`). -/
def member_string_E (x : String) (l : List String) : Bool := decide (x ∈ l)

/-- Modelled from the spec: a fresh symbol (`mk_cl_make_symbol`, in `symbol.c`, not in
the sources): homeless, unbound, not constant. -/
def mk_cl_make_symbol (st : State) (name : String) : State × Nat :=
  ({ st with
      symbol := Function.update st.symbol st.symbol_count
        { name := name, hpack := none, constant := false, value := none }
      symbol_count := st.symbol_count + 1 },
   st.symbol_count)

/-- If `s` is at home in `p`, it becomes homeless. -/
def make_resident_symbol_homeless (st : State) (s p : Nat) : State :=
  if (st.symbol s).hpack = some p then
    st.set_symbol s { st.symbol s with hpack := none }
  else st

/-- If `s` is homeless, `p` becomes its home. -/
def set_symbol_home_if_homeless (st : State) (s p : Nat) : State :=
  if (st.symbol s).hpack = none then
    st.set_symbol s { st.symbol s with hpack := some p }
  else st

/-! ## Finding packages -/

/-- The scan of `mkcl_core.packages` in `mkcl_find_package_nolock`. -/
def find_package_scan (st : State) (name : String) : List Nat → Option Nat
  | [] => none
  | p :: l =>
    if (st.pack p).name = some name then some p
    else if member_string_E name (st.pack p).nicknames then some p
    else find_package_scan st name l

/-- A package designates itself, a name the first package of the list with that name or
nickname; `none` is `mk_cl_Cnil`.  (Built without `MKCL_RELATIVE_PACKAGE_NAMES`.) -/
def mkcl_find_package_nolock (st : State) : Designator → Option Nat
  | .package p => some p
  | .string name => find_package_scan st name st.packages

/-- The result of `mkcl_find_package_nolock`; `none` where the C code signals the fatal
error "There exists no package with name". -/
def mk_si_coerce_to_package (st : State) (d : Designator) : Option Nat :=
  mkcl_find_package_nolock st d

/-! ## Finding and interning symbols -/

/-- The loop over `p->pack.uses` shared by `mkcl_find_symbol_nolock` and `mkcl_intern`:
the first used package whose external table has the name. -/
def find_in_uses (st : State) (name : String) : List Nat → Option Nat
  | [] => none
  | u :: ul =>
    match mkcl_gethash_safe name (st.pack u).external with
    | some s => some s
    | none => find_in_uses st name ul

/-- Resolve `name` in package `p`. -/
def mkcl_find_symbol_nolock (st : State) (name : String) (p : Nat) : Nat × InternFlag :=
  match mkcl_gethash_safe name (st.pack p).external with
  | some s => (s, .external)
  | none =>
    if p = st.keyword_package then (mk_cl_Cnil, .zero)
    else
      match mkcl_gethash_safe name (st.pack p).internal with
      | some s => (s, .internal)
      | none =>
        match find_in_uses st name (st.pack p).uses with
        | some s => (s, .inherited)
        | none => (mk_cl_Cnil, .zero)

/-- The locking wrapper of `mkcl_find_symbol_nolock`. -/
def mkcl_find_symbol (st : State) (n : String) (d : Designator) : Outcome (Nat × InternFlag) :=
  match mk_si_coerce_to_package st d with
  | none => ⟨st, [], .fatal (.no_package d)⟩
  | some p => ⟨st, [], .ret (mkcl_find_symbol_nolock st n p)⟩

/-- The body of `mkcl_intern` from `TRY_AGAIN_LABEL` on; `log` holds the errors
signalled so far. -/
def mkcl_intern_loop (h : Handler) (st : State) (name : String) (p : Nat) :
    Nat → List CError → Outcome (Nat × InternFlag)
  | 0, log => ⟨st, log, .out_of_fuel⟩
  | fuel + 1, log =>
    match mkcl_gethash_safe name (st.pack p).external with
    | some s => ⟨st, log, .ret (s, .external)⟩
    | none =>
      let found : Option (Nat × InternFlag) :=
        if p = st.keyword_package then none
        else
          match mkcl_gethash_safe name (st.pack p).internal with
          | some s => some (s, .internal)
          | none =>
            match find_in_uses st name (st.pack p).uses with
            | some s => some (s, .inherited)
            | none => none
      match found with
      | some r => ⟨st, log, .ret r⟩
      | none =>
        if (st.pack p).closed then
          if h (.closed_package p) then
            mkcl_intern_loop h st name p fuel (log ++ [.closed_package p])
          else ⟨st, log ++ [.closed_package p], .declined (.closed_package p)⟩
        else
          let (st1, s) := mk_cl_make_symbol st name
          let st2 := st1.set_symbol s { st1.symbol s with hpack := some p }
          if p = st.keyword_package then
            let st3 := st2.set_symbol s
              { st2.symbol s with constant := true, value := some s }
            ⟨st3.set_pack p
                { st3.pack p with
                  external := mkcl_sethash (st3.symbol s).name (st3.pack p).external s },
              log, .ret (s, .zero)⟩
          else
            ⟨st2.set_pack p
                { st2.pack p with
                  internal := mkcl_sethash (st2.symbol s).name (st2.pack p).internal s },
              log, .ret (s, .zero)⟩

/-- Find or create the symbol named `name` in the package designated by `d`. -/
def mkcl_intern (h : Handler) (fuel : Nat) (st : State) (name : String) (d : Designator) :
    Outcome (Nat × InternFlag) :=
  match mk_si_coerce_to_package st d with
  | none => ⟨st, [], .fatal (.no_package d)⟩
  | some p => mkcl_intern_loop h st name p fuel []

/-! ## Unintern -/

/-- The scan of `mkcl_unintern` over `p->pack.uses` for a shadowing symbol: `x` is the
first inherited candidate seen so far; the result is the first pair of different
candidates, if any. -/
def unintern_scan (st : State) (name : String) : Option Nat → List Nat → Option (Nat × Nat)
  | _, [] => none
  | x, u :: l =>
    match mkcl_gethash_safe name (st.pack u).external with
    | none => unintern_scan st name x l
    | some y =>
      match x with
      | none => unintern_scan st name (some y) l
      | some x0 => if x0 ≠ y then some (x0, y) else unintern_scan st name (some x0) l

/-- The body of `mkcl_unintern` from `TRY_AGAIN_LABEL` on.  The table that holds `s` is
recorded as `true` for `pack.internal` and `false` for `pack.external`. -/
def mkcl_unintern_loop (h : Handler) (st : State) (s p : Nat) (name : String) :
    Nat → List CError → Outcome Bool
  | 0, log => ⟨st, log, .out_of_fuel⟩
  | fuel + 1, log =>
    let hash : Option Bool :=
      if mkcl_gethash_safe name (st.pack p).internal = some s then some true
      else if mkcl_gethash_safe name (st.pack p).external = some s then some false
      else none
    match hash with
    | none => ⟨st, log, .ret false⟩
    | some in_internal =>
      if (st.pack p).closed then
        if h (.closed_package p) then
          mkcl_unintern_loop h st s p name fuel (log ++ [.closed_package p])
        else ⟨st, log ++ [.closed_package p], .declined (.closed_package p)⟩
      else
        let conflict : Option (Nat × Nat) :=
          if mkcl_member_eq s (st.pack p).shadowings then
            unintern_scan st name none (st.pack p).uses
          else none
        match conflict with
        | some (x, y) => ⟨st, log, .fatal (.unintern_conflict s p x y)⟩
        | none =>
          let shadowings :=
            if mkcl_member_eq s (st.pack p).shadowings then
              mkcl_remove_eq s (st.pack p).shadowings
            else (st.pack p).shadowings
          let st1 := st.set_pack p
            (if in_internal then
              { st.pack p with
                shadowings := shadowings
                internal := mkcl_remhash name (st.pack p).internal }
            else
              { st.pack p with
                shadowings := shadowings
                external := mkcl_remhash name (st.pack p).external })
          ⟨make_resident_symbol_homeless st1 s p, log, .ret true⟩

/-- Remove `s` from the package designated by `d`; the result tells whether it was
there. -/
def mkcl_unintern (h : Handler) (fuel : Nat) (st : State) (s : Nat) (d : Designator) :
    Outcome Bool :=
  match mk_si_coerce_to_package st d with
  | none => ⟨st, [], .fatal (.no_package d)⟩
  | some p => mkcl_unintern_loop h st s p (mkcl_symbol_name st s) fuel []

/-! ## Export and unexport -/

/-- The scan of `mkcl_export2` over `p->pack.usedby`: the first dependent in which the
name resolves to another symbol that is not one of its shadowing symbols. -/
def export_usedby_scan (st : State) (name : String) (s : Nat) : List Nat → Option Nat
  | [] => none
  | q :: l =>
    if (mkcl_find_symbol_nolock st name q).2 ≠ .zero
        ∧ s ≠ (mkcl_find_symbol_nolock st name q).1
        ∧ mkcl_member_eq (mkcl_find_symbol_nolock st name q).1 (st.pack q).shadowings = false
    then some q
    else export_usedby_scan st name s l

/-- Make `s` an external symbol of the package designated by `d`. -/
def mkcl_export2 (h : Handler) (st : State) (s : Nat) (d : Designator) : Outcome Unit :=
  let name := mkcl_symbol_name st s
  match mk_si_coerce_to_package st d with
  | none => ⟨st, [], .fatal (.no_package d)⟩
  | some p =>
    let log1 : List CError := if (st.pack p).closed then [.closed_package p] else []
    if (st.pack p).closed ∧ h (.closed_package p) = false then
      ⟨st, log1, .declined (.closed_package p)⟩
    else
      let x := (mkcl_find_symbol_nolock st name p).1
      let intern_flag := (mkcl_find_symbol_nolock st name p).2
      let log2 : List CError :=
        if intern_flag = .zero then log1 ++ [.not_accessible s p] else log1
      if intern_flag = .zero ∧ h (.not_accessible s p) = false then
        ⟨st, log2, .declined (.not_accessible s p)⟩
      else if x ≠ s then ⟨st, log2, .fatal (.export_other_symbol s p)⟩
      else if intern_flag = .external then ⟨st, log2, .ret ()⟩
      else
        match export_usedby_scan st name s (st.pack p).usedby with
        | some q => ⟨st, log2, .fatal (.export_conflict s p q)⟩
        | none =>
          let internal :=
            if intern_flag = .internal then mkcl_remhash name (st.pack p).internal
            else (st.pack p).internal
          ⟨st.set_pack p
              { st.pack p with
                internal := internal
                external := mkcl_sethash name (st.pack p).external s },
            log2, .ret ()⟩

/-- Make the external symbol `s` of the package designated by `d` internal. -/
def mkcl_unexport2 (h : Handler) (st : State) (s : Nat) (d : Designator) : Outcome Unit :=
  let name := mkcl_symbol_name st s
  match mk_si_coerce_to_package st d with
  | none => ⟨st, [], .fatal (.no_package d)⟩
  | some p =>
    if p = st.keyword_package then ⟨st, [], .fatal .unexport_keyword⟩
    else
      let log1 : List CError := if (st.pack p).closed then [.closed_package p] else []
      if (st.pack p).closed ∧ h (.closed_package p) = false then
        ⟨st, log1, .declined (.closed_package p)⟩
      else
        let x := (mkcl_find_symbol_nolock st name p).1
        let intern_flag := (mkcl_find_symbol_nolock st name p).2
        if intern_flag = .zero ∨ x ≠ s then ⟨st, log1, .fatal (.unexport_not_belong s p)⟩
        else if intern_flag ≠ .external then ⟨st, log1, .ret ()⟩
        else
          ⟨st.set_pack p
              { st.pack p with
                external := mkcl_remhash name (st.pack p).external
                internal := mkcl_sethash name (st.pack p).internal s },
            log1, .ret ()⟩

/-! ## Import, shadowing import and shadow -/

/-- Make `s` an internal symbol of the package designated by `d`. -/
def mkcl_import2 (h : Handler) (st : State) (s : Nat) (d : Designator) : Outcome Unit :=
  let name := mkcl_symbol_name st s
  match mk_si_coerce_to_package st d with
  | none => ⟨st, [], .fatal (.no_package d)⟩
  | some p =>
    let log1 : List CError := if (st.pack p).closed then [.closed_package p] else []
    if (st.pack p).closed ∧ h (.closed_package p) = false then
      ⟨st, log1, .declined (.closed_package p)⟩
    else
      let x := (mkcl_find_symbol_nolock st name p).1
      let intern_flag := (mkcl_find_symbol_nolock st name p).2
      let log2 : List CError :=
        if intern_flag ≠ .zero ∧ x ≠ s then log1 ++ [.import_conflict s p] else log1
      if intern_flag ≠ .zero ∧ x ≠ s ∧ h (.import_conflict s p) = false then
        ⟨st, log2, .declined (.import_conflict s p)⟩
      else if intern_flag = .internal ∨ intern_flag = .external then ⟨st, log2, .ret ()⟩
      else
        let st1 := st.set_pack p
          { st.pack p with internal := mkcl_sethash name (st.pack p).internal s }
        ⟨set_symbol_home_if_homeless st1 s p, log2, .ret ()⟩

/-- Make `s` an internal, shadowing symbol of the package designated by `d`, evicting a
local symbol of the same name. -/
def mkcl_shadowing_import (h : Handler) (st : State) (s : Nat) (d : Designator) :
    Outcome Unit :=
  let name := mkcl_symbol_name st s
  match mk_si_coerce_to_package st d with
  | none => ⟨st, [], .fatal (.no_package d)⟩
  | some p =>
    let log1 : List CError := if (st.pack p).closed then [.closed_package p] else []
    if (st.pack p).closed ∧ h (.closed_package p) = false then
      ⟨st, log1, .declined (.closed_package p)⟩
    else
      let x := (mkcl_find_symbol_nolock st name p).1
      let intern_flag := (mkcl_find_symbol_nolock st name p).2
      if intern_flag ≠ .zero ∧ intern_flag ≠ .inherited ∧ x = s then
        if mkcl_member_eq x (st.pack p).shadowings then ⟨st, log1, .ret ()⟩
        else
          ⟨st.set_pack p { st.pack p with shadowings := x :: (st.pack p).shadowings },
            log1, .ret ()⟩
      else
        let st1 :=
          if intern_flag ≠ .zero ∧ intern_flag ≠ .inherited then
            let shadowings :=
              if mkcl_member_eq x (st.pack p).shadowings then
                mkcl_remove_eq x (st.pack p).shadowings
              else (st.pack p).shadowings
            let sta := st.set_pack p
              (if intern_flag = .internal then
                { st.pack p with
                  shadowings := shadowings
                  internal := mkcl_remhash name (st.pack p).internal }
              else
                { st.pack p with
                  shadowings := shadowings
                  external := mkcl_remhash name (st.pack p).external })
            make_resident_symbol_homeless sta x p
          else st
        let st2 := st1.set_pack p
          { st1.pack p with
            shadowings := s :: (st1.pack p).shadowings
            internal := mkcl_sethash name (st1.pack p).internal s }
        ⟨set_symbol_home_if_homeless st2 s p, log1, .ret ()⟩

/-- Make the local symbol named `s` of the package designated by `d`, created if there
is none, a shadowing symbol. -/
def mkcl_shadow (h : Handler) (st : State) (s : String) (d : Designator) : Outcome Unit :=
  match mk_si_coerce_to_package st d with
  | none => ⟨st, [], .fatal (.no_package d)⟩
  | some p =>
    let log1 : List CError := if (st.pack p).closed then [.closed_package p] else []
    if (st.pack p).closed ∧ h (.closed_package p) = false then
      ⟨st, log1, .declined (.closed_package p)⟩
    else
      let x := (mkcl_find_symbol_nolock st s p).1
      let intern_flag := (mkcl_find_symbol_nolock st s p).2
      if intern_flag ≠ .internal ∧ intern_flag ≠ .external then
        let st1 := (mk_cl_make_symbol st s).1
        let x1 := (mk_cl_make_symbol st s).2
        let st2 := st1.set_pack p
          { st1.pack p with
            internal := mkcl_sethash (st1.symbol x1).name (st1.pack p).internal x1 }
        let st3 := st2.set_symbol x1 { st2.symbol x1 with hpack := some p }
        ⟨st3.set_pack p { st3.pack p with shadowings := x1 :: (st3.pack p).shadowings },
          log1, .ret ()⟩
      else
        ⟨st.set_pack p { st.pack p with shadowings := x :: (st.pack p).shadowings },
          log1, .ret ()⟩

/-! ## Use and unuse -/

/-- The scan of `mkcl_use_package` over the entries of `x->pack.external`: the first
entry whose symbol's name resolves in `p` to another symbol that is not one of the
shadowing symbols of `p`, as the pair `(here, there)`. -/
def use_package_scan (st : State) (p : Nat) : HashTable → Option (Nat × Nat)
  | [] => none
  | e :: rest =>
    if (mkcl_find_symbol_nolock st (mkcl_symbol_name st e.2) p).2 ≠ .zero
        ∧ e.2 ≠ (mkcl_find_symbol_nolock st (mkcl_symbol_name st e.2) p).1
        ∧ mkcl_member_eq (mkcl_find_symbol_nolock st (mkcl_symbol_name st e.2) p).1
            (st.pack p).shadowings = false
    then some (e.2, (mkcl_find_symbol_nolock st (mkcl_symbol_name st e.2) p).1)
    else use_package_scan st p rest

/-- Make the package designated by `dp` use the one designated by `dx`. -/
def mkcl_use_package (h : Handler) (st : State) (dx dp : Designator) : Outcome Unit :=
  match mk_si_coerce_to_package st dx with
  | none => ⟨st, [], .fatal (.no_package dx)⟩
  | some x =>
    if x = st.keyword_package then ⟨st, [], .fatal .use_keyword⟩
    else
      match mk_si_coerce_to_package st dp with
      | none => ⟨st, [], .fatal (.no_package dp)⟩
      | some p =>
        let log1 : List CError := if (st.pack p).closed then [.closed_package p] else []
        if (st.pack p).closed ∧ h (.closed_package p) = false then
          ⟨st, log1, .declined (.closed_package p)⟩
        else if p = st.keyword_package then ⟨st, log1, .fatal .use_in_keyword⟩
        else if p = x then ⟨st, log1, .ret ()⟩
        else if mkcl_member_eq x (st.pack p).uses then ⟨st, log1, .ret ()⟩
        else
          match use_package_scan st p (st.pack x).external with
          | some (here, there) => ⟨st, log1, .fatal (.use_conflict x p here there)⟩
          | none =>
            let st1 := st.set_pack p { st.pack p with uses := x :: (st.pack p).uses }
            ⟨st1.set_pack x { st1.pack x with usedby := p :: (st1.pack x).usedby },
              log1, .ret ()⟩

/-- Make the package designated by `dp` no longer use the one designated by `dx`.  The
lists are changed under `MKCL_PACKAGE_LOCK(x), MKCL_PACKAGE_LOCK(p)`, and the lock of a
package is a plain mutex (`mkcl_normal_mutexattr` in `_mkcl_alloc_sized_package`): there
is no test `p == x` here, so when both designate the same package the second lock waits
for the first and the call never returns. -/
def mkcl_unuse_package (h : Handler) (st : State) (dx dp : Designator) : Outcome Unit :=
  match mk_si_coerce_to_package st dx with
  | none => ⟨st, [], .fatal (.no_package dx)⟩
  | some x =>
    match mk_si_coerce_to_package st dp with
    | none => ⟨st, [], .fatal (.no_package dp)⟩
    | some p =>
      let log1 : List CError := if (st.pack p).closed then [.closed_package p] else []
      if (st.pack p).closed ∧ h (.closed_package p) = false then
        ⟨st, log1, .declined (.closed_package p)⟩
      else if x = p then ⟨st, log1, .deadlock⟩
      else
        let st1 := st.set_pack p
          { st.pack p with uses := mkcl_remove_eq x (st.pack p).uses }
        ⟨st1.set_pack x { st1.pack x with usedby := mkcl_remove_eq p (st1.pack x).usedby },
          log1, .ret ()⟩

/-! ## Making, renaming and deleting packages -/

/-- A package with empty tables and lists (`_mkcl_alloc_sized_package`); the sizes only
dimension the hash tables. -/
def _mkcl_alloc_sized_package (st : State) (name : String) : State × Nat :=
  ({ st with
      pack := Function.update st.pack st.pack_count
        { name := some name, nicknames := [], external := [], internal := [],
          uses := [], usedby := [], shadowings := [], closed := false }
      pack_count := st.pack_count + 1 },
   st.pack_count)

/-- Step 1 of `mkcl_make_sized_package`: the first entry of `packages_to_be_created`
whose name is `name` or one of `nicknames`, as its package and the list without the
entry. -/
def pending_scan (name : String) (nicknames : List String) :
    List (String × Nat) → Option (Nat × List (String × Nat))
  | [] => none
  | pair :: l =>
    if pair.1 = name ∨ pair.1 ∈ nicknames then some (pair.2, l)
    else
      match pending_scan name nicknames l with
      | some r => some (r.1, pair :: r.2)
      | none => none

/-- The nickname loop of `mkcl_make_sized_package`: the nicknames in reverse order, or
the first nickname that designates a package, with that package. -/
def nicknames_scan (st : State) : List String → List String → Except (String × Nat) (List String)
  | [], good => .ok good
  | nick :: l, good =>
    match mkcl_find_package_nolock st (.string nick) with
    | some other => .error (nick, other)
    | none => nicknames_scan st l (nick :: good)

/-- The use-list loop of `mkcl_make_sized_package` for the package `x`: it stops at the
first designator that designates no package. -/
def use_list_loop (x : Nat) : State → List Designator → State × Option Designator
  | st, [] => (st, none)
  | st, d :: l =>
    match mk_si_coerce_to_package st d with
    | none => (st, some d)
    | some y =>
      let st1 := st.set_pack x { st.pack x with uses := y :: (st.pack x).uses }
      let st2 := st1.set_pack y { st1.pack y with usedby := x :: (st1.pack y).usedby }
      use_list_loop x st2 l

/-- The part of `mkcl_make_sized_package` from the label `INTERN` on, for the package
`x`. -/
def make_package_intern (h : Handler) (st : State) (x : Nat) (nicknames : List String)
    (use_list : List Designator) : Outcome Nat :=
  match nicknames_scan st nicknames [] with
  | .error (nick, other) =>
    ⟨st, [.already_exists nick other],
      if h (.already_exists nick other) then .ret other
      else .declined (.already_exists nick other)⟩
  | .ok good_nicknames =>
    let st1 := st.set_pack x { st.pack x with nicknames := good_nicknames }
    match use_list_loop x st1 use_list with
    | (st2, some d) => ⟨st2, [], .fatal (.no_package d)⟩
    | (st2, none) => ⟨{ st2 with packages := x :: st2.packages }, [], .ret x⟩

/-- Make a package named `name`, or adopt the one waiting under that name or one of the
nicknames. -/
def mkcl_make_sized_package (h : Handler) (st : State) (name : String)
    (nicknames : List String) (use_list : List Designator)
    (external_size internal_size : Int) : Outcome Nat :=
  match pending_scan name nicknames st.packages_to_be_created with
  | some (x, rest) =>
    make_package_intern h { st with packages_to_be_created := rest } x nicknames use_list
  | none =>
    match mkcl_find_package_nolock st (.string name) with
    | some other =>
      ⟨st, [.already_exists name other],
        if h (.already_exists name other) then .ret other
        else .declined (.already_exists name other)⟩
    | none =>
      if external_size < 0 ∨ st.atotlim < external_size
          ∨ internal_size < 0 ∨ st.atotlim < internal_size then
        ⟨st, [], .fatal .size_out_of_range⟩
      else
        make_package_intern h (_mkcl_alloc_sized_package st name).1
          (_mkcl_alloc_sized_package st name).2 nicknames use_list

/-- The default sizes. -/
def mkcl_make_package (h : Handler) (st : State) (name : String) (nicknames : List String)
    (use_list : List Designator) : Outcome Nat :=
  mkcl_make_sized_package h st name nicknames use_list 129 129

/-- The nickname loop of `mkcl_rename_package` for the package `x`. -/
def rename_nicknames_loop (x : Nat) : State → List String → State
  | st, [] => st
  | st, nick :: l =>
    if mkcl_find_package_nolock st (.string nick) ≠ some x then
      rename_nicknames_loop x
        (st.set_pack x { st.pack x with nicknames := nick :: (st.pack x).nicknames }) l
    else rename_nicknames_loop x st l

/-- Give the package designated by `d` a new name and new nicknames. -/
def mkcl_rename_package (h : Handler) (st : State) (d : Designator) (name : String)
    (nicknames : List String) : Outcome Nat :=
  match mk_si_coerce_to_package st d with
  | none => ⟨st, [], .fatal (.no_package d)⟩
  | some x =>
    let log1 : List CError := if (st.pack x).closed then [.closed_package x] else []
    if (st.pack x).closed ∧ h (.closed_package x) = false then
      ⟨st, log1, .declined (.closed_package x)⟩
    else
      match mkcl_find_package_nolock st (.string name) with
      | some y =>
        if y ≠ x then ⟨st, log1, .fatal (.rename_exists name)⟩
        else
          let st1 := st.set_pack x { st.pack x with name := some name, nicknames := [] }
          ⟨rename_nicknames_loop x st1 nicknames, log1, .ret x⟩
      | none =>
        let st1 := st.set_pack x { st.pack x with name := some name, nicknames := [] }
        ⟨rename_nicknames_loop x st1 nicknames, log1, .ret x⟩

/-- Run `k` on the state and value an operation returned; the signals add up. -/
def Outcome.andThen {α β : Type} (o : Outcome α) (k : State → α → Outcome β) : Outcome β :=
  match o.exit with
  | .ret a => ⟨(k o.state a).state, o.signals ++ (k o.state a).signals, (k o.state a).exit⟩
  | .fatal e => ⟨o.state, o.signals, .fatal e⟩
  | .declined c => ⟨o.state, o.signals, .declined c⟩
  | .out_of_fuel => ⟨o.state, o.signals, .out_of_fuel⟩
  | .deadlock => ⟨o.state, o.signals, .deadlock⟩

/-- The first loop of `mk_cl_delete_package`: `p` stops using each package of the list. -/
def delete_unuse_loop (h : Handler) (p : Nat) : State → List Nat → Outcome Unit
  | st, [] => ⟨st, [], .ret ()⟩
  | st, y :: l =>
    (mkcl_unuse_package h st (.package y) (.package p)).andThen
      fun st1 _ => delete_unuse_loop h p st1 l

/-- The second loop of `mk_cl_delete_package`: each package of the list stops using
`p`. -/
def delete_unused_loop (h : Handler) (p : Nat) : State → List Nat → Outcome Unit
  | st, [] => ⟨st, [], .ret ()⟩
  | st, q :: l =>
    (mkcl_unuse_package h st (.package p) (.package q)).andThen
      fun st1 _ => delete_unused_loop h p st1 l

/-- One continuable error. -/
def cerror (h : Handler) (st : State) (c : CError) : Outcome Unit :=
  ⟨st, [c], if h c then .ret () else .declined c⟩

/-- Delete the package designated by `d`; the result tells whether it was deleted. -/
def mk_cl_delete_package (h : Handler) (st : State) (d : Designator) : Outcome Bool :=
  match mkcl_find_package_nolock st d with
  | none => (cerror h st .package_not_found).andThen fun st1 _ => ⟨st1, [], .ret false⟩
  | some p =>
    (if (st.pack p).closed then cerror h st (.closed_package p)
      else ⟨st, [], .ret ()⟩).andThen fun st1 _ =>
    if p = st1.lisp_package ∨ p = st1.keyword_package then
      ⟨st1, [], .fatal (.cannot_remove p)⟩
    else if (st1.pack p).name = none then ⟨st1, [], .ret false⟩
    else
      (delete_unuse_loop h p st1 (st1.pack p).uses).andThen fun st2 _ =>
      (if (st2.pack p).usedby ≠ [] then
          (cerror h st2 (.used_by_others p (st2.pack p).usedby)).andThen fun st3 _ =>
            delete_unused_loop h p st3 (st2.pack p).usedby
        else ⟨st2, [], .ret ()⟩).andThen fun st4 _ =>
      ⟨(({ st4 with packages := mkcl_remove_eq p st4.packages } : State).set_pack p
          { st4.pack p with name := none }), [], .ret true⟩

/-! ## Closing, reopening and queries -/

/-- Set the closed flag of the package designated by `d`. -/
def mk_si_close_package (st : State) (d : Designator) : Outcome Nat :=
  match mk_si_coerce_to_package st d with
  | none => ⟨st, [], .fatal (.no_package d)⟩
  | some p => ⟨st.set_pack p { st.pack p with closed := true }, [], .ret p⟩

/-- Clear the closed flag of the package designated by `d`. -/
def mk_si_reopen_package (st : State) (d : Designator) : Outcome Nat :=
  match mk_si_coerce_to_package st d with
  | none => ⟨st, [], .fatal (.no_package d)⟩
  | some p => ⟨st.set_pack p { st.pack p with closed := false }, [], .ret p⟩

/-- The closed flag of the package designated by `d`. -/
def mk_si_package_closed_p (st : State) (d : Designator) : Outcome Bool :=
  match mk_si_coerce_to_package st d with
  | none => ⟨st, [], .fatal (.no_package d)⟩
  | some p => ⟨st, [], .ret (st.pack p).closed⟩

/-- A copy of the list of shadowing symbols of the package designated by `d`. -/
def mk_cl_package_shadowing_symbols (st : State) (d : Designator) : Outcome (List Nat) :=
  match mk_si_coerce_to_package st d with
  | none => ⟨st, [], .fatal (.no_package d)⟩
  | some p => ⟨st, [], .ret (st.pack p).shadowings⟩

/-! ## Locks -/

/-- What an operation does to the locks and which errors it signals, in order: taking
and releasing the lock of the package list (`MKCL_PACKAGE_LIST_LOCK`,
`MKCL_PACKAGE_LIST_UNLOCK`) or of a package (`MKCL_PACKAGE_LOCK`, `MKCL_PACKAGE_UNLOCK`),
and the calls of `mkcl_CEpackage_error` and of the fatal errors. -/
inductive LockEvent where
  | list_lock
  | list_unlock
  | lock (p : Nat)
  | unlock (p : Nat)
  | cerror (c : CError)
  | ferror (f : FError)
  deriving DecidableEq, Repr

/-- The lock events of `mkcl_use_package`: both locks are taken, `x` first, before the
scan; a conflict releases them, signals, and the two unwind-protect exits take them again
and release them. -/
def mkcl_use_package_events (h : Handler) (st : State) (dx dp : Designator) :
    List LockEvent :=
  match mk_si_coerce_to_package st dx with
  | none => [.ferror (.no_package dx)]
  | some x =>
    if x = st.keyword_package then [.ferror .use_keyword]
    else
      match mk_si_coerce_to_package st dp with
      | none => [.ferror (.no_package dp)]
      | some p =>
        let log1 : List LockEvent :=
          if (st.pack p).closed then [.cerror (.closed_package p)] else []
        if (st.pack p).closed ∧ h (.closed_package p) = false then log1
        else if p = st.keyword_package then log1 ++ [.ferror .use_in_keyword]
        else if p = x then log1
        else if mkcl_member_eq x (st.pack p).uses then log1
        else
          log1 ++ [.lock x, .lock p] ++
            match use_package_scan st p (st.pack x).external with
            | some (here, there) =>
              [.unlock p, .unlock x, .ferror (.use_conflict x p here there),
               .lock x, .lock p, .unlock p, .unlock x]
            | none => [.unlock p, .unlock x]

/-- The lock events of `mkcl_unuse_package`; when `x` and `p` are the same package the
second lock is asked for and never granted, and nothing follows. -/
def mkcl_unuse_package_events (h : Handler) (st : State) (dx dp : Designator) :
    List LockEvent :=
  match mk_si_coerce_to_package st dx with
  | none => [.ferror (.no_package dx)]
  | some x =>
    match mk_si_coerce_to_package st dp with
    | none => [.ferror (.no_package dp)]
    | some p =>
      let log1 : List LockEvent :=
        if (st.pack p).closed then [.cerror (.closed_package p)] else []
      if (st.pack p).closed ∧ h (.closed_package p) = false then log1
      else if x = p then log1 ++ [.lock x, .lock p]
      else log1 ++ [.lock x, .lock p, .unlock p, .unlock x]

/-- The lock events of `mkcl_make_sized_package` from the label `INTERN` on, for the
package `x`: a nickname that is taken leaves the protected region before the continuable
error is signalled; `mk_si_coerce_to_package` is called on the elements of the use list
inside the region. -/
def make_package_intern_events (st : State) (x : Nat) (nicknames : List String)
    (use_list : List Designator) : List LockEvent :=
  match nicknames_scan st nicknames [] with
  | .error (nick, other) => [.list_unlock, .cerror (.already_exists nick other)]
  | .ok good_nicknames =>
    match use_list_loop x (st.set_pack x { st.pack x with nicknames := good_nicknames })
        use_list with
    | (_, some d) => [.ferror (.no_package d), .list_unlock]
    | (_, none) => [.list_unlock]

/-- The lock events of `mkcl_make_sized_package`: everything between the scan of the
waiting list and the registration happens with the package list locked. -/
def mkcl_make_sized_package_events (st : State) (name : String) (nicknames : List String)
    (use_list : List Designator) (external_size internal_size : Int) : List LockEvent :=
  .list_lock ::
    match pending_scan name nicknames st.packages_to_be_created with
    | some (x, rest) =>
      make_package_intern_events { st with packages_to_be_created := rest } x nicknames
        use_list
    | none =>
      match mkcl_find_package_nolock st (.string name) with
      | some other => [.list_unlock, .cerror (.already_exists name other)]
      | none =>
        if external_size < 0 ∨ st.atotlim < external_size
            ∨ internal_size < 0 ∨ st.atotlim < internal_size then
          [.ferror .size_out_of_range, .list_unlock]
        else
          make_package_intern_events (_mkcl_alloc_sized_package st name).1
            (_mkcl_alloc_sized_package st name).2 nicknames use_list

/-- Every error of the trace is signalled while no lock is held; `held` is the number of
locks held before the trace. -/
def signals_unlocked : Nat → List LockEvent → Bool
  | _, [] => true
  | held, .list_lock :: l => signals_unlocked (held + 1) l
  | held, .lock _ :: l => signals_unlocked (held + 1) l
  | held, .list_unlock :: l => signals_unlocked (held - 1) l
  | held, .unlock _ :: l => signals_unlocked (held - 1) l
  | held, .cerror _ :: l => held == 0 && signals_unlocked held l
  | held, .ferror _ :: l => held == 0 && signals_unlocked held l

/-- The packages whose locks the trace takes, in the order in which it takes them. -/
def locks_taken : List LockEvent → List Nat
  | [] => []
  | .lock p :: l => p :: locks_taken l
  | _ :: l => locks_taken l

/-! ## The operations as calls -/

/-- A call of one of the operations of the package system. -/
inductive Call where
  | make_package (name : String) (nicknames : List String) (use_list : List Designator)
      (external_size internal_size : Int)
  | rename_package (d : Designator) (name : String) (nicknames : List String)
  | delete_package (d : Designator)
  | intern (name : String) (d : Designator)
  | unintern (s : Nat) (d : Designator)
  | export2 (s : Nat) (d : Designator)
  | unexport2 (s : Nat) (d : Designator)
  | import2 (s : Nat) (d : Designator)
  | shadowing_import (s : Nat) (d : Designator)
  | shadow (name : String) (d : Designator)
  | use_package (dx dp : Designator)
  | unuse_package (dx dp : Designator)

/-- The state a call leaves, however it is left. -/
def Call.run (h : Handler) (fuel : Nat) (st : State) : Call → State
  | .make_package name nicknames use_list es is =>
    (mkcl_make_sized_package h st name nicknames use_list es is).state
  | .rename_package d name nicknames => (mkcl_rename_package h st d name nicknames).state
  | .delete_package d => (mk_cl_delete_package h st d).state
  | .intern name d => (mkcl_intern h fuel st name d).state
  | .unintern s d => (mkcl_unintern h fuel st s d).state
  | .export2 s d => (mkcl_export2 h st s d).state
  | .unexport2 s d => (mkcl_unexport2 h st s d).state
  | .import2 s d => (mkcl_import2 h st s d).state
  | .shadowing_import s d => (mkcl_shadowing_import h st s d).state
  | .shadow name d => (mkcl_shadow h st name d).state
  | .use_package dx dp => (mkcl_use_package h st dx dp).state
  | .unuse_package dx dp => (mkcl_unuse_package h st dx dp).state

/-- The state a sequence of calls leaves. -/
def Call.run_all (h : Handler) (fuel : Nat) : State → List Call → State
  | st, [] => st
  | st, c :: cs => Call.run_all h fuel (Call.run h fuel st c) cs

/-! ## Example states -/

/-- A package record with nothing in it. -/
def empty_package : Package :=
  { name := none, nicknames := [], external := [], internal := [], uses := [], usedby := [],
    shadowings := [], closed := false }

/-- The packages `LISP` (reference 0, exporting `NIL` and `CAR`) and `KEYWORD`
(reference 1). -/
def boot_state : State :=
  { pack := fun i =>
      match i with
      | 0 => { empty_package with name := some "LISP", external := [("NIL", 0), ("CAR", 1)] }
      | 1 => { empty_package with name := some "KEYWORD" }
      | _ => empty_package
    symbol := fun i =>
      match i with
      | 0 => { name := "NIL", hpack := some 0, constant := true, value := some 0 }
      | 1 => { name := "CAR", hpack := some 0, constant := false, value := none }
      | _ => { name := "", hpack := none, constant := false, value := none }
    pack_count := 2
    symbol_count := 2
    packages := [1, 0]
    packages_to_be_created := []
    keyword_package := 1
    lisp_package := 0
    atotlim := 1000000 }

/-- After `(make-package "FOO" :use '("LISP"))`: `FOO` is reference 2. -/
def foo_state : State :=
  (mkcl_make_package default_handler boot_state "FOO" [] [.string "LISP"]).state

/-- After `(intern "BAR" "FOO")` in `foo_state`: `BAR` is symbol 2. -/
def foo_bar_state : State :=
  (mkcl_intern default_handler 1 foo_state "BAR" (.package 2)).state

/-- After `(make-package "BAZ" :use '("FOO"))` in `foo_bar_state`: `BAZ` is reference 3
and `FOO` is used by it. -/
def baz_state : State :=
  (mkcl_make_package default_handler foo_bar_state "BAZ" [] [.string "FOO"]).state

/-- After `(intern "BAR" "BAZ")` in `baz_state`: `BAZ` has its own internal symbol `BAR`
(symbol 3), since the `BAR` of `FOO` is internal there. -/
def conflict_state : State :=
  (mkcl_intern default_handler 1 baz_state "BAR" (.package 3)).state

/-- Packages `U` (2), `A` (3), `B` (4) and `T` (5): `U` exports its symbol `X` (2), `A`
and `B` use `U`, and `A` holds as an internal symbol the unrelated symbol `X` (3) of `T`,
imported over the conflict with the default recovery; `A` has no shadowing symbols. -/
def own_internal_state : State :=
  Call.run_all default_handler 1 boot_state
    [.make_package "U" [] [] 129 129,
     .intern "X" (.string "U"),
     .export2 2 (.string "U"),
     .make_package "A" [] [.string "U"] 129 129,
     .make_package "B" [] [.string "U"] 129 129,
     .make_package "T" [] [] 129 129,
     .intern "X" (.string "T"),
     .import2 3 (.string "A")]

/-- As `own_internal_state`, after `A` has exported its own `X` (3). -/
def own_external_state : State :=
  Call.run default_handler 1 own_internal_state (.export2 3 (.string "A"))

/-- After `(intern "A" "LISP")`, which makes symbol 2, and `(unintern 'lisp::a "LISP")`
in `foo_state`: the symbol `A` (2) is homeless and in no package. -/
def homeless_state : State :=
  Call.run_all default_handler 1 foo_state
    [.intern "A" (.package 0), .unintern 2 (.package 0)]

/-- The state of `own_internal_state` before the import: `A` (3) and `B` (4) use `U`
(2), which exports its symbol `X` (2), and `T` (5) has its own internal symbol `X`
(3). -/
def inherited_conflict_state : State :=
  Call.run_all default_handler 1 boot_state
    [.make_package "U" [] [] 129 129,
     .intern "X" (.string "U"),
     .export2 2 (.string "U"),
     .make_package "A" [] [.string "U"] 129 129,
     .make_package "B" [] [.string "U"] 129 129,
     .make_package "T" [] [] 129 129,
     .intern "X" (.string "T")]

/-- After `(import 'lisp::a "FOO")` between the two calls of `homeless_state`: the
symbol `A` (2) is internal in `FOO` (2) and, uninterned from its home `LISP`,
homeless. -/
def present_homeless_state : State :=
  Call.run_all default_handler 1 foo_state
    [.intern "A" (.package 0), .import2 2 (.package 2), .unintern 2 (.package 0)]

/-- After `(si:close-package "FOO")` in `foo_bar_state`. -/
def closed_foo_state : State := (mk_si_close_package foo_bar_state (.string "FOO")).state

/-- After `(si:close-package "KEYWORD")` in `boot_state`. -/
def closed_keyword_state : State := (mk_si_close_package boot_state (.string "KEYWORD")).state

/-- Packages `A` (2) and `B` (3), neither using any package; `A` exports its own symbol
`X` (2) and `B` its own symbol `X` (3). -/
def two_exporters_state : State :=
  Call.run_all default_handler 1 boot_state
    [.make_package "A" [] [] 129 129,
     .intern "X" (.string "A"),
     .export2 2 (.string "A"),
     .make_package "B" [] [] 129 129,
     .intern "X" (.string "B"),
     .export2 3 (.string "B")]

/-- After `(make-package "P")`, `(shadow "X" "P")`, `(use-package "A" "P")` and
`(use-package "B" "P")` in `two_exporters_state`: `P` (4) has its own shadowing symbol
`X` (4) and uses `B` (3) and `A` (2), which export different symbols named `X`. -/
def shadowed_conflict_state : State :=
  Call.run_all default_handler 1 two_exporters_state
    [.make_package "P" [] [] 129 129,
     .shadow "X" (.string "P"),
     .use_package (.string "A") (.string "P"),
     .use_package (.string "B") (.string "P")]

/-- The state `boot_state` with a stand-in package `F` (2) waiting to be created under
the name `F`: it is allocated, has that name and nothing else, and is not in the package
list. -/
def pending_state : State :=
  { boot_state with
    pack := Function.update boot_state.pack 2 { empty_package with name := some "F" }
    pack_count := 3
    packages_to_be_created := [("F", 2)] }

/-- After `(rename-package "FOO" "FOO" '("LISP"))` in `foo_state`: `FOO` (2), the first
package of the package list, has the nickname `LISP`, which is also the name of the
package `LISP` (0). -/
def nickname_collision_state : State :=
  (mkcl_rename_package default_handler foo_state (.package 2) "FOO" ["LISP"]).state

/-- After `(make-package "A")` and `(make-package "B")` in `boot_state`: two open
packages `A` (2) and `B` (3) without symbols that use nothing. -/
def two_packages_state : State :=
  Call.run_all default_handler 1 boot_state
    [.make_package "A" [] [] 129 129, .make_package "B" [] [] 129 129]

/-- After `(make-package "F" :use (list f))` in `pending_state`, where `f` is the waiting
stand-in `F` (2) itself: the stand-in is adopted and entered in the package list, and it
uses itself. -/
def self_use_state : State :=
  (mkcl_make_package default_handler pending_state "F" [] [.package 2]).state

/-! ## Invariants -/

/-- Use/used-by mutuality (invariant I3): `P` is in `Q.uses` exactly when `Q` is in
`P.usedby`. -/
def mutual_use_edges (st : State) : Prop :=
  ∀ P Q, P ∈ (st.pack Q).uses ↔ Q ∈ (st.pack P).usedby

/-- No package refers to the reference the allocator hands out next. -/
def next_package_unreferenced (st : State) : Prop :=
  ∀ Q, st.pack_count ∉ (st.pack Q).uses ∧ st.pack_count ∉ (st.pack Q).usedby

/-- The state `st'` has the use and used-by lists of `st`. -/
def same_edges (st st' : State) : Prop :=
  ∀ q, (st'.pack q).uses = (st.pack q).uses ∧ (st'.pack q).usedby = (st.pack q).usedby

/-- Exclusivity (invariant I1): no name is in both the internal and the external table
of a package. -/
def exclusive_tables (st : State) : Prop :=
  ∀ P n, ¬ (mkcl_gethash_safe n (st.pack P).internal ≠ none
    ∧ mkcl_gethash_safe n (st.pack P).external ≠ none)

/-- The calls `(intern "A" "LISP")`, which makes symbol 2, `(import 'lisp::a "KEYWORD")`
and `(intern "A" "KEYWORD")`. -/
def keyword_import_calls : List Call :=
  [.intern "A" (.package 0), .import2 2 (.package 1), .intern "A" (.package 1)]

/-- Exclusivity of the two tables of one package record. -/
def Package.exclusive (pk : Package) : Prop :=
  ∀ n, mkcl_gethash_safe n pk.internal = none ∨ mkcl_gethash_safe n pk.external = none

/-- The calls that work on the symbols of one package. -/
def Call.is_symbol_call : Call → Bool
  | .intern _ _ => true
  | .unintern _ _ => true
  | .export2 _ _ => true
  | .unexport2 _ _ => true
  | .import2 _ _ => true
  | .shadowing_import _ _ => true
  | .shadow _ _ => true
  | _ => false

/-- The state `st'` has the distinguished packages, the limits, the package list, the
waiting list and the allocation count of `st`. -/
def same_core (st st' : State) : Prop :=
  st'.keyword_package = st.keyword_package ∧ st'.lisp_package = st.lisp_package
    ∧ st'.atotlim = st.atotlim ∧ st'.packages = st.packages
    ∧ st'.packages_to_be_created = st.packages_to_be_created
    ∧ st'.pack_count = st.pack_count

/-- Every package reference held in a use or used-by list, in the package list or in the
waiting list has been handed out by the allocator. -/
def heap_closed (st : State) : Prop :=
  (∀ Q r, r ∈ (st.pack Q).uses → r < st.pack_count)
    ∧ (∀ Q r, r ∈ (st.pack Q).usedby → r < st.pack_count)
    ∧ (∀ p ∈ st.packages, p < st.pack_count)
    ∧ (∀ e ∈ st.packages_to_be_created, e.2 < st.pack_count)

/-- A designator that is a package object is an allocated one. -/
def Designator.allocated (st : State) : Designator → Prop
  | .package p => p < st.pack_count
  | .string _ => True

/-- The package objects among the arguments of a call are allocated. -/
def Call.allocated (st : State) : Call → Prop
  | .make_package _ _ use_list _ _ => ∀ d ∈ use_list, d.allocated st
  | .rename_package d _ _ => d.allocated st
  | .delete_package d => d.allocated st
  | .intern _ d => d.allocated st
  | .unintern _ d => d.allocated st
  | .export2 _ d => d.allocated st
  | .unexport2 _ d => d.allocated st
  | .import2 _ d => d.allocated st
  | .shadowing_import _ d => d.allocated st
  | .shadow _ d => d.allocated st
  | .use_package dx dp => dx.allocated st ∧ dp.allocated st
  | .unuse_package dx dp => dx.allocated st ∧ dp.allocated st

/-- Each call of a sequence has allocated arguments in the state in which it runs. -/
def calls_allocated (h : Handler) (fuel : Nat) : State → List Call → Prop
  | _, [] => True
  | st, c :: cs => c.allocated st ∧ calls_allocated h fuel (Call.run h fuel st c) cs

/-- The call with outcome `o`, made in the state `st`, raised the closed-package error
for `p` first, and had not changed the state when it raised it: the error is the first
signal, and when the handler `h` declines it the call ends there in the state `st`. -/
def raises_closed_first {α : Type} (h : Handler) (st : State) (p : Nat) (o : Outcome α) :
    Prop :=
  o.signals.head? = some (.closed_package p) ∧
  (h (.closed_package p) = false → o.state = st ∧ o.exit = .declined (.closed_package p))

/-- The names by which a package record is known: its name and its nicknames. -/
def Package.names (pk : Package) : List String := pk.name.toList ++ pk.nicknames

/-- Uniqueness (invariant I5): no two distinct packages of the package list share a name
or nickname. -/
def unique_names (st : State) : Prop :=
  ∀ p ∈ st.packages, ∀ q ∈ st.packages, p ≠ q →
    ∀ k ∈ (st.pack p).names, k ∉ (st.pack q).names

instance unique_names_decidable (st : State) : Decidable (unique_names st) := by
  unfold unique_names
  infer_instance

/-- No silent shadowing conflict (invariant I7): for every package `P` and name `n`, the
packages of `P.uses` that have `n` in their external table have the same symbol for it,
unless `P.shadowings` holds a symbol named `n`. -/
def no_silent_conflict (st : State) : Prop :=
  ∀ P n, (∃ x ∈ (st.pack P).shadowings, (st.symbol x).name = n) ∨
    ∀ U ∈ (st.pack P).uses, ∀ V ∈ (st.pack P).uses, ∀ s t,
      mkcl_gethash_safe n (st.pack U).external = some s →
      mkcl_gethash_safe n (st.pack V).external = some t → s = t

/-- No package uses any package. -/
def no_use_edges (st : State) : Prop := ∀ q, (st.pack q).uses = []

/-- Keyword package singularity (invariant I4): the keyword package has an empty
internal table, so that every symbol it holds is external, an empty use list and an
empty used-by list, and is in the use list of no package of the package list. -/
def keyword_singular (st : State) : Prop :=
  (st.pack st.keyword_package).internal = [] ∧
  (st.pack st.keyword_package).uses = [] ∧
  (st.pack st.keyword_package).usedby = [] ∧
  ∀ p ∈ st.packages, st.keyword_package ∉ (st.pack p).uses

instance keyword_singular_decidable (st : State) : Decidable (keyword_singular st) := by
  unfold keyword_singular
  infer_instance

/-- Home consistency (invariant I2): a symbol whose home package is `P` is present,
under its own name, in the external or the internal table of `P`. -/
def home_consistent (st : State) : Prop :=
  ∀ s P, (st.symbol s).hpack = some P →
    mkcl_gethash_safe (st.symbol s).name (st.pack P).external = some s
      ∨ mkcl_gethash_safe (st.symbol s).name (st.pack P).internal = some s

/-- The calls `(intern "A" "LISP")`, which makes symbol 2, `(unintern 'lisp::a "LISP")`,
`(import 'a "KEYWORD")` of the now homeless symbol, and `(shadow "A" "KEYWORD")`. -/
def keyword_shadow_calls : List Call :=
  [.intern "A" (.package 0), .unintern 2 (.package 0), .import2 2 (.package 1),
   .shadow "A" (.package 1)]

/-- Two packages of the list `l` have different symbols for `name` in their external
tables. -/
def uses_conflict (st : State) (name : String) (l : List Nat) : Prop :=
  ∃ U ∈ l, ∃ V ∈ l, ∃ a b,
    mkcl_gethash_safe name (st.pack U).external = some a
      ∧ mkcl_gethash_safe name (st.pack V).external = some b ∧ a ≠ b

/-- Shadowing symbols are local: every member of the shadowing list of a package is
present, under its own name, in the external or the internal table of that package. -/
def shadows_local (st : State) : Prop :=
  ∀ P s, s ∈ (st.pack P).shadowings →
    mkcl_gethash_safe (st.symbol s).name (st.pack P).external = some s
      ∨ mkcl_gethash_safe (st.symbol s).name (st.pack P).internal = some s

/-! ## Lemmas on the collaborators -/

theorem gethash_remhash (n m : String) (t : HashTable) :
    mkcl_gethash_safe n (mkcl_remhash m t) = if n = m then none else mkcl_gethash_safe n t := by
  induction t with
  | nil => simp [mkcl_remhash, mkcl_gethash_safe]
  | cons e t ih =>
    obtain ⟨k, v⟩ := e
    unfold mkcl_remhash at ih ⊢
    by_cases hk : k = m
    · subst hk
      by_cases hn : n = k
      · subst hn
        simpa [List.filter, mkcl_gethash_safe] using ih
      · have hn2 : ¬ k = n := fun e => hn e.symm
        simpa [List.filter, mkcl_gethash_safe, hn, hn2] using ih
    · by_cases hn : n = m
      · subst hn
        simpa [List.filter, mkcl_gethash_safe, hk] using ih
      · by_cases hkn : k = n
        · simp [List.filter, mkcl_gethash_safe, hk, hkn, hn]
        · simpa [List.filter, mkcl_gethash_safe, hk, hkn, hn] using ih

theorem gethash_sethash (n m : String) (t : HashTable) (v : Nat) :
    mkcl_gethash_safe n (mkcl_sethash m t v)
      = if m = n then some v else mkcl_gethash_safe n t := by
  unfold mkcl_sethash
  by_cases hmn : m = n
  · simp [mkcl_gethash_safe, hmn]
  · have hnm : ¬ n = m := fun e => hmn e.symm
    simp [mkcl_gethash_safe, hmn, gethash_remhash, hnm]

theorem remhash_absent (n : String) (t : HashTable) (hn : mkcl_gethash_safe n t = none) :
    mkcl_remhash n t = t := by
  induction t with
  | nil => rfl
  | cons e t ih =>
    obtain ⟨k, v⟩ := e
    by_cases hk : k = n
    · simp [mkcl_gethash_safe, hk] at hn
    · simp only [mkcl_gethash_safe, hk, if_false] at hn
      have := ih hn
      unfold mkcl_remhash at this ⊢
      rw [List.filter_cons_of_pos (by simpa using hk), this]

theorem sethash_absent (n : String) (t : HashTable) (v : Nat)
    (hn : mkcl_gethash_safe n t = none) : mkcl_sethash n t v = (n, v) :: t := by
  simp [mkcl_sethash, remhash_absent n t hn]

@[simp] theorem set_pack_pack (st : State) (p q : Nat) (v : Package) :
    (st.set_pack p v).pack q = if q = p then v else st.pack q := by
  simp [State.set_pack, Function.update_apply]

@[simp] theorem set_pack_symbol (st : State) (p : Nat) (v : Package) :
    (st.set_pack p v).symbol = st.symbol := rfl

@[simp] theorem set_pack_keyword (st : State) (p : Nat) (v : Package) :
    (st.set_pack p v).keyword_package = st.keyword_package := rfl

@[simp] theorem set_pack_lisp (st : State) (p : Nat) (v : Package) :
    (st.set_pack p v).lisp_package = st.lisp_package := rfl

@[simp] theorem set_pack_packages (st : State) (p : Nat) (v : Package) :
    (st.set_pack p v).packages = st.packages := rfl

@[simp] theorem set_pack_pending (st : State) (p : Nat) (v : Package) :
    (st.set_pack p v).packages_to_be_created = st.packages_to_be_created := rfl

@[simp] theorem set_pack_pack_count (st : State) (p : Nat) (v : Package) :
    (st.set_pack p v).pack_count = st.pack_count := rfl

@[simp] theorem set_pack_symbol_count (st : State) (p : Nat) (v : Package) :
    (st.set_pack p v).symbol_count = st.symbol_count := rfl

@[simp] theorem set_symbol_symbol (st : State) (s t : Nat) (v : Symbol) :
    (st.set_symbol s v).symbol t = if t = s then v else st.symbol t := by
  simp [State.set_symbol, Function.update_apply]

@[simp] theorem set_symbol_pack (st : State) (s : Nat) (v : Symbol) :
    (st.set_symbol s v).pack = st.pack := rfl

@[simp] theorem set_symbol_keyword (st : State) (s : Nat) (v : Symbol) :
    (st.set_symbol s v).keyword_package = st.keyword_package := rfl

@[simp] theorem set_symbol_lisp (st : State) (s : Nat) (v : Symbol) :
    (st.set_symbol s v).lisp_package = st.lisp_package := rfl

@[simp] theorem set_symbol_packages (st : State) (s : Nat) (v : Symbol) :
    (st.set_symbol s v).packages = st.packages := rfl

@[simp] theorem set_symbol_pending (st : State) (s : Nat) (v : Symbol) :
    (st.set_symbol s v).packages_to_be_created = st.packages_to_be_created := rfl

@[simp] theorem set_symbol_pack_count (st : State) (s : Nat) (v : Symbol) :
    (st.set_symbol s v).pack_count = st.pack_count := rfl

@[simp] theorem set_symbol_symbol_count (st : State) (s : Nat) (v : Symbol) :
    (st.set_symbol s v).symbol_count = st.symbol_count := rfl

/-! ## Lemmas on name resolution -/

theorem find_in_uses_none (st : State) (n : String) (ul : List Nat) :
    find_in_uses st n ul = none ↔ ∀ U ∈ ul, mkcl_gethash_safe n (st.pack U).external = none := by
  induction ul with
  | nil => simp [find_in_uses]
  | cons u ul ih =>
    unfold find_in_uses
    cases hu : mkcl_gethash_safe n (st.pack u).external with
    | none => simp [hu, ih]
    | some s => simp [hu]

theorem find_in_uses_first (st : State) (n : String) (l1 l2 : List Nat) (U s : Nat)
    (h1 : ∀ V ∈ l1, mkcl_gethash_safe n (st.pack V).external = none)
    (hU : mkcl_gethash_safe n (st.pack U).external = some s) :
    find_in_uses st n (l1 ++ U :: l2) = some s := by
  induction l1 with
  | nil => simp [find_in_uses, hU]
  | cons v l1 ih =>
    have hv : mkcl_gethash_safe n (st.pack v).external = none := h1 v (by simp)
    have := ih (fun V hV => h1 V (by simp [hV]))
    simp [find_in_uses, hv, this]

theorem find_in_uses_congr (st st' : State) (n : String) (ul : List Nat)
    (hx : ∀ U ∈ ul, (st'.pack U).external = (st.pack U).external) :
    find_in_uses st' n ul = find_in_uses st n ul := by
  induction ul with
  | nil => rfl
  | cons u ul ih =>
    have hu : (st'.pack u).external = (st.pack u).external := hx u (by simp)
    have := ih (fun U hU => hx U (by simp [hU]))
    simp [find_in_uses, hu, this]

theorem find_symbol_flag_zero (st : State) (n : String) (p : Nat) :
    (mkcl_find_symbol_nolock st n p).2 = .zero ↔
      mkcl_gethash_safe n (st.pack p).external = none ∧
        (p = st.keyword_package ∨
          (mkcl_gethash_safe n (st.pack p).internal = none ∧
            find_in_uses st n (st.pack p).uses = none)) := by
  unfold mkcl_find_symbol_nolock
  cases he : mkcl_gethash_safe n (st.pack p).external with
  | some s => simp
  | none =>
    by_cases hk : p = st.keyword_package
    · simp [hk]
    · cases hi : mkcl_gethash_safe n (st.pack p).internal with
      | some s => simp [hk]
      | none =>
        cases hu : find_in_uses st n (st.pack p).uses with
        | some s => simp [hk]
        | none => simp [hk]

/-! ## Name resolution -/

/-- C1: in a package `P` other than the keyword package, `mkcl_find_symbol_nolock`
returns the entry of `P.external` with tag external if there is one, otherwise the entry
of `P.internal` with tag internal, otherwise the entry in the external table of the
first package of `P.uses` that has one with tag inherited, otherwise `mk_cl_Cnil` with
flag 0; and the result depends only on `P.external`, `P.internal`, `P.uses` and the
external tables of the packages of `P.uses` (not on their internal tables or use
lists). -/
theorem find_symbol_resolution (st : State) (P : Nat) (n : String)
    (hK : P ≠ st.keyword_package) :
    (∀ s, mkcl_gethash_safe n (st.pack P).external = some s →
        mkcl_find_symbol_nolock st n P = (s, .external)) ∧
    (∀ s, mkcl_gethash_safe n (st.pack P).external = none →
        mkcl_gethash_safe n (st.pack P).internal = some s →
        mkcl_find_symbol_nolock st n P = (s, .internal)) ∧
    (∀ s l1 U l2, mkcl_gethash_safe n (st.pack P).external = none →
        mkcl_gethash_safe n (st.pack P).internal = none →
        (st.pack P).uses = l1 ++ U :: l2 →
        (∀ V ∈ l1, mkcl_gethash_safe n (st.pack V).external = none) →
        mkcl_gethash_safe n (st.pack U).external = some s →
        mkcl_find_symbol_nolock st n P = (s, .inherited)) ∧
    (mkcl_gethash_safe n (st.pack P).external = none →
        mkcl_gethash_safe n (st.pack P).internal = none →
        (∀ U ∈ (st.pack P).uses, mkcl_gethash_safe n (st.pack U).external = none) →
        mkcl_find_symbol_nolock st n P = (mk_cl_Cnil, .zero)) ∧
    (∀ st' : State, st'.keyword_package = st.keyword_package →
        (st'.pack P).external = (st.pack P).external →
        (st'.pack P).internal = (st.pack P).internal →
        (st'.pack P).uses = (st.pack P).uses →
        (∀ U ∈ (st.pack P).uses, (st'.pack U).external = (st.pack U).external) →
        mkcl_find_symbol_nolock st' n P = mkcl_find_symbol_nolock st n P) := by
  refine ⟨?_, ?_, ?_, ?_, ?_⟩
  · intro s he
    simp [mkcl_find_symbol_nolock, he]
  · intro s he hi
    simp [mkcl_find_symbol_nolock, he, hi, hK]
  · intro s l1 U l2 he hi hu h1 hU
    have := find_in_uses_first st n l1 l2 U s h1 hU
    simp [mkcl_find_symbol_nolock, he, hi, hK, hu, this]
  · intro he hi hu
    have := (find_in_uses_none st n (st.pack P).uses).mpr hu
    simp [mkcl_find_symbol_nolock, he, hi, hK, this]
  · intro st' hk he hi hu hx
    have := find_in_uses_congr st st' n (st.pack P).uses hx
    simp [mkcl_find_symbol_nolock, he, hi, hk, hu, this]

/-- Witness of C1: in `foo_bar_state` the package `FOO` (2) is not the keyword package,
and `CAR` resolves there to the symbol exported by `LISP`, inherited. -/
theorem find_symbol_resolution_witness :
    2 ≠ foo_bar_state.keyword_package ∧
      mkcl_find_symbol_nolock foo_bar_state "CAR" 2 = (1, .inherited) :=
  ⟨by decide!,
   (find_symbol_resolution foo_bar_state 2 "CAR" (by decide!)).2.2.1 1 [] 0 []
     (by decide!) (by decide!) (by decide!) (by simp) (by decide!)⟩

/-! ## Intern -/

theorem intern_loop_found (h : Handler) (st : State) (n : String) (p fuel : Nat)
    (log : List CError) (hf : (mkcl_find_symbol_nolock st n p).2 ≠ .zero) :
    mkcl_intern_loop h st n p (fuel + 1) log
      = ⟨st, log, .ret (mkcl_find_symbol_nolock st n p)⟩ := by
  unfold mkcl_find_symbol_nolock at hf ⊢
  unfold mkcl_intern_loop
  cases he : mkcl_gethash_safe n (st.pack p).external with
  | some s => simp
  | none =>
    rw [he] at hf
    by_cases hk : p = st.keyword_package
    · simp [hk] at hf
    · cases hi : mkcl_gethash_safe n (st.pack p).internal with
      | some s => simp [hk]
      | none =>
        cases hu : find_in_uses st n (st.pack p).uses with
        | some s => simp [hk]
        | none => simp [hk, hi, hu] at hf

theorem intern_loop_new (h : Handler) (st : State) (n : String) (p fuel : Nat)
    (log : List CError) (hz : (mkcl_find_symbol_nolock st n p).2 = .zero)
    (hopen : (st.pack p).closed = false) :
    (mkcl_intern_loop h st n p (fuel + 1) log).exit = .ret (st.symbol_count, .zero) ∧
    (mkcl_intern_loop h st n p (fuel + 1) log).signals = log ∧
    (mkcl_intern_loop h st n p (fuel + 1) log).state.symbol_count = st.symbol_count + 1 ∧
    (mkcl_intern_loop h st n p (fuel + 1) log).state.symbol st.symbol_count
      = { name := n, hpack := some p, constant := decide (p = st.keyword_package),
          value := if p = st.keyword_package then some st.symbol_count else none } ∧
    (∀ t, t ≠ st.symbol_count →
      (mkcl_intern_loop h st n p (fuel + 1) log).state.symbol t = st.symbol t) ∧
    (mkcl_intern_loop h st n p (fuel + 1) log).state.pack p
      = (if p = st.keyword_package then
          { st.pack p with external := (n, st.symbol_count) :: (st.pack p).external }
        else { st.pack p with internal := (n, st.symbol_count) :: (st.pack p).internal }) ∧
    (∀ q, q ≠ p → (mkcl_intern_loop h st n p (fuel + 1) log).state.pack q = st.pack q) ∧
    (mkcl_intern_loop h st n p (fuel + 1) log).state.packages = st.packages ∧
    (mkcl_intern_loop h st n p (fuel + 1) log).state.packages_to_be_created
      = st.packages_to_be_created ∧
    (mkcl_intern_loop h st n p (fuel + 1) log).state.keyword_package = st.keyword_package ∧
    (mkcl_intern_loop h st n p (fuel + 1) log).state.lisp_package = st.lisp_package ∧
    (mkcl_intern_loop h st n p (fuel + 1) log).state.pack_count = st.pack_count := by
  obtain ⟨he, hrest⟩ := (find_symbol_flag_zero st n p).mp hz
  unfold mkcl_intern_loop
  by_cases hk : p = st.keyword_package
  · simp [he, hk.symm ▸ hopen, hopen, hk, mk_cl_make_symbol, sethash_absent, hk ▸ he]
    refine ⟨?_, ?_⟩
    · intro t ht
      simp [ht, Function.update_apply]
    · intro q hq hq2
      exact absurd hq2 hq
  · rcases hrest with hkw | ⟨hi, hu⟩
    · exact absurd hkw hk
    · simp [he, hk, hi, hu, hopen, mk_cl_make_symbol, sethash_absent]
      refine ⟨?_, ?_⟩
      · intro t ht
        simp [ht, Function.update_apply]
      · intro q hq hq2
        exact absurd hq2 hq

theorem intern_loop_new_find (h : Handler) (st : State) (n : String) (p fuel : Nat)
    (log : List CError) (hz : (mkcl_find_symbol_nolock st n p).2 = .zero)
    (hopen : (st.pack p).closed = false) :
    mkcl_find_symbol_nolock (mkcl_intern_loop h st n p (fuel + 1) log).state n p
      = (st.symbol_count, if p = st.keyword_package then .external else .internal) := by
  obtain ⟨_, _, _, _, _, hp, _, _, _, hkw, _, _⟩ := intern_loop_new h st n p fuel log hz hopen
  obtain ⟨he, hrest⟩ := (find_symbol_flag_zero st n p).mp hz
  unfold mkcl_find_symbol_nolock
  rw [hp, hkw]
  by_cases hk : p = st.keyword_package
  · simp [hk, mkcl_gethash_safe]
  · simp [hk, mkcl_gethash_safe, he]

/-- C2: in an open package `P` in which `n` does not resolve, `mkcl_intern` returns a
newly created symbol (the next reference of the allocator) with flag 0, named `n`, whose
home is `P`; the symbol is added to `P.internal` (to `P.external` when `P` is the
keyword package) and nothing else of `P`, no other package and no other symbol changes;
`mkcl_find_symbol_nolock` then returns that symbol with tag internal (external for the
keyword package). -/
theorem intern_creates_symbol (h : Handler) (fuel : Nat) (st : State) (P : Nat) (n : String)
    (hopen : (st.pack P).closed = false)
    (hnone : (mkcl_find_symbol_nolock st n P).2 = .zero) :
    (mkcl_intern h (fuel + 1) st n (.package P)).exit = .ret (st.symbol_count, .zero) ∧
    (mkcl_intern h (fuel + 1) st n (.package P)).signals = [] ∧
    (mkcl_intern h (fuel + 1) st n (.package P)).state.symbol_count = st.symbol_count + 1 ∧
    ((mkcl_intern h (fuel + 1) st n (.package P)).state.symbol st.symbol_count).name = n ∧
    ((mkcl_intern h (fuel + 1) st n (.package P)).state.symbol st.symbol_count).hpack
      = some P ∧
    (∀ t, t ≠ st.symbol_count →
      (mkcl_intern h (fuel + 1) st n (.package P)).state.symbol t = st.symbol t) ∧
    (mkcl_intern h (fuel + 1) st n (.package P)).state.pack P
      = (if P = st.keyword_package then
          { st.pack P with external := (n, st.symbol_count) :: (st.pack P).external }
        else { st.pack P with internal := (n, st.symbol_count) :: (st.pack P).internal }) ∧
    (∀ Q, Q ≠ P → (mkcl_intern h (fuel + 1) st n (.package P)).state.pack Q = st.pack Q) ∧
    (mkcl_intern h (fuel + 1) st n (.package P)).state.packages = st.packages ∧
    mkcl_find_symbol_nolock (mkcl_intern h (fuel + 1) st n (.package P)).state n P
      = (st.symbol_count, if P = st.keyword_package then .external else .internal) := by
  have hI : mkcl_intern h (fuel + 1) st n (.package P)
      = mkcl_intern_loop h st n P (fuel + 1) [] := rfl
  rw [hI]
  obtain ⟨h1, h2, h3, h4, h5, h6, h7, h8, _, _, _, _⟩ :=
    intern_loop_new h st n P fuel [] hnone hopen
  refine ⟨h1, h2, h3, ?_, ?_, h5, h6, h7, h8,
    intern_loop_new_find h st n P fuel [] hnone hopen⟩
  · rw [h4]
  · rw [h4]

/-- Witness of C2: `FOO` is open in `foo_state` and `BAR` does not resolve there;
interning it returns the new symbol 2 and `BAR` is then internal in `FOO`. -/
theorem intern_creates_symbol_witness :
    (foo_state.pack 2).closed = false ∧
    (mkcl_find_symbol_nolock foo_state "BAR" 2).2 = .zero ∧
    (mkcl_intern default_handler 1 foo_state "BAR" (.package 2)).exit = .ret (2, .zero) ∧
    mkcl_find_symbol_nolock
        (mkcl_intern default_handler 1 foo_state "BAR" (.package 2)).state "BAR" 2
      = (2, .internal) :=
  ⟨by decide!, by decide!,
   (intern_creates_symbol default_handler 0 foo_state 2 "BAR" (by decide!) (by decide!)).1,
   (intern_creates_symbol default_handler 0 foo_state 2 "BAR"
      (by decide!) (by decide!)).2.2.2.2.2.2.2.2.2⟩

/-- C3: calling `mkcl_intern` twice on an open package returns the same symbol both
times, the second call reports a flag other than 0, and the second call leaves the
state unchanged. -/
theorem intern_idempotent (h1 h2 : Handler) (fuel1 fuel2 : Nat) (st : State) (P : Nat)
    (n : String) (hopen : (st.pack P).closed = false) :
    ∃ s t1 t2,
      (mkcl_intern h1 (fuel1 + 1) st n (.package P)).exit = .ret (s, t1) ∧
      (mkcl_intern h2 (fuel2 + 1) (mkcl_intern h1 (fuel1 + 1) st n (.package P)).state n
          (.package P)).exit = .ret (s, t2) ∧
      t2 ≠ .zero ∧
      (mkcl_intern h2 (fuel2 + 1) (mkcl_intern h1 (fuel1 + 1) st n (.package P)).state n
          (.package P)).state = (mkcl_intern h1 (fuel1 + 1) st n (.package P)).state := by
  have hI : ∀ (h : Handler) (f : Nat) (st : State),
      mkcl_intern h (f + 1) st n (.package P) = mkcl_intern_loop h st n P (f + 1) [] :=
    fun _ _ _ => rfl
  rw [hI h1 fuel1 st, hI h2 fuel2]
  by_cases hz : (mkcl_find_symbol_nolock st n P).2 = .zero
  · have hnew := intern_loop_new h1 st n P fuel1 [] hz hopen
    have hfind := intern_loop_new_find h1 st n P fuel1 [] hz hopen
    have hnz : (mkcl_find_symbol_nolock (mkcl_intern_loop h1 st n P (fuel1 + 1) []).state
        n P).2 ≠ .zero := by
      rw [hfind]
      by_cases hk : P = st.keyword_package <;> simp [hk]
    refine ⟨st.symbol_count, .zero,
      if P = st.keyword_package then .external else .internal, hnew.1, ?_, ?_, ?_⟩
    · rw [intern_loop_found h2 _ n P fuel2 [] hnz, hfind]
    · by_cases hk : P = st.keyword_package <;> simp [hk]
    · rw [intern_loop_found h2 _ n P fuel2 [] hnz]
  · rw [intern_loop_found h1 st n P fuel1 [] hz]
    refine ⟨(mkcl_find_symbol_nolock st n P).1, (mkcl_find_symbol_nolock st n P).2,
      (mkcl_find_symbol_nolock st n P).2, rfl, ?_, hz, ?_⟩
    · rw [intern_loop_found h2 st n P fuel2 [] hz]
    · rw [intern_loop_found h2 st n P fuel2 [] hz]

/-- Witness of C3: `FOO` is open in `foo_state`; interning `BAR` twice returns symbol 2
both times, the second time as an internal symbol. -/
theorem intern_idempotent_witness :
    (foo_state.pack 2).closed = false ∧
    ∃ s t1 t2,
      (mkcl_intern default_handler 1 foo_state "BAR" (.package 2)).exit = .ret (s, t1) ∧
      (mkcl_intern default_handler 1
          (mkcl_intern default_handler 1 foo_state "BAR" (.package 2)).state "BAR"
          (.package 2)).exit = .ret (s, t2) ∧
      t2 ≠ .zero ∧
      (mkcl_intern default_handler 1
          (mkcl_intern default_handler 1 foo_state "BAR" (.package 2)).state "BAR"
          (.package 2)).state
        = (mkcl_intern default_handler 1 foo_state "BAR" (.package 2)).state :=
  ⟨by decide!, intern_idempotent default_handler default_handler 0 0 foo_state 2 "BAR"
    (by decide!)⟩

/-! ## Export -/

theorem export_usedby_scan_none (st : State) (name : String) (s : Nat) (l : List Nat) :
    export_usedby_scan st name s l = none ↔
      ∀ q ∈ l, ¬ ((mkcl_find_symbol_nolock st name q).2 ≠ .zero
        ∧ (mkcl_find_symbol_nolock st name q).1 ≠ s
        ∧ (mkcl_find_symbol_nolock st name q).1 ∉ (st.pack q).shadowings) := by
  induction l with
  | nil => simp [export_usedby_scan]
  | cons q l ih =>
    unfold export_usedby_scan
    by_cases hc : (mkcl_find_symbol_nolock st name q).2 ≠ .zero
        ∧ s ≠ (mkcl_find_symbol_nolock st name q).1
        ∧ mkcl_member_eq (mkcl_find_symbol_nolock st name q).1 (st.pack q).shadowings = false
    · rw [if_pos hc]
      simp only [List.mem_cons, forall_eq_or_imp, false_iff, reduceCtorEq]
      intro hall
      apply hall.1
      refine ⟨hc.1, fun e => hc.2.1 e.symm, ?_⟩
      simpa [mkcl_member_eq] using hc.2.2
    · rw [if_neg hc, ih]
      simp only [List.mem_cons, forall_eq_or_imp, iff_and_self]
      intro _ hq
      apply hc
      refine ⟨hq.1, fun e => hq.2.1 e.symm, ?_⟩
      simpa [mkcl_member_eq] using hq.2.2

theorem export_usedby_scan_some (st : State) (name : String) (s q : Nat) (l : List Nat)
    (hq : export_usedby_scan st name s l = some q) :
    q ∈ l ∧ (mkcl_find_symbol_nolock st name q).2 ≠ .zero
      ∧ (mkcl_find_symbol_nolock st name q).1 ≠ s
      ∧ (mkcl_find_symbol_nolock st name q).1 ∉ (st.pack q).shadowings := by
  induction l with
  | nil => simp [export_usedby_scan] at hq
  | cons r l ih =>
    unfold export_usedby_scan at hq
    by_cases hc : (mkcl_find_symbol_nolock st name r).2 ≠ .zero
        ∧ s ≠ (mkcl_find_symbol_nolock st name r).1
        ∧ mkcl_member_eq (mkcl_find_symbol_nolock st name r).1 (st.pack r).shadowings = false
    · rw [if_pos hc] at hq
      have hrq : r = q := by simpa using hq
      subst hrq
      refine ⟨by simp, hc.1, fun e => hc.2.1 e.symm, ?_⟩
      simpa [mkcl_member_eq] using hc.2.2
    · rw [if_neg hc] at hq
      obtain ⟨h1, h2⟩ := ih hq
      exact ⟨by simp [h1], h2⟩

theorem export2_state_of_not_ret (h : Handler) (st : State) (s : Nat) (d : Designator)
    (hne : (mkcl_export2 h st s d).exit ≠ .ret ()) : (mkcl_export2 h st s d).state = st := by
  revert hne
  unfold mkcl_export2
  dsimp only
  split
  · intro _; rfl
  · split_ifs
    all_goals first
      | (intro _; rfl)
      | (split <;> first | (intro _; rfl) | (intro hne; exact absurd rfl hne))

theorem export2_accessible (h : Handler) (st : State) (s P : Nat)
    (hopen : (st.pack P).closed = false)
    (hx : (mkcl_find_symbol_nolock st (mkcl_symbol_name st s) P).1 = s)
    (hf : (mkcl_find_symbol_nolock st (mkcl_symbol_name st s) P).2 = .internal
      ∨ (mkcl_find_symbol_nolock st (mkcl_symbol_name st s) P).2 = .inherited) :
    mkcl_export2 h st s (.package P) =
      match export_usedby_scan st (mkcl_symbol_name st s) s (st.pack P).usedby with
      | some q => ⟨st, [], .fatal (.export_conflict s P q)⟩
      | none =>
        ⟨st.set_pack P
            { st.pack P with
              internal :=
                if (mkcl_find_symbol_nolock st (mkcl_symbol_name st s) P).2 = .internal then
                  mkcl_remhash (mkcl_symbol_name st s) (st.pack P).internal
                else (st.pack P).internal
              external := mkcl_sethash (mkcl_symbol_name st s) (st.pack P).external s },
          [], .ret ()⟩ := by
  unfold mkcl_export2
  rcases hf with hf | hf <;>
    simp [mk_si_coerce_to_package, mkcl_find_package_nolock, hopen, hx, hf]

/-- C4: when `s` is internal in the open package `P` and no package of `P.usedby`
resolves the name of `s` to another symbol outside its shadowing symbols,
`mkcl_export2` returns without signalling; afterwards the name resolves in `P` to `s`
with tag external, it is absent from `P.internal`, and no symbol (so no home), none of
`P.shadowings`, `P.uses`, `P.usedby` and no other package has changed.  (A package in
which a symbol is internal is never the keyword package.) -/
theorem export_internal_symbol (h : Handler) (st : State) (P s : Nat)
    (hopen : (st.pack P).closed = false)
    (hint : mkcl_find_symbol_nolock st (mkcl_symbol_name st s) P = (s, .internal))
    (hdeps : ∀ Q ∈ (st.pack P).usedby,
      ¬ ((mkcl_find_symbol_nolock st (mkcl_symbol_name st s) Q).2 ≠ .zero
        ∧ (mkcl_find_symbol_nolock st (mkcl_symbol_name st s) Q).1 ≠ s
        ∧ (mkcl_find_symbol_nolock st (mkcl_symbol_name st s) Q).1 ∉ (st.pack Q).shadowings)) :
    (mkcl_export2 h st s (.package P)).exit = .ret () ∧
    (mkcl_export2 h st s (.package P)).signals = [] ∧
    mkcl_find_symbol_nolock (mkcl_export2 h st s (.package P)).state
        (mkcl_symbol_name (mkcl_export2 h st s (.package P)).state s) P = (s, .external) ∧
    mkcl_gethash_safe (mkcl_symbol_name st s)
        ((mkcl_export2 h st s (.package P)).state.pack P).internal = none ∧
    (mkcl_export2 h st s (.package P)).state.symbol = st.symbol ∧
    ((mkcl_export2 h st s (.package P)).state.pack P).shadowings = (st.pack P).shadowings ∧
    ((mkcl_export2 h st s (.package P)).state.pack P).uses = (st.pack P).uses ∧
    ((mkcl_export2 h st s (.package P)).state.pack P).usedby = (st.pack P).usedby ∧
    (∀ Q, Q ≠ P → (mkcl_export2 h st s (.package P)).state.pack Q = st.pack Q) := by
  have hx : (mkcl_find_symbol_nolock st (mkcl_symbol_name st s) P).1 = s := by rw [hint]
  have hf : (mkcl_find_symbol_nolock st (mkcl_symbol_name st s) P).2 = .internal := by
    rw [hint]
  have hscan := (export_usedby_scan_none st (mkcl_symbol_name st s) s (st.pack P).usedby).mpr
    hdeps
  rw [export2_accessible h st s P hopen hx (Or.inl hf), hscan]
  rw [if_pos hf]
  refine ⟨rfl, rfl, ?_, ?_, rfl, ?_, ?_, ?_, ?_⟩
  · simp [mkcl_find_symbol_nolock, mkcl_symbol_name, mkcl_sethash, mkcl_gethash_safe]
  · simp [gethash_remhash]
  · simp
  · simp
  · simp
  · intro Q hQ
    simp [hQ]

/-- Witness of C4: the scenario of the specification. In `foo_state` (`FOO` made with
`LISP` in its use list) interning `BAR` returns a new symbol (2), internal in the open
package `FOO` (2); after the export `BAR` is external in `FOO`.  The same holds in
`baz_state`, where `FOO` is used by `BAZ` (3), in which `BAR` does not resolve. -/
theorem export_internal_symbol_witness :
    (mkcl_intern default_handler 1 foo_state "BAR" (.package 2)).exit = .ret (2, .zero) ∧
    (foo_bar_state.pack 2).closed = false ∧
    mkcl_find_symbol_nolock foo_bar_state (mkcl_symbol_name foo_bar_state 2) 2
      = (2, .internal) ∧
    (mkcl_export2 default_handler foo_bar_state 2 (.package 2)).exit = .ret () ∧
    mkcl_find_symbol_nolock (mkcl_export2 default_handler foo_bar_state 2 (.package 2)).state
        (mkcl_symbol_name (mkcl_export2 default_handler foo_bar_state 2 (.package 2)).state
          2) 2
      = (2, .external) ∧
    (baz_state.pack 2).usedby = [3] ∧
    (mkcl_export2 default_handler baz_state 2 (.package 2)).exit = .ret () ∧
    mkcl_find_symbol_nolock (mkcl_export2 default_handler baz_state 2 (.package 2)).state
        (mkcl_symbol_name (mkcl_export2 default_handler baz_state 2 (.package 2)).state 2) 2
      = (2, .external) :=
  ⟨by decide!, by decide!, by decide!,
   (export_internal_symbol default_handler foo_bar_state 2 2 (by decide!) (by decide!)
      (by decide!)).1,
   (export_internal_symbol default_handler foo_bar_state 2 2 (by decide!) (by decide!)
      (by decide!)).2.2.1,
   by decide!,
   (export_internal_symbol default_handler baz_state 2 2 (by decide!) (by decide!)
      (by decide!)).1,
   (export_internal_symbol default_handler baz_state 2 2 (by decide!) (by decide!)
      (by decide!)).2.2.1⟩

/-- C5: whenever `mkcl_export2` is left by the fatal name-conflict error for a dependent
`Q`, the state is the one before the call: no table of any package has changed. -/
theorem export_atomic (h : Handler) (st : State) (s : Nat) (d : Designator) (P Q : Nat)
    (hfail : (mkcl_export2 h st s d).exit = .fatal (.export_conflict s P Q)) :
    (mkcl_export2 h st s d).state = st :=
  export2_state_of_not_ret h st s d (by rw [hfail]; simp)

/-- Witness of C5: in `conflict_state` the export of `BAR` (2) from `FOO` (2) fails
because `BAZ` (3) has its own `BAR`, and the state is unchanged. -/
theorem export_atomic_witness :
    (mkcl_export2 default_handler conflict_state 2 (.package 2)).exit
        = .fatal (.export_conflict 2 2 3) ∧
    (mkcl_export2 default_handler conflict_state 2 (.package 2)).state = conflict_state :=
  ⟨by decide!, export_atomic default_handler conflict_state 2 (.package 2) 2 3 (by decide!)⟩

/-- C6: when the name of `s` resolves in the open package `P` to `s` itself with tag
internal or inherited, `mkcl_export2` is left by the fatal name-conflict error exactly
when some package `Q` of `P.usedby` resolves the name to a symbol other than `s` that is
not one of `Q.shadowings`; otherwise it returns; and the dependent named in the error is
never one that resolves the name to one of its own shadowing symbols. -/
theorem export_conflict_iff (h : Handler) (st : State) (P s : Nat)
    (hopen : (st.pack P).closed = false)
    (hres : mkcl_find_symbol_nolock st (mkcl_symbol_name st s) P = (s, .internal)
      ∨ mkcl_find_symbol_nolock st (mkcl_symbol_name st s) P = (s, .inherited)) :
    ((∃ Q, (mkcl_export2 h st s (.package P)).exit = .fatal (.export_conflict s P Q)) ↔
      ∃ Q ∈ (st.pack P).usedby,
        (mkcl_find_symbol_nolock st (mkcl_symbol_name st s) Q).2 ≠ .zero
        ∧ (mkcl_find_symbol_nolock st (mkcl_symbol_name st s) Q).1 ≠ s
        ∧ (mkcl_find_symbol_nolock st (mkcl_symbol_name st s) Q).1 ∉ (st.pack Q).shadowings) ∧
    ((∃ Q, (mkcl_export2 h st s (.package P)).exit = .fatal (.export_conflict s P Q)) ∨
      (mkcl_export2 h st s (.package P)).exit = .ret ()) ∧
    (∀ Q, (mkcl_find_symbol_nolock st (mkcl_symbol_name st s) Q).1 ∈ (st.pack Q).shadowings →
      (mkcl_export2 h st s (.package P)).exit ≠ .fatal (.export_conflict s P Q)) := by
  have hx : (mkcl_find_symbol_nolock st (mkcl_symbol_name st s) P).1 = s := by
    rcases hres with e | e <;> rw [e]
  have hf : (mkcl_find_symbol_nolock st (mkcl_symbol_name st s) P).2 = .internal
      ∨ (mkcl_find_symbol_nolock st (mkcl_symbol_name st s) P).2 = .inherited := by
    rcases hres with e | e
    · left; rw [e]
    · right; rw [e]
  rw [export2_accessible h st s P hopen hx hf]
  cases hscan : export_usedby_scan st (mkcl_symbol_name st s) s (st.pack P).usedby with
  | some q =>
    obtain ⟨hq1, hq2⟩ := export_usedby_scan_some st _ s q _ hscan
    refine ⟨⟨fun _ => ⟨q, hq1, hq2⟩, fun _ => ⟨q, rfl⟩⟩, Or.inl ⟨q, rfl⟩, ?_⟩
    intro Q hQ hE
    have hqQ : q = Q := by simpa using hE
    subst hqQ
    exact hq2.2.2 hQ
  | none =>
    have hall := (export_usedby_scan_none st _ s _).mp hscan
    refine ⟨⟨fun ⟨Q, hQ⟩ => by simp at hQ, fun ⟨Q, hQ, hc⟩ => absurd hc (hall Q hQ)⟩,
      Or.inr rfl, ?_⟩
    intro Q _ hE
    simp at hE

/-- Witness of C6: in `conflict_state` the symbol `BAR` (2) is internal in the open
package `FOO` (2), and the export fails because of the dependent `BAZ` (3). -/
theorem export_conflict_iff_witness :
    (conflict_state.pack 2).closed = false ∧
    mkcl_find_symbol_nolock conflict_state (mkcl_symbol_name conflict_state 2) 2
      = (2, .internal) ∧
    ((∃ Q, (mkcl_export2 default_handler conflict_state 2 (.package 2)).exit
        = .fatal (.export_conflict 2 2 Q)) ↔
      ∃ Q ∈ (conflict_state.pack 2).usedby,
        (mkcl_find_symbol_nolock conflict_state (mkcl_symbol_name conflict_state 2) Q).2
          ≠ .zero
        ∧ (mkcl_find_symbol_nolock conflict_state (mkcl_symbol_name conflict_state 2) Q).1
          ≠ 2
        ∧ (mkcl_find_symbol_nolock conflict_state (mkcl_symbol_name conflict_state 2) Q).1
          ∉ (conflict_state.pack Q).shadowings) :=
  ⟨by decide!, by decide!,
   (export_conflict_iff default_handler conflict_state 2 2 (by decide!)
      (Or.inl (by decide!))).1⟩

/-! ## Use -/

theorem use_package_scan_none (st : State) (p : Nat) (t : HashTable) :
    use_package_scan st p t = none ↔
      ∀ e ∈ t, ¬ ((mkcl_find_symbol_nolock st (mkcl_symbol_name st e.2) p).2 ≠ .zero
        ∧ (mkcl_find_symbol_nolock st (mkcl_symbol_name st e.2) p).1 ≠ e.2
        ∧ (mkcl_find_symbol_nolock st (mkcl_symbol_name st e.2) p).1
            ∉ (st.pack p).shadowings) := by
  induction t with
  | nil => simp [use_package_scan]
  | cons e t ih =>
    unfold use_package_scan
    by_cases hc : (mkcl_find_symbol_nolock st (mkcl_symbol_name st e.2) p).2 ≠ .zero
        ∧ e.2 ≠ (mkcl_find_symbol_nolock st (mkcl_symbol_name st e.2) p).1
        ∧ mkcl_member_eq (mkcl_find_symbol_nolock st (mkcl_symbol_name st e.2) p).1
            (st.pack p).shadowings = false
    · rw [if_pos hc]
      simp only [List.mem_cons, forall_eq_or_imp, false_iff, reduceCtorEq]
      intro hall
      apply hall.1
      refine ⟨hc.1, fun e => hc.2.1 e.symm, ?_⟩
      simpa [mkcl_member_eq] using hc.2.2
    · rw [if_neg hc, ih]
      simp only [List.mem_cons, forall_eq_or_imp, iff_and_self]
      intro _ hq
      apply hc
      refine ⟨hq.1, fun e => hq.2.1 e.symm, ?_⟩
      simpa [mkcl_member_eq] using hq.2.2

theorem use_package_scan_some (st : State) (p : Nat) (t : HashTable) (r : Nat × Nat)
    (hr : use_package_scan st p t = some r) :
    ∃ e ∈ t, (mkcl_find_symbol_nolock st (mkcl_symbol_name st e.2) p).2 ≠ .zero
        ∧ (mkcl_find_symbol_nolock st (mkcl_symbol_name st e.2) p).1 ≠ e.2
        ∧ (mkcl_find_symbol_nolock st (mkcl_symbol_name st e.2) p).1
            ∉ (st.pack p).shadowings := by
  by_contra hcon
  have hnone := (use_package_scan_none st p t).mpr (by
    intro e he hc
    exact hcon ⟨e, he, hc⟩)
  rw [hnone] at hr
  simp at hr

theorem use_package_distinct (h : Handler) (st : State) (U P : Nat)
    (hUP : U ≠ P) (hUk : U ≠ st.keyword_package) (hPk : P ≠ st.keyword_package)
    (hopen : (st.pack P).closed = false) (hnot : U ∉ (st.pack P).uses) :
    mkcl_use_package h st (.package U) (.package P) =
      match use_package_scan st P (st.pack U).external with
      | some r => ⟨st, [], .fatal (.use_conflict U P r.1 r.2)⟩
      | none =>
        ⟨(st.set_pack P { st.pack P with uses := U :: (st.pack P).uses }).set_pack U
            { st.pack U with usedby := P :: (st.pack U).usedby },
          [], .ret ()⟩ := by
  unfold mkcl_use_package
  have hPU : ¬ P = U := fun e => hUP e.symm
  simp only [mk_si_coerce_to_package, mkcl_find_package_nolock, hUk, hPk, hopen, hPU,
    mkcl_member_eq, hnot, if_false, decide_False, false_and, Bool.false_eq_true,
    set_pack_pack, hUP]
  cases use_package_scan st P (st.pack U).external with
  | some r => rfl
  | none => rfl

theorem gethash_mem (n : String) (t : HashTable) (v : Nat)
    (hv : mkcl_gethash_safe n t = some v) : (n, v) ∈ t := by
  induction t with
  | nil => simp [mkcl_gethash_safe] at hv
  | cons e t ih =>
    obtain ⟨k, w⟩ := e
    by_cases hk : k = n
    · simp only [mkcl_gethash_safe, hk, if_true, Option.some.injEq] at hv
      simp [hk, hv]
    · simp only [mkcl_gethash_safe, hk, if_false] at hv
      simp [ih hv]

/-- C7: for distinct packages `U` and `P`, neither the keyword package, with `P` open and
`U` not in `P.uses`, `mkcl_use_package` is left by the fatal name-conflict error exactly
when some entry of `U.external` holds a symbol whose name resolves in `P` to another
symbol that is not one of `P.shadowings`; then the state is unchanged; otherwise it
returns, `U` is put in front of `P.uses`, `P` in front of `U.usedby`, and nothing else
changes. -/
theorem use_package_conflict_iff (h : Handler) (st : State) (U P : Nat)
    (hUP : U ≠ P) (hUk : U ≠ st.keyword_package) (hPk : P ≠ st.keyword_package)
    (hopen : (st.pack P).closed = false) (hnot : U ∉ (st.pack P).uses) :
    ((∃ here there, (mkcl_use_package h st (.package U) (.package P)).exit
        = .fatal (.use_conflict U P here there)) ↔
      ∃ e ∈ (st.pack U).external,
        (mkcl_find_symbol_nolock st (mkcl_symbol_name st e.2) P).2 ≠ .zero
        ∧ (mkcl_find_symbol_nolock st (mkcl_symbol_name st e.2) P).1 ≠ e.2
        ∧ (mkcl_find_symbol_nolock st (mkcl_symbol_name st e.2) P).1
            ∉ (st.pack P).shadowings) ∧
    ((∃ here there, (mkcl_use_package h st (.package U) (.package P)).exit
        = .fatal (.use_conflict U P here there)) →
      (mkcl_use_package h st (.package U) (.package P)).state = st) ∧
    ((¬ ∃ here there, (mkcl_use_package h st (.package U) (.package P)).exit
        = .fatal (.use_conflict U P here there)) →
      (mkcl_use_package h st (.package U) (.package P)).exit = .ret () ∧
      (mkcl_use_package h st (.package U) (.package P)).signals = [] ∧
      (mkcl_use_package h st (.package U) (.package P)).state.pack P
        = { st.pack P with uses := U :: (st.pack P).uses } ∧
      (mkcl_use_package h st (.package U) (.package P)).state.pack U
        = { st.pack U with usedby := P :: (st.pack U).usedby } ∧
      (∀ Q, Q ≠ P → Q ≠ U →
        (mkcl_use_package h st (.package U) (.package P)).state.pack Q = st.pack Q) ∧
      (mkcl_use_package h st (.package U) (.package P)).state.symbol = st.symbol ∧
      (mkcl_use_package h st (.package U) (.package P)).state.packages = st.packages ∧
      (mkcl_use_package h st (.package U) (.package P)).state.packages_to_be_created
        = st.packages_to_be_created ∧
      (mkcl_use_package h st (.package U) (.package P)).state.pack_count = st.pack_count ∧
      (mkcl_use_package h st (.package U) (.package P)).state.symbol_count
        = st.symbol_count ∧
      (mkcl_use_package h st (.package U) (.package P)).state.keyword_package
        = st.keyword_package ∧
      (mkcl_use_package h st (.package U) (.package P)).state.lisp_package
        = st.lisp_package) := by
  rw [use_package_distinct h st U P hUP hUk hPk hopen hnot]
  have hPU : ¬ P = U := fun e => hUP e.symm
  cases hscan : use_package_scan st P (st.pack U).external with
  | some r =>
    refine ⟨⟨fun _ => use_package_scan_some st P _ r hscan, fun _ => ⟨r.1, r.2, rfl⟩⟩,
      fun _ => rfl, fun hno => absurd ⟨r.1, r.2, rfl⟩ hno⟩
  | none =>
    have hall := (use_package_scan_none st P _).mp hscan
    refine ⟨⟨fun ⟨a, b, hab⟩ => by simp at hab, fun ⟨e, he, hc⟩ => absurd hc (hall e he)⟩,
      fun ⟨a, b, hab⟩ => by simp at hab, fun _ => ?_⟩
    refine ⟨rfl, rfl, ?_, ?_, ?_, rfl, rfl, rfl, rfl, rfl, rfl, rfl⟩
    · simp [hPU]
    · simp [hUP]
    · intro Q hQP hQU
      simp [hQP, hQU]

/-- Witness of C7: in `own_external_state` the packages `A` (3) and `B` (4) meet the
hypotheses, and `mkcl_use_package` fails exactly when the stated conflict exists. -/
theorem use_package_conflict_iff_witness :
    (3 : Nat) ≠ 4 ∧ 3 ≠ own_external_state.keyword_package ∧
    4 ≠ own_external_state.keyword_package ∧
    (own_external_state.pack 4).closed = false ∧
    3 ∉ (own_external_state.pack 4).uses ∧
    ((∃ here there, (mkcl_use_package default_handler own_external_state (.package 3)
        (.package 4)).exit = .fatal (.use_conflict 3 4 here there)) →
      (mkcl_use_package default_handler own_external_state (.package 3)
        (.package 4)).state = own_external_state) :=
  ⟨by decide!, by decide!, by decide!, by decide!, by decide!,
   (use_package_conflict_iff default_handler own_external_state 3 4 (by decide!) (by decide!)
      (by decide!) (by decide!) (by decide!)).2.1⟩

/-- Counterexample to C8 as stated: in `own_internal_state` the packages `A` (3) and `B`
(4) both use `U` (2), which exports `X` (symbol 2), and `A` holds its own `X` (symbol 3)
in its internal table, not among its shadowing symbols; yet `mkcl_use_package` returns
and puts `A` in front of `B.uses`. -/
theorem use_package_internal_counterexample :
    2 ∈ (own_internal_state.pack 3).uses ∧
    2 ∈ (own_internal_state.pack 4).uses ∧
    mkcl_gethash_safe "X" (own_internal_state.pack 2).external = some 2 ∧
    mkcl_gethash_safe "X" (own_internal_state.pack 3).internal = some 3 ∧
    mkcl_symbol_name own_internal_state 3 = "X" ∧
    3 ∉ (own_internal_state.pack 3).shadowings ∧
    (own_internal_state.pack 4).uses = [2] ∧
    (mkcl_use_package default_handler own_internal_state (.package 3) (.package 4)).exit
      = .ret () ∧
    ((mkcl_use_package default_handler own_internal_state (.package 3)
      (.package 4)).state.pack 4).uses = [3, 2] := by
  decide!

/-- C8, amended: when `A` and `B` both use `U`, which exports a symbol `xu` named `n`
that `B` inherits and does not shadow, and `A` holds its own symbol `xa ≠ xu` named `n`
in its external table, `mkcl_use_package A B` is left by the fatal name-conflict error
and the state (so `B.uses`) is unchanged. -/
theorem use_package_external_conflict (h : Handler) (st : State) (U A B xu xa : Nat)
    (n : String)
    (hAB : A ≠ B) (hAk : A ≠ st.keyword_package) (hBk : B ≠ st.keyword_package)
    (hopen : (st.pack B).closed = false) (hnot : A ∉ (st.pack B).uses)
    (_hAU : U ∈ (st.pack A).uses) (_hBU : U ∈ (st.pack B).uses)
    (_hU : mkcl_gethash_safe n (st.pack U).external = some xu)
    (hB : mkcl_find_symbol_nolock st n B = (xu, .inherited))
    (hsh : xu ∉ (st.pack B).shadowings)
    (hA : mkcl_gethash_safe n (st.pack A).external = some xa)
    (hname : mkcl_symbol_name st xa = n) (hne : xa ≠ xu) :
    (∃ here there, (mkcl_use_package h st (.package A) (.package B)).exit
        = .fatal (.use_conflict A B here there)) ∧
    (mkcl_use_package h st (.package A) (.package B)).state = st ∧
    ((mkcl_use_package h st (.package A) (.package B)).state.pack B).uses
      = (st.pack B).uses := by
  rw [use_package_distinct h st A B hAB hAk hBk hopen hnot]
  cases hscan : use_package_scan st B (st.pack A).external with
  | some r => exact ⟨⟨r.1, r.2, rfl⟩, rfl, rfl⟩
  | none =>
    exfalso
    have hall := (use_package_scan_none st B _).mp hscan
    apply hall (n, xa) (gethash_mem n _ xa hA)
    simp only [hname, hB]
    exact ⟨by simp, fun e => hne e.symm, hsh⟩

/-- Witness of the amended C8: `own_external_state`, with `U` = 2, `A` = 3, `B` = 4. -/
theorem use_package_external_conflict_witness :
    mkcl_gethash_safe "X" (own_external_state.pack 3).external = some 3 ∧
    (∃ here there, (mkcl_use_package default_handler own_external_state (.package 3)
        (.package 4)).exit = .fatal (.use_conflict 3 4 here there)) ∧
    (mkcl_use_package default_handler own_external_state (.package 3)
        (.package 4)).state = own_external_state :=
  ⟨by decide!,
   (use_package_external_conflict default_handler own_external_state 2 3 4 2 3 "X"
      (by decide!) (by decide!) (by decide!) (by decide!) (by decide!) (by decide!) (by decide!)
      (by decide!) (by decide!) (by decide!) (by decide!) (by decide!) (by decide!)).1,
   (use_package_external_conflict default_handler own_external_state 2 3 4 2 3 "X"
      (by decide!) (by decide!) (by decide!) (by decide!) (by decide!) (by decide!) (by decide!)
      (by decide!) (by decide!) (by decide!) (by decide!) (by decide!) (by decide!)).2.1⟩

/-! ## Use and used-by lists under the operations -/

theorem same_edges_refl (st : State) : same_edges st st := fun _ => ⟨rfl, rfl⟩

theorem same_edges_trans {a b c : State} (h1 : same_edges a b) (h2 : same_edges b c) :
    same_edges a c :=
  fun q => ⟨(h2 q).1.trans (h1 q).1, (h2 q).2.trans (h1 q).2⟩

theorem same_edges_of_pack {a b c : State} (h1 : same_edges a b) (hp : c.pack = b.pack) :
    same_edges a c := by
  intro q
  rw [hp]
  exact h1 q

theorem same_edges_set_pack {a b : State} (p : Nat) (v : Package) (h1 : same_edges a b)
    (hu : v.uses = (b.pack p).uses) (hb : v.usedby = (b.pack p).usedby) :
    same_edges a (b.set_pack p v) := by
  intro q
  by_cases hq : q = p
  · subst hq
    simp only [set_pack_pack, if_true, hu, hb]
    exact h1 q
  · simp only [set_pack_pack, hq, if_false]
    exact h1 q

theorem make_resident_symbol_homeless_pack (st : State) (s p : Nat) :
    (make_resident_symbol_homeless st s p).pack = st.pack := by
  unfold make_resident_symbol_homeless
  split <;> rfl

theorem set_symbol_home_if_homeless_pack (st : State) (s p : Nat) :
    (set_symbol_home_if_homeless st s p).pack = st.pack := by
  unfold set_symbol_home_if_homeless
  split <;> rfl

theorem mutual_of_same_edges {st st' : State} (hs : same_edges st st')
    (hm : mutual_use_edges st) : mutual_use_edges st' := by
  intro P Q
  rw [(hs Q).1, (hs P).2]
  exact hm P Q

theorem intern_loop_same_edges (h : Handler) (st : State) (n : String) (p : Nat) :
    ∀ (fuel : Nat) (log : List CError),
      same_edges st (mkcl_intern_loop h st n p fuel log).state := by
  intro fuel
  induction fuel with
  | zero => intro log; exact same_edges_refl st
  | succ fuel ih =>
    intro log
    unfold mkcl_intern_loop
    split
    · exact same_edges_refl st
    · dsimp only
      split
      · exact same_edges_refl st
      · split
        · split
          · exact ih _
          · exact same_edges_refl st
        · split
          · exact same_edges_set_pack _ _ (same_edges_refl _) rfl rfl
          · exact same_edges_set_pack _ _ (same_edges_refl _) rfl rfl

theorem intern_same_edges (h : Handler) (fuel : Nat) (st : State) (n : String)
    (d : Designator) : same_edges st (mkcl_intern h fuel st n d).state := by
  unfold mkcl_intern
  split
  · exact same_edges_refl st
  · exact intern_loop_same_edges h st n _ fuel []

theorem unintern_loop_same_edges (h : Handler) (st : State) (s p : Nat) (name : String) :
    ∀ (fuel : Nat) (log : List CError),
      same_edges st (mkcl_unintern_loop h st s p name fuel log).state := by
  intro fuel
  induction fuel with
  | zero => intro log; exact same_edges_refl st
  | succ fuel ih =>
    intro log
    unfold mkcl_unintern_loop
    dsimp only
    split
    · exact same_edges_refl st
    · split
      · split
        · exact ih _
        · exact same_edges_refl st
      · split
        · exact same_edges_refl st
        · apply same_edges_of_pack _ (make_resident_symbol_homeless_pack _ _ _)
          refine same_edges_set_pack _ _ (same_edges_refl _) ?_ ?_ <;> split <;> rfl

theorem unintern_same_edges (h : Handler) (fuel : Nat) (st : State) (s : Nat)
    (d : Designator) : same_edges st (mkcl_unintern h fuel st s d).state := by
  unfold mkcl_unintern
  split
  · exact same_edges_refl st
  · exact unintern_loop_same_edges h st s _ _ fuel []

theorem export2_same_edges (h : Handler) (st : State) (s : Nat) (d : Designator) :
    same_edges st (mkcl_export2 h st s d).state := by
  unfold mkcl_export2
  dsimp only
  split
  · exact same_edges_refl st
  · split_ifs
    all_goals first
      | exact same_edges_refl st
      | (split
         · exact same_edges_refl st
         · exact same_edges_set_pack _ _ (same_edges_refl _) rfl rfl)

theorem unexport2_same_edges (h : Handler) (st : State) (s : Nat) (d : Designator) :
    same_edges st (mkcl_unexport2 h st s d).state := by
  unfold mkcl_unexport2
  dsimp only
  split
  · exact same_edges_refl st
  · split_ifs
    all_goals first
      | exact same_edges_refl st
      | exact same_edges_set_pack _ _ (same_edges_refl _) rfl rfl

theorem import2_same_edges (h : Handler) (st : State) (s : Nat) (d : Designator) :
    same_edges st (mkcl_import2 h st s d).state := by
  unfold mkcl_import2
  dsimp only
  split
  · exact same_edges_refl st
  · split_ifs
    all_goals first
      | exact same_edges_refl st
      | (apply same_edges_of_pack _ (set_symbol_home_if_homeless_pack _ _ _)
         exact same_edges_set_pack _ _ (same_edges_refl _) rfl rfl)

theorem shadowing_import_same_edges (h : Handler) (st : State) (s : Nat) (d : Designator) :
    same_edges st (mkcl_shadowing_import h st s d).state := by
  unfold mkcl_shadowing_import
  dsimp only
  split
  · exact same_edges_refl st
  · split
    · exact same_edges_refl st
    · split
      · split
        · exact same_edges_refl st
        · exact same_edges_set_pack _ _ (same_edges_refl _) rfl rfl
      · apply same_edges_of_pack _ (set_symbol_home_if_homeless_pack _ _ _)
        refine same_edges_set_pack _ _ ?_ rfl rfl
        split
        · apply same_edges_of_pack _ (make_resident_symbol_homeless_pack _ _ _)
          refine same_edges_set_pack _ _ (same_edges_refl _) ?_ ?_ <;> split <;> rfl
        · exact same_edges_refl st

theorem shadow_same_edges (h : Handler) (st : State) (s : String) (d : Designator) :
    same_edges st (mkcl_shadow h st s d).state := by
  unfold mkcl_shadow
  dsimp only
  split
  · exact same_edges_refl st
  · split
    · exact same_edges_refl st
    · split
      · refine same_edges_set_pack _ _ ?_ rfl rfl
        apply same_edges_of_pack _ (set_symbol_pack _ _ _)
        exact same_edges_set_pack _ _ (same_edges_refl _) rfl rfl
      · exact same_edges_set_pack _ _ (same_edges_refl _) rfl rfl

theorem rename_nicknames_loop_same_edges (x : Nat) (l : List String) :
    ∀ st : State, same_edges st (rename_nicknames_loop x st l) := by
  induction l with
  | nil => intro st; exact same_edges_refl st
  | cons nick l ih =>
    intro st
    unfold rename_nicknames_loop
    split
    · refine same_edges_trans ?_ (ih _)
      exact same_edges_set_pack _ _ (same_edges_refl _) rfl rfl
    · exact ih st

theorem rename_package_same_edges (h : Handler) (st : State) (d : Designator) (name : String)
    (nicknames : List String) :
    same_edges st (mkcl_rename_package h st d name nicknames).state := by
  unfold mkcl_rename_package
  dsimp only
  split
  · exact same_edges_refl st
  · split
    · exact same_edges_refl st
    · split
      · split
        · exact same_edges_refl st
        · refine same_edges_trans ?_ (rename_nicknames_loop_same_edges _ _ _)
          exact same_edges_set_pack _ _ (same_edges_refl _) rfl rfl
      · refine same_edges_trans ?_ (rename_nicknames_loop_same_edges _ _ _)
        exact same_edges_set_pack _ _ (same_edges_refl _) rfl rfl

theorem mem_remove_eq (y x : Nat) (l : List Nat) :
    y ∈ mkcl_remove_eq x l ↔ y ∈ l ∧ y ≠ x := by
  simp [mkcl_remove_eq, List.mem_filter]

theorem add_edge_uses (st : State) (x p P Q : Nat) :
    P ∈ (((st.set_pack p { st.pack p with uses := x :: (st.pack p).uses }).set_pack x
        { (st.set_pack p { st.pack p with uses := x :: (st.pack p).uses }).pack x with
          usedby := p :: ((st.set_pack p
            { st.pack p with uses := x :: (st.pack p).uses }).pack x).usedby }).pack Q).uses
      ↔ (Q = p ∧ P = x) ∨ P ∈ (st.pack Q).uses := by
  by_cases h1 : Q = x <;> by_cases h2 : Q = p <;> by_cases h3 : x = p <;> simp_all

theorem add_edge_usedby (st : State) (x p P Q : Nat) :
    Q ∈ (((st.set_pack p { st.pack p with uses := x :: (st.pack p).uses }).set_pack x
        { (st.set_pack p { st.pack p with uses := x :: (st.pack p).uses }).pack x with
          usedby := p :: ((st.set_pack p
            { st.pack p with uses := x :: (st.pack p).uses }).pack x).usedby }).pack P).usedby
      ↔ (Q = p ∧ P = x) ∨ Q ∈ (st.pack P).usedby := by
  by_cases h1 : P = x <;> by_cases h2 : P = p <;> by_cases h3 : x = p <;> simp_all

theorem remove_edge_uses (st : State) (x p P Q : Nat) :
    P ∈ (((st.set_pack p
        { st.pack p with uses := mkcl_remove_eq x (st.pack p).uses }).set_pack x
        { (st.set_pack p { st.pack p with uses := mkcl_remove_eq x (st.pack p).uses }).pack x
          with usedby := mkcl_remove_eq p ((st.set_pack p
            { st.pack p with uses := mkcl_remove_eq x (st.pack p).uses }).pack x).usedby
        }).pack Q).uses
      ↔ P ∈ (st.pack Q).uses ∧ ¬ (Q = p ∧ P = x) := by
  by_cases h1 : Q = x <;> by_cases h2 : Q = p <;> by_cases h3 : x = p <;>
    simp_all [mem_remove_eq]

theorem remove_edge_usedby (st : State) (x p P Q : Nat) :
    Q ∈ (((st.set_pack p
        { st.pack p with uses := mkcl_remove_eq x (st.pack p).uses }).set_pack x
        { (st.set_pack p { st.pack p with uses := mkcl_remove_eq x (st.pack p).uses }).pack x
          with usedby := mkcl_remove_eq p ((st.set_pack p
            { st.pack p with uses := mkcl_remove_eq x (st.pack p).uses }).pack x).usedby
        }).pack P).usedby
      ↔ Q ∈ (st.pack P).usedby ∧ ¬ (Q = p ∧ P = x) := by
  by_cases h1 : P = x <;> by_cases h2 : P = p <;> by_cases h3 : x = p <;>
    simp_all [mem_remove_eq]

theorem mutual_add_edge (st : State) (x p : Nat) (hm : mutual_use_edges st) :
    mutual_use_edges
      ((st.set_pack p { st.pack p with uses := x :: (st.pack p).uses }).set_pack x
        { (st.set_pack p { st.pack p with uses := x :: (st.pack p).uses }).pack x with
          usedby := p :: ((st.set_pack p
            { st.pack p with uses := x :: (st.pack p).uses }).pack x).usedby }) := by
  intro P Q
  rw [add_edge_uses, add_edge_usedby, hm P Q]

theorem mutual_remove_edge (st : State) (x p : Nat) (hm : mutual_use_edges st) :
    mutual_use_edges
      ((st.set_pack p { st.pack p with uses := mkcl_remove_eq x (st.pack p).uses }).set_pack x
        { (st.set_pack p { st.pack p with uses := mkcl_remove_eq x (st.pack p).uses }).pack x
          with usedby := mkcl_remove_eq p ((st.set_pack p
            { st.pack p with uses := mkcl_remove_eq x (st.pack p).uses }).pack x).usedby }) := by
  intro P Q
  rw [remove_edge_uses, remove_edge_usedby, hm P Q]

theorem use_package_mutual (h : Handler) (st : State) (dx dp : Designator)
    (hm : mutual_use_edges st) : mutual_use_edges (mkcl_use_package h st dx dp).state := by
  unfold mkcl_use_package
  dsimp only
  split
  · exact hm
  · split_ifs
    all_goals first
      | exact hm
      | (split
         · exact hm
         · split_ifs
           all_goals first
             | exact hm
             | (split
                · exact hm
                · exact mutual_add_edge st _ _ hm))

theorem unuse_package_mutual (h : Handler) (st : State) (dx dp : Designator)
    (hm : mutual_use_edges st) : mutual_use_edges (mkcl_unuse_package h st dx dp).state := by
  unfold mkcl_unuse_package
  dsimp only
  split
  · exact hm
  · split
    · exact hm
    · split
      · exact hm
      · split
        · exact hm
        · exact mutual_remove_edge st _ _ hm

theorem alloc_mutual (st : State) (name : String) (hm : mutual_use_edges st)
    (hfresh : next_package_unreferenced st) :
    mutual_use_edges (_mkcl_alloc_sized_package st name).1 := by
  intro P Q
  simp only [_mkcl_alloc_sized_package, Function.update_apply]
  by_cases hQ : Q = st.pack_count <;> by_cases hP : P = st.pack_count
  · simp [hQ, hP]
  · simp only [hQ, hP, if_true, if_false, List.not_mem_nil, false_iff]
    exact (hfresh P).2
  · simp only [hQ, hP, if_true, if_false, List.not_mem_nil, iff_false]
    exact (hfresh Q).1
  · simp only [hQ, hP, if_false]
    exact hm P Q

theorem use_list_loop_mutual (x : Nat) (l : List Designator) :
    ∀ st : State, mutual_use_edges st → mutual_use_edges (use_list_loop x st l).1 := by
  induction l with
  | nil => intro st hm; exact hm
  | cons d l ih =>
    intro st hm
    unfold use_list_loop
    split
    · exact hm
    · exact ih _ (mutual_add_edge st _ _ hm)

theorem make_package_intern_mutual (h : Handler) (st : State) (x : Nat)
    (nicknames : List String) (use_list : List Designator) (hm : mutual_use_edges st) :
    mutual_use_edges (make_package_intern h st x nicknames use_list).state := by
  unfold make_package_intern
  split
  · exact hm
  · have h1 : mutual_use_edges
        (st.set_pack x { st.pack x with nicknames := ‹List String› }) :=
      mutual_of_same_edges (same_edges_set_pack _ _ (same_edges_refl _) rfl rfl) hm
    have h2 := use_list_loop_mutual x use_list _ h1
    dsimp only
    split
    · rename_i heq
      rw [heq] at h2
      exact h2
    · rename_i heq
      rw [heq] at h2
      exact h2

theorem make_sized_package_mutual (h : Handler) (st : State) (name : String)
    (nicknames : List String) (use_list : List Designator) (es is : Int)
    (hm : mutual_use_edges st) (hfresh : next_package_unreferenced st) :
    mutual_use_edges (mkcl_make_sized_package h st name nicknames use_list es is).state := by
  unfold mkcl_make_sized_package
  split
  · exact make_package_intern_mutual h _ _ _ _ hm
  · split
    · exact hm
    · split
      · exact hm
      · exact make_package_intern_mutual h _ _ _ _ (alloc_mutual st name hm hfresh)

theorem andThen_state {α β : Type} (I : State → Prop) (o : Outcome α)
    (k : State → α → Outcome β) (ho : I o.state) (hk : ∀ st a, I st → I (k st a).state) :
    I (o.andThen k).state := by
  unfold Outcome.andThen
  split
  · exact hk _ _ ho
  · exact ho
  · exact ho
  · exact ho
  · exact ho

theorem delete_unuse_loop_mutual (h : Handler) (p : Nat) (l : List Nat) :
    ∀ st : State, mutual_use_edges st → mutual_use_edges (delete_unuse_loop h p st l).state := by
  induction l with
  | nil => intro st hm; exact hm
  | cons y l ih =>
    intro st hm
    unfold delete_unuse_loop
    exact andThen_state mutual_use_edges _ _ (unuse_package_mutual h st _ _ hm)
      (fun st1 _ h1 => ih st1 h1)

theorem delete_unused_loop_mutual (h : Handler) (p : Nat) (l : List Nat) :
    ∀ st : State, mutual_use_edges st → mutual_use_edges (delete_unused_loop h p st l).state := by
  induction l with
  | nil => intro st hm; exact hm
  | cons y l ih =>
    intro st hm
    unfold delete_unused_loop
    exact andThen_state mutual_use_edges _ _ (unuse_package_mutual h st _ _ hm)
      (fun st1 _ h1 => ih st1 h1)

theorem cerror_state (h : Handler) (st : State) (c : CError) : (cerror h st c).state = st := rfl

theorem delete_package_mutual (h : Handler) (st : State) (d : Designator)
    (hm : mutual_use_edges st) : mutual_use_edges (mk_cl_delete_package h st d).state := by
  unfold mk_cl_delete_package
  split
  · exact andThen_state mutual_use_edges _ _ hm (fun st1 _ h1 => h1)
  · refine andThen_state mutual_use_edges _ _ (by split <;> exact hm) ?_
    intro st1 _ h1
    split
    · exact h1
    · split
      · exact h1
      · refine andThen_state mutual_use_edges _ _ (delete_unuse_loop_mutual h _ _ st1 h1) ?_
        intro st2 _ h2
        refine andThen_state mutual_use_edges _ _ ?_ ?_
        · split
          · exact andThen_state mutual_use_edges _ _ h2
              (fun st3 _ h3 => delete_unused_loop_mutual h _ _ st3 h3)
          · exact h2
        · intro st4 _ h4
          exact mutual_of_same_edges
            (same_edges_set_pack _ _ (fun _ => ⟨rfl, rfl⟩) rfl rfl) h4

theorem boot_state_edges (q : Nat) :
    (boot_state.pack q).uses = [] ∧ (boot_state.pack q).usedby = [] := by
  unfold boot_state
  dsimp only
  split <;> exact ⟨rfl, rfl⟩

theorem boot_state_mutual : mutual_use_edges boot_state := by
  intro P Q
  rw [(boot_state_edges Q).1, (boot_state_edges P).2]
  simp

theorem boot_state_unreferenced : next_package_unreferenced boot_state := by
  intro Q
  rw [(boot_state_edges Q).1, (boot_state_edges Q).2]
  simp

/-- C9: every call of an operation (make-package with a use list, rename-package,
delete-package, use-package, unuse-package and the symbol operations), however it is
left, takes a state with use/used-by mutuality to a state with use/used-by mutuality.
The reference the allocator hands out next is assumed not to occur in any use or
used-by list. -/
theorem mutual_use_edges_invariant (h : Handler) (fuel : Nat) (st : State) (c : Call)
    (hm : mutual_use_edges st) (hfresh : next_package_unreferenced st) :
    mutual_use_edges (Call.run h fuel st c) := by
  cases c with
  | make_package name nicknames use_list es is =>
    exact make_sized_package_mutual h st name nicknames use_list es is hm hfresh
  | rename_package d name nicknames =>
    exact mutual_of_same_edges (rename_package_same_edges h st d name nicknames) hm
  | delete_package d => exact delete_package_mutual h st d hm
  | intern name d => exact mutual_of_same_edges (intern_same_edges h fuel st name d) hm
  | unintern s d => exact mutual_of_same_edges (unintern_same_edges h fuel st s d) hm
  | export2 s d => exact mutual_of_same_edges (export2_same_edges h st s d) hm
  | unexport2 s d => exact mutual_of_same_edges (unexport2_same_edges h st s d) hm
  | import2 s d => exact mutual_of_same_edges (import2_same_edges h st s d) hm
  | shadowing_import s d =>
    exact mutual_of_same_edges (shadowing_import_same_edges h st s d) hm
  | shadow name d => exact mutual_of_same_edges (shadow_same_edges h st name d) hm
  | use_package dx dp => exact use_package_mutual h st dx dp hm
  | unuse_package dx dp => exact unuse_package_mutual h st dx dp hm

/-- Witness of C9: `boot_state` has no use edges at all; after
`(make-package "FOO" :use '("LISP"))` mutuality holds, with `LISP` in `FOO.uses` and
`FOO` in `LISP.usedby`. -/
theorem mutual_use_edges_invariant_witness :
    mutual_use_edges boot_state ∧ next_package_unreferenced boot_state ∧
    mutual_use_edges
      (Call.run default_handler 1 boot_state
        (.make_package "FOO" [] [.string "LISP"] 129 129)) ∧
    ((Call.run default_handler 1 boot_state
        (.make_package "FOO" [] [.string "LISP"] 129 129)).pack 2).uses = [0] ∧
    ((Call.run default_handler 1 boot_state
        (.make_package "FOO" [] [.string "LISP"] 129 129)).pack 0).usedby = [2] :=
  ⟨boot_state_mutual, boot_state_unreferenced,
   mutual_use_edges_invariant default_handler 1 boot_state
     (.make_package "FOO" [] [.string "LISP"] 129 129) boot_state_mutual
     boot_state_unreferenced,
   by decide!, by decide!⟩

/-! ## Exclusivity -/

theorem boot_state_internal (q : Nat) : (boot_state.pack q).internal = [] := by
  unfold boot_state
  dsimp only
  split <;> rfl

/-- C10 fails on the keyword package: `boot_state` has exclusive tables, and after
importing the symbol `A` (2) of `LISP` into the keyword package (1) and interning `"A"`
there, the name `A` is in the internal table of the keyword package (symbol 2) and in
its external table (the new symbol 3). -/
theorem keyword_import_intern_not_exclusive :
    exclusive_tables boot_state ∧
    mkcl_gethash_safe "A"
      ((Call.run_all default_handler 1 boot_state keyword_import_calls).pack 1).internal
      = some 2 ∧
    mkcl_gethash_safe "A"
      ((Call.run_all default_handler 1 boot_state keyword_import_calls).pack 1).external
      = some 3 ∧
    ¬ exclusive_tables (Call.run_all default_handler 1 boot_state keyword_import_calls) := by
  refine ⟨?_, by decide!, by decide!, ?_⟩
  · intro P n
    rw [boot_state_internal P]
    simp [mkcl_gethash_safe]
  · intro hex
    exact hex 1 "A" ⟨by decide!, by decide!⟩

/-! ## Exclusivity off the keyword package -/

theorem find_symbol_not_external (st : State) (n : String) (p : Nat)
    (hf : (mkcl_find_symbol_nolock st n p).2 ≠ .external) :
    mkcl_gethash_safe n (st.pack p).external = none := by
  unfold mkcl_find_symbol_nolock at hf
  cases he : mkcl_gethash_safe n (st.pack p).external with
  | none => rfl
  | some s => simp [he] at hf

theorem find_symbol_not_local (st : State) (n : String) (p : Nat)
    (hk : p ≠ st.keyword_package)
    (hf : (mkcl_find_symbol_nolock st n p).2 ≠ .external)
    (hi : (mkcl_find_symbol_nolock st n p).2 ≠ .internal) :
    mkcl_gethash_safe n (st.pack p).internal = none := by
  have he := find_symbol_not_external st n p hf
  unfold mkcl_find_symbol_nolock at hi
  cases hint : mkcl_gethash_safe n (st.pack p).internal with
  | none => rfl
  | some s => simp [he, hk, hint] at hi

theorem exclusive_set_pack (st : State) (p : Nat) (v : Package) (Q : Nat)
    (hv : Q = p → v.exclusive) (hQ : (st.pack Q).exclusive) :
    ((st.set_pack p v).pack Q).exclusive := by
  by_cases hq : Q = p
  · simp only [set_pack_pack, hq, if_true]
    exact hv hq
  · simp only [set_pack_pack, hq, if_false]
    exact hQ

theorem exclusive_insert_internal (pk : Package) (m : String) (v : Nat) (sh : List Nat)
    (hx : pk.exclusive) (he : mkcl_gethash_safe m pk.external = none) :
    Package.exclusive
      { pk with shadowings := sh, internal := mkcl_sethash m pk.internal v } := by
  intro n
  by_cases hn : n = m
  · right; rw [hn]; exact he
  · have hmn : ¬ m = n := fun e => hn e.symm
    rcases hx n with h1 | h1
    · left; simp [gethash_sethash, hmn, h1]
    · right; exact h1

theorem exclusive_insert_external (pk : Package) (m : String) (v : Nat)
    (hx : pk.exclusive) (hi : mkcl_gethash_safe m pk.internal = none) :
    Package.exclusive { pk with external := mkcl_sethash m pk.external v } := by
  intro n
  by_cases hn : n = m
  · left; rw [hn]; exact hi
  · have hmn : ¬ m = n := fun e => hn e.symm
    rcases hx n with h1 | h1
    · left; exact h1
    · right; simp [gethash_sethash, hmn, h1]

theorem exclusive_remove_internal (pk : Package) (m : String) (sh : List Nat)
    (hx : pk.exclusive) :
    Package.exclusive { pk with shadowings := sh, internal := mkcl_remhash m pk.internal } := by
  intro n
  rcases hx n with h1 | h1
  · left; simp [gethash_remhash, h1]
  · right; exact h1

theorem exclusive_remove_external (pk : Package) (m : String) (sh : List Nat)
    (hx : pk.exclusive) :
    Package.exclusive { pk with shadowings := sh, external := mkcl_remhash m pk.external } := by
  intro n
  rcases hx n with h1 | h1
  · left; exact h1
  · right; simp [gethash_remhash, h1]

theorem exclusive_to_external (pk : Package) (m : String) (v : Nat) (hx : pk.exclusive) :
    Package.exclusive
      { pk with internal := mkcl_remhash m pk.internal
                external := mkcl_sethash m pk.external v } := by
  intro n
  by_cases hn : n = m
  · left; simp [gethash_remhash, hn]
  · have hmn : ¬ m = n := fun e => hn e.symm
    rcases hx n with h1 | h1
    · left; simp [gethash_remhash, h1]
    · right; simp [gethash_sethash, hmn, h1]

theorem exclusive_to_internal (pk : Package) (m : String) (v : Nat) (hx : pk.exclusive) :
    Package.exclusive
      { pk with external := mkcl_remhash m pk.external
                internal := mkcl_sethash m pk.internal v } := by
  intro n
  by_cases hn : n = m
  · right; simp [gethash_remhash, hn]
  · have hmn : ¬ m = n := fun e => hn e.symm
    rcases hx n with h1 | h1
    · left; simp [gethash_sethash, hmn, h1]
    · right; simp [gethash_remhash, h1]

theorem exclusive_shadowings (pk : Package) (sh : List Nat) (hx : pk.exclusive) :
    Package.exclusive { pk with shadowings := sh } := hx

theorem intern_loop_exclusive (h : Handler) (st : State) (n : String) (p Q : Nat)
    (hQ : Q ≠ st.keyword_package) (hx : (st.pack Q).exclusive) :
    ∀ (fuel : Nat) (log : List CError),
      ((mkcl_intern_loop h st n p fuel log).state.pack Q).exclusive := by
  intro fuel
  induction fuel with
  | zero => intro log; exact hx
  | succ fuel ih =>
    intro log
    unfold mkcl_intern_loop
    split
    · exact hx
    · rename_i he
      dsimp only
      split
      · exact hx
      · split
        · split
          · exact ih _
          · exact hx
        · split
          · rename_i hk
            refine exclusive_set_pack _ _ _ _ (fun e => absurd (e.trans hk) hQ) hx
          · refine exclusive_set_pack _ _ _ _ (fun e => ?_) hx
            subst e
            simpa [mk_cl_make_symbol] using
              exclusive_insert_internal (st.pack Q) n st.symbol_count (st.pack Q).shadowings
                hx he

theorem intern_exclusive (h : Handler) (fuel : Nat) (st : State) (n : String)
    (d : Designator) (Q : Nat) (hQ : Q ≠ st.keyword_package) (hx : (st.pack Q).exclusive) :
    ((mkcl_intern h fuel st n d).state.pack Q).exclusive := by
  unfold mkcl_intern
  split
  · exact hx
  · exact intern_loop_exclusive h st n _ Q hQ hx fuel []

theorem unintern_loop_exclusive (h : Handler) (st : State) (s p : Nat) (name : String)
    (Q : Nat) (hx : (st.pack Q).exclusive) :
    ∀ (fuel : Nat) (log : List CError),
      ((mkcl_unintern_loop h st s p name fuel log).state.pack Q).exclusive := by
  intro fuel
  induction fuel with
  | zero => intro log; exact hx
  | succ fuel ih =>
    intro log
    unfold mkcl_unintern_loop
    dsimp only
    split
    · exact hx
    · split
      · split
        · exact ih _
        · exact hx
      · split
        · exact hx
        · rw [make_resident_symbol_homeless_pack]
          refine exclusive_set_pack _ _ _ _ (fun e => ?_) hx
          subst e
          split
          · exact exclusive_remove_internal _ _ _ hx
          · exact exclusive_remove_external _ _ _ hx

theorem unintern_exclusive (h : Handler) (fuel : Nat) (st : State) (s : Nat)
    (d : Designator) (Q : Nat) (hx : (st.pack Q).exclusive) :
    ((mkcl_unintern h fuel st s d).state.pack Q).exclusive := by
  unfold mkcl_unintern
  split
  · exact hx
  · exact unintern_loop_exclusive h st s _ _ Q hx fuel []

theorem export2_exclusive (h : Handler) (st : State) (s : Nat) (d : Designator) (Q : Nat)
    (hQ : Q ≠ st.keyword_package) (hx : (st.pack Q).exclusive) :
    ((mkcl_export2 h st s d).state.pack Q).exclusive := by
  unfold mkcl_export2
  dsimp only
  split
  · exact hx
  · split
    · exact hx
    · split
      · exact hx
      · split
        · exact hx
        · split
          · exact hx
          · rename_i hext
            split
            · exact hx
            · refine exclusive_set_pack _ _ _ _ (fun e => ?_) hx
              subst e
              split
              · exact exclusive_to_external _ _ _ hx
              · rename_i hint
                exact exclusive_insert_external (st.pack Q) _ _ hx
                  (find_symbol_not_local st _ Q hQ hext hint)

theorem unexport2_exclusive (h : Handler) (st : State) (s : Nat) (d : Designator) (Q : Nat)
    (hx : (st.pack Q).exclusive) :
    ((mkcl_unexport2 h st s d).state.pack Q).exclusive := by
  unfold mkcl_unexport2
  dsimp only
  split
  · exact hx
  · split_ifs
    all_goals first
      | exact hx
      | (refine exclusive_set_pack _ _ _ _ (fun e => ?_) hx
         subst e
         exact exclusive_to_internal _ _ _ hx)

theorem import2_exclusive (h : Handler) (st : State) (s : Nat) (d : Designator) (Q : Nat)
    (hx : (st.pack Q).exclusive) :
    ((mkcl_import2 h st s d).state.pack Q).exclusive := by
  unfold mkcl_import2
  dsimp only
  split
  · exact hx
  · split
    · exact hx
    · split
      · exact hx
      · split
        · exact hx
        · rename_i hloc
          rw [set_symbol_home_if_homeless_pack]
          refine exclusive_set_pack _ _ _ _ (fun e => ?_) hx
          subst e
          exact exclusive_insert_internal (st.pack Q) _ _ (st.pack Q).shadowings hx
            (find_symbol_not_external st _ Q (fun e => hloc (Or.inr e)))

theorem shadowing_import_exclusive (h : Handler) (st : State) (s : Nat) (d : Designator)
    (Q : Nat) (hx : (st.pack Q).exclusive) :
    ((mkcl_shadowing_import h st s d).state.pack Q).exclusive := by
  unfold mkcl_shadowing_import
  dsimp only
  split
  · exact hx
  · rename_i p _
    split
    · exact hx
    · split
      · split
        · exact hx
        · exact exclusive_set_pack _ _ _ _ (fun e => by subst e; exact hx) hx
      · rw [set_symbol_home_if_homeless_pack]
        by_cases hQp : Q = p
        · subst hQp
          simp only [set_pack_pack, if_true]
          by_cases hloc : (mkcl_find_symbol_nolock st (mkcl_symbol_name st s) Q).2 ≠ .zero
              ∧ (mkcl_find_symbol_nolock st (mkcl_symbol_name st s) Q).2 ≠ .inherited
          · rw [if_pos hloc, make_resident_symbol_homeless_pack]
            simp only [set_pack_pack, if_true]
            by_cases hint : (mkcl_find_symbol_nolock st (mkcl_symbol_name st s) Q).2
                = .internal
            · rw [if_pos hint]
              have hext : (mkcl_find_symbol_nolock st (mkcl_symbol_name st s) Q).2
                  ≠ .external := by rw [hint]; simp
              have h1 := exclusive_remove_internal (st.pack Q) (mkcl_symbol_name st s)
                (if mkcl_member_eq (mkcl_find_symbol_nolock st (mkcl_symbol_name st s) Q).1
                    (st.pack Q).shadowings = true then
                  mkcl_remove_eq (mkcl_find_symbol_nolock st (mkcl_symbol_name st s) Q).1
                    (st.pack Q).shadowings
                else (st.pack Q).shadowings) hx
              exact exclusive_insert_internal _ (mkcl_symbol_name st s) s _ h1
                (find_symbol_not_external st _ Q hext)
            · rw [if_neg hint]
              have h1 := exclusive_remove_external (st.pack Q) (mkcl_symbol_name st s)
                (if mkcl_member_eq (mkcl_find_symbol_nolock st (mkcl_symbol_name st s) Q).1
                    (st.pack Q).shadowings = true then
                  mkcl_remove_eq (mkcl_find_symbol_nolock st (mkcl_symbol_name st s) Q).1
                    (st.pack Q).shadowings
                else (st.pack Q).shadowings) hx
              exact exclusive_insert_internal _ (mkcl_symbol_name st s) s _ h1
                (by simp [gethash_remhash])
          · rw [if_neg hloc]
            have hext : (mkcl_find_symbol_nolock st (mkcl_symbol_name st s) Q).2
                ≠ .external := by
              intro e
              apply hloc
              rw [e]
              simp
            exact exclusive_insert_internal (st.pack Q) (mkcl_symbol_name st s) s _ hx
              (find_symbol_not_external st _ Q hext)
        · simp only [set_pack_pack, hQp, if_false]
          split
          · rw [make_resident_symbol_homeless_pack]
            simp only [set_pack_pack, hQp, if_false]
            exact hx
          · exact hx

theorem shadow_exclusive (h : Handler) (st : State) (s : String) (d : Designator)
    (Q : Nat) (hx : (st.pack Q).exclusive) :
    ((mkcl_shadow h st s d).state.pack Q).exclusive := by
  unfold mkcl_shadow
  dsimp only
  split
  · exact hx
  · split
    · exact hx
    · split
      · rename_i hloc
        refine exclusive_set_pack _ _ _ _ (fun e => ?_) ?_
        · subst e
          have := exclusive_insert_internal (st.pack Q) s st.symbol_count
            (st.symbol_count :: (st.pack Q).shadowings) hx
            (find_symbol_not_external st s Q hloc.2)
          simpa [mk_cl_make_symbol] using this
        · rw [set_symbol_pack]
          refine exclusive_set_pack _ _ _ _ (fun e => ?_) hx
          subst e
          have := exclusive_insert_internal (st.pack Q) s st.symbol_count
            (st.pack Q).shadowings hx (find_symbol_not_external st s Q hloc.2)
          simpa [mk_cl_make_symbol] using this
      · exact exclusive_set_pack _ _ _ _ (fun e => by subst e; exact hx) hx

theorem same_core_refl (st : State) : same_core st st := ⟨rfl, rfl, rfl, rfl, rfl, rfl⟩

theorem same_core_trans {a b c : State} (h1 : same_core a b) (h2 : same_core b c) :
    same_core a c :=
  ⟨h2.1.trans h1.1, h2.2.1.trans h1.2.1, h2.2.2.1.trans h1.2.2.1, h2.2.2.2.1.trans h1.2.2.2.1,
    h2.2.2.2.2.1.trans h1.2.2.2.2.1, h2.2.2.2.2.2.trans h1.2.2.2.2.2⟩

theorem same_core_set_pack {a b : State} (p : Nat) (v : Package) (h1 : same_core a b) :
    same_core a (b.set_pack p v) := h1

theorem same_core_set_symbol {a b : State} (s : Nat) (v : Symbol) (h1 : same_core a b) :
    same_core a (b.set_symbol s v) := h1

theorem same_core_homeless {a b : State} (s p : Nat) (h1 : same_core a b) :
    same_core a (make_resident_symbol_homeless b s p) := by
  unfold make_resident_symbol_homeless
  split
  · exact h1
  · exact h1

theorem same_core_home {a b : State} (s p : Nat) (h1 : same_core a b) :
    same_core a (set_symbol_home_if_homeless b s p) := by
  unfold set_symbol_home_if_homeless
  split
  · exact h1
  · exact h1

theorem intern_loop_same_core (h : Handler) (st : State) (n : String) (p : Nat) :
    ∀ (fuel : Nat) (log : List CError),
      same_core st (mkcl_intern_loop h st n p fuel log).state := by
  intro fuel
  induction fuel with
  | zero => intro log; exact same_core_refl st
  | succ fuel ih =>
    intro log
    unfold mkcl_intern_loop
    split
    · exact same_core_refl st
    · dsimp only
      split
      · exact same_core_refl st
      · split
        · split
          · exact ih _
          · exact same_core_refl st
        · split
          · exact same_core_refl st
          · exact same_core_refl st

theorem unintern_loop_same_core (h : Handler) (st : State) (s p : Nat) (name : String) :
    ∀ (fuel : Nat) (log : List CError),
      same_core st (mkcl_unintern_loop h st s p name fuel log).state := by
  intro fuel
  induction fuel with
  | zero => intro log; exact same_core_refl st
  | succ fuel ih =>
    intro log
    unfold mkcl_unintern_loop
    dsimp only
    split
    · exact same_core_refl st
    · split
      · split
        · exact ih _
        · exact same_core_refl st
      · split
        · exact same_core_refl st
        · exact same_core_homeless _ _ (same_core_set_pack _ _ (same_core_refl st))

theorem symbol_call_same_core (h : Handler) (fuel : Nat) (st : State) (c : Call)
    (hc : c.is_symbol_call = true) : same_core st (Call.run h fuel st c) := by
  cases c <;> simp only [Call.is_symbol_call, Bool.false_eq_true] at hc <;> simp only [Call.run]
  · unfold mkcl_intern
    split
    · exact same_core_refl st
    · exact intern_loop_same_core h st _ _ fuel []
  · unfold mkcl_unintern
    split
    · exact same_core_refl st
    · exact unintern_loop_same_core h st _ _ _ fuel []
  · unfold mkcl_export2
    dsimp only
    split
    · exact same_core_refl st
    · split_ifs
      all_goals first
        | exact same_core_refl st
        | (split <;> exact same_core_refl st)
  · unfold mkcl_unexport2
    dsimp only
    split
    · exact same_core_refl st
    · split_ifs <;> exact same_core_refl st
  · unfold mkcl_import2
    dsimp only
    split
    · exact same_core_refl st
    · split_ifs
      all_goals first
        | exact same_core_refl st
        | exact same_core_home _ _ (same_core_set_pack _ _ (same_core_refl st))
  · unfold mkcl_shadowing_import
    dsimp only
    split
    · exact same_core_refl st
    · split
      · exact same_core_refl st
      · split
        · split <;> exact same_core_refl st
        · refine same_core_home _ _ (same_core_set_pack _ _ ?_)
          split
          · exact same_core_homeless _ _ (same_core_set_pack _ _ (same_core_refl st))
          · exact same_core_refl st
  · unfold mkcl_shadow
    dsimp only
    split
    · exact same_core_refl st
    · split_ifs <;> exact same_core_refl st

/-- Off the keyword package the tables stay exclusive: every symbol operation takes an
exclusive package other than the keyword package to an exclusive package. -/
theorem exclusive_off_keyword (h : Handler) (fuel : Nat) (st : State) (c : Call) (Q : Nat)
    (hc : c.is_symbol_call = true) (hQ : Q ≠ st.keyword_package)
    (hx : (st.pack Q).exclusive) : ((Call.run h fuel st c).pack Q).exclusive := by
  cases c <;> simp only [Call.is_symbol_call, Bool.false_eq_true] at hc <;> simp only [Call.run]
  · exact intern_exclusive h fuel st _ _ Q hQ hx
  · exact unintern_exclusive h fuel st _ _ Q hx
  · exact export2_exclusive h st _ _ Q hQ hx
  · exact unexport2_exclusive h st _ _ Q hx
  · exact import2_exclusive h st _ _ Q hx
  · exact shadowing_import_exclusive h st _ _ Q hx
  · exact shadow_exclusive h st _ _ Q hx

theorem exclusive_off_keyword_run_all (h : Handler) (fuel : Nat) (cs : List Call) :
    ∀ (st : State) (Q : Nat), (∀ c ∈ cs, c.is_symbol_call = true) →
      Q ≠ st.keyword_package → (st.pack Q).exclusive →
      ((Call.run_all h fuel st cs).pack Q).exclusive := by
  induction cs with
  | nil => intro st Q _ _ hx; exact hx
  | cons c cs ih =>
    intro st Q hcs hQ hx
    have hc : c.is_symbol_call = true := hcs c (by simp)
    unfold Call.run_all
    apply ih _ Q (fun c' hc' => hcs c' (by simp [hc']))
    · rw [(symbol_call_same_core h fuel st c hc).1]
      exact hQ
    · exact exclusive_off_keyword h fuel st c Q hc hQ hx

/-! ## Allocated references -/

theorem rename_nicknames_loop_same_core (x : Nat) (l : List String) :
    ∀ st : State, same_core st (rename_nicknames_loop x st l) := by
  induction l with
  | nil => intro st; exact same_core_refl st
  | cons nick l ih =>
    intro st
    unfold rename_nicknames_loop
    split
    · exact same_core_trans (same_core_set_pack _ _ (same_core_refl st)) (ih _)
    · exact ih st

theorem rename_package_same_core (h : Handler) (st : State) (d : Designator) (name : String)
    (nicknames : List String) :
    same_core st (mkcl_rename_package h st d name nicknames).state := by
  unfold mkcl_rename_package
  dsimp only
  split
  · exact same_core_refl st
  · split
    · exact same_core_refl st
    · split
      · split
        · exact same_core_refl st
        · exact same_core_trans (same_core_set_pack _ _ (same_core_refl st))
            (rename_nicknames_loop_same_core _ _ _)
      · exact same_core_trans (same_core_set_pack _ _ (same_core_refl st))
          (rename_nicknames_loop_same_core _ _ _)

theorem heap_closed_unreferenced (st : State) (hc : heap_closed st) :
    next_package_unreferenced st :=
  fun Q => ⟨fun hm => Nat.lt_irrefl _ (hc.1 Q _ hm), fun hm => Nat.lt_irrefl _ (hc.2.1 Q _ hm)⟩

theorem heap_closed_of_same {st st' : State} (he : same_edges st st') (hs : same_core st st')
    (hc : heap_closed st) : heap_closed st' := by
  obtain ⟨_, _, _, hp, hw, hn⟩ := hs
  refine ⟨?_, ?_, ?_, ?_⟩
  · intro Q r hr
    rw [(he Q).1] at hr
    rw [hn]
    exact hc.1 Q r hr
  · intro Q r hr
    rw [(he Q).2] at hr
    rw [hn]
    exact hc.2.1 Q r hr
  · rw [hp, hn]
    exact hc.2.2.1
  · rw [hw, hn]
    exact hc.2.2.2

theorem find_package_scan_mem (st : State) (name : String) (l : List Nat) (p : Nat)
    (hp : find_package_scan st name l = some p) : p ∈ l := by
  induction l with
  | nil => simp [find_package_scan] at hp
  | cons q l ih =>
    unfold find_package_scan at hp
    split at hp
    · simp only [Option.some.injEq] at hp
      simp [hp]
    · split at hp
      · simp only [Option.some.injEq] at hp
        simp [hp]
      · simp [ih hp]

theorem coerce_allocated (st : State) (d : Designator) (p : Nat) (hc : heap_closed st)
    (hd : d.allocated st) (hp : mk_si_coerce_to_package st d = some p) :
    p < st.pack_count := by
  cases d with
  | package q =>
    simp only [mk_si_coerce_to_package, mkcl_find_package_nolock, Option.some.injEq] at hp
    rw [← hp]
    exact hd
  | string name =>
    exact hc.2.2.1 p (find_package_scan_mem st name _ p hp)

theorem heap_closed_add_edge (st : State) (x p : Nat) (hc : heap_closed st)
    (hx : x < st.pack_count) (hp : p < st.pack_count) :
    heap_closed
      ((st.set_pack p { st.pack p with uses := x :: (st.pack p).uses }).set_pack x
        { (st.set_pack p { st.pack p with uses := x :: (st.pack p).uses }).pack x with
          usedby := p :: ((st.set_pack p
            { st.pack p with uses := x :: (st.pack p).uses }).pack x).usedby }) := by
  refine ⟨?_, ?_, hc.2.2.1, hc.2.2.2⟩
  · intro Q r hr
    rcases (add_edge_uses st x p r Q).mp hr with e | e
    · rw [e.2]; exact hx
    · exact hc.1 Q r e
  · intro Q r hr
    rcases (add_edge_usedby st x p Q r).mp hr with e | e
    · rw [e.1]; exact hp
    · exact hc.2.1 Q r e

theorem heap_closed_remove_edge (st : State) (x p : Nat) (hc : heap_closed st) :
    heap_closed
      ((st.set_pack p { st.pack p with uses := mkcl_remove_eq x (st.pack p).uses }).set_pack x
        { (st.set_pack p { st.pack p with uses := mkcl_remove_eq x (st.pack p).uses }).pack x
          with usedby := mkcl_remove_eq p ((st.set_pack p
            { st.pack p with uses := mkcl_remove_eq x (st.pack p).uses }).pack x).usedby }) := by
  refine ⟨?_, ?_, hc.2.2.1, hc.2.2.2⟩
  · intro Q r hr
    exact hc.1 Q r ((remove_edge_uses st x p r Q).mp hr).1
  · intro Q r hr
    exact hc.2.1 Q r ((remove_edge_usedby st x p Q r).mp hr).1

theorem use_package_heap_closed (h : Handler) (st : State) (dx dp : Designator)
    (hc : heap_closed st) (hdx : dx.allocated st) (hdp : dp.allocated st) :
    heap_closed (mkcl_use_package h st dx dp).state := by
  unfold mkcl_use_package
  dsimp only
  split
  · exact hc
  · rename_i x hx
    split
    · exact hc
    · split
      · exact hc
      · rename_i p hp
        split
        · exact hc
        · split
          · exact hc
          · split
            · exact hc
            · split
              · exact hc
              · split
                · exact hc
                · exact heap_closed_add_edge st x p hc (coerce_allocated st dx x hc hdx hx)
                    (coerce_allocated st dp p hc hdp hp)

theorem unuse_package_heap_closed (h : Handler) (st : State) (dx dp : Designator)
    (hc : heap_closed st) : heap_closed (mkcl_unuse_package h st dx dp).state := by
  unfold mkcl_unuse_package
  dsimp only
  split
  · exact hc
  · split
    · exact hc
    · split
      · exact hc
      · split
        · exact hc
        · exact heap_closed_remove_edge st _ _ hc

theorem unuse_package_pack_count (h : Handler) (st : State) (dx dp : Designator) :
    (mkcl_unuse_package h st dx dp).state.pack_count = st.pack_count := by
  unfold mkcl_unuse_package
  dsimp only
  split
  · rfl
  · split
    · rfl
    · split
      · rfl
      · split <;> rfl

theorem allocated_mono (st st' : State) (d : Designator)
    (hle : st.pack_count ≤ st'.pack_count) (hd : d.allocated st) : d.allocated st' := by
  cases d with
  | package p => exact Nat.lt_of_lt_of_le hd hle
  | string name => trivial

theorem alloc_heap_closed (st : State) (name : String) (hc : heap_closed st) :
    heap_closed (_mkcl_alloc_sized_package st name).1 := by
  unfold _mkcl_alloc_sized_package
  refine ⟨?_, ?_, ?_, ?_⟩
  · intro Q r hr
    simp only [Function.update_apply] at hr
    split at hr
    · simp at hr
    · exact Nat.lt_succ_of_lt (hc.1 Q r hr)
  · intro Q r hr
    simp only [Function.update_apply] at hr
    split at hr
    · simp at hr
    · exact Nat.lt_succ_of_lt (hc.2.1 Q r hr)
  · intro p hp
    exact Nat.lt_succ_of_lt (hc.2.2.1 p hp)
  · intro e he
    exact Nat.lt_succ_of_lt (hc.2.2.2 e he)

theorem use_list_loop_heap_closed (x : Nat) (l : List Designator) :
    ∀ st : State, heap_closed st → x < st.pack_count → (∀ d ∈ l, d.allocated st) →
      heap_closed (use_list_loop x st l).1 := by
  induction l with
  | nil => intro st hc _ _; exact hc
  | cons d l ih =>
    intro st hc hx hl
    unfold use_list_loop
    split
    · exact hc
    · rename_i y hy
      have hyc := coerce_allocated st d y hc (hl d (by simp)) hy
      exact ih _ (heap_closed_add_edge st y x hc hyc hx) hx
        (fun d' hd' => allocated_mono st _ d' (Nat.le_refl _) (hl d' (by simp [hd'])))

theorem make_package_intern_heap_closed (h : Handler) (st : State) (x : Nat)
    (nicknames : List String) (use_list : List Designator) (hc : heap_closed st)
    (hx : x < st.pack_count) (hl : ∀ d ∈ use_list, d.allocated st) :
    heap_closed (make_package_intern h st x nicknames use_list).state := by
  unfold make_package_intern
  split
  · exact hc
  · have h1 : heap_closed (st.set_pack x { st.pack x with nicknames := ‹List String› }) :=
      heap_closed_of_same (same_edges_set_pack _ _ (same_edges_refl _) rfl rfl)
        (same_core_refl st) hc
    have h2 := use_list_loop_heap_closed x use_list _ h1 hx
      (fun d hd => allocated_mono st _ d (Nat.le_refl _) (hl d hd))
    have hcount : ∀ (l : List Designator) (s : State),
        (use_list_loop x s l).1.pack_count = s.pack_count := by
      intro l
      induction l with
      | nil => intro s; rfl
      | cons d l ih =>
        intro s
        unfold use_list_loop
        split
        · rfl
        · rw [ih]; rfl
    have h3 := hcount use_list (st.set_pack x { st.pack x with nicknames := ‹List String› })
    dsimp only
    split
    · rename_i heq
      rw [heq] at h2
      exact h2
    · rename_i heq
      rw [heq] at h2 h3
      refine ⟨h2.1, h2.2.1, ?_, h2.2.2.2⟩
      intro p hp
      simp only [List.mem_cons] at hp
      rcases hp with e | e
      · rw [e]
        show x < _
        rw [h3]
        exact hx
      · exact h2.2.2.1 p e

theorem pending_scan_some (name : String) (nicknames : List String)
    (l : List (String × Nat)) (x : Nat) (rest : List (String × Nat))
    (hs : pending_scan name nicknames l = some (x, rest)) :
    (∃ e ∈ l, e.2 = x) ∧ ∀ e ∈ rest, e ∈ l := by
  induction l generalizing x rest with
  | nil => simp [pending_scan] at hs
  | cons pair l ih =>
    unfold pending_scan at hs
    split at hs
    · simp only [Option.some.injEq, Prod.mk.injEq] at hs
      obtain ⟨h1, h2⟩ := hs
      subst h1 h2
      exact ⟨⟨pair, by simp, rfl⟩, fun e he => by simp [he]⟩
    · split at hs
      · rename_i r hr
        simp only [Option.some.injEq, Prod.mk.injEq] at hs
        obtain ⟨h1, h2⟩ := hs
        obtain ⟨⟨e, he, hex⟩, hsub⟩ := ih r.1 r.2 hr
        refine ⟨⟨e, by simp [he], hex.trans h1⟩, ?_⟩
        intro e' he'
        rw [← h2] at he'
        simp only [List.mem_cons] at he'
        rcases he' with e1 | e1
        · simp [e1]
        · simp [hsub e' e1]
      · simp at hs

theorem make_sized_package_heap_closed (h : Handler) (st : State) (name : String)
    (nicknames : List String) (use_list : List Designator) (es is : Int)
    (hc : heap_closed st) (hl : ∀ d ∈ use_list, d.allocated st) :
    heap_closed (mkcl_make_sized_package h st name nicknames use_list es is).state := by
  unfold mkcl_make_sized_package
  split
  · rename_i x rest hs
    obtain ⟨⟨e, he, hex⟩, hsub⟩ := pending_scan_some _ _ _ _ _ hs
    have hc1 : heap_closed { st with packages_to_be_created := rest } :=
      ⟨hc.1, hc.2.1, hc.2.2.1, fun e' he' => hc.2.2.2 e' (hsub e' he')⟩
    exact make_package_intern_heap_closed h _ x _ _ hc1 (hex ▸ hc.2.2.2 e he) hl
  · split
    · exact hc
    · split
      · exact hc
      · exact make_package_intern_heap_closed h _ _ _ _ (alloc_heap_closed st name hc)
          (Nat.lt_succ_self _)
          (fun d hd => allocated_mono st _ d (Nat.le_succ _) (hl d hd))

theorem delete_unuse_loop_heap_closed (h : Handler) (p : Nat) (l : List Nat) :
    ∀ st : State, heap_closed st → heap_closed (delete_unuse_loop h p st l).state := by
  induction l with
  | nil => intro st hm; exact hm
  | cons y l ih =>
    intro st hm
    unfold delete_unuse_loop
    exact andThen_state heap_closed _ _ (unuse_package_heap_closed h st _ _ hm)
      (fun st1 _ h1 => ih st1 h1)

theorem delete_unused_loop_heap_closed (h : Handler) (p : Nat) (l : List Nat) :
    ∀ st : State, heap_closed st → heap_closed (delete_unused_loop h p st l).state := by
  induction l with
  | nil => intro st hm; exact hm
  | cons y l ih =>
    intro st hm
    unfold delete_unused_loop
    exact andThen_state heap_closed _ _ (unuse_package_heap_closed h st _ _ hm)
      (fun st1 _ h1 => ih st1 h1)

theorem delete_package_heap_closed (h : Handler) (st : State) (d : Designator)
    (hm : heap_closed st) : heap_closed (mk_cl_delete_package h st d).state := by
  unfold mk_cl_delete_package
  split
  · exact andThen_state heap_closed _ _ hm (fun st1 _ h1 => h1)
  · rename_i p _
    refine andThen_state heap_closed _ _ (by split <;> exact hm) ?_
    intro st1 _ h1
    split
    · exact h1
    · split
      · exact h1
      · refine andThen_state heap_closed _ _ (delete_unuse_loop_heap_closed h _ _ st1 h1) ?_
        intro st2 _ h2
        refine andThen_state heap_closed _ _ ?_ ?_
        · split
          · exact andThen_state heap_closed _ _ h2
              (fun st3 _ h3 => delete_unused_loop_heap_closed h _ _ st3 h3)
          · exact h2
        · intro st4 _ h4
          have hse : same_edges st4
              (({ st4 with packages := mkcl_remove_eq p st4.packages } : State).set_pack p
                { st4.pack p with name := none }) :=
            same_edges_set_pack _ _ (fun _ => ⟨rfl, rfl⟩) rfl rfl
          refine ⟨?_, ?_, ?_, h4.2.2.2⟩
          · intro Q r hr
            rw [(hse Q).1] at hr
            exact h4.1 Q r hr
          · intro Q r hr
            rw [(hse Q).2] at hr
            exact h4.2.1 Q r hr
          · intro q hq
            exact h4.2.2.1 q ((mem_remove_eq q _ _).mp hq).1

theorem call_heap_closed (h : Handler) (fuel : Nat) (st : State) (c : Call)
    (hc : heap_closed st) (ha : c.allocated st) : heap_closed (Call.run h fuel st c) := by
  cases c with
  | make_package name nicknames use_list es is =>
    exact make_sized_package_heap_closed h st name nicknames use_list es is hc ha
  | rename_package d name nicknames =>
    exact heap_closed_of_same (rename_package_same_edges h st d name nicknames)
      (rename_package_same_core h st d name nicknames) hc
  | delete_package d => exact delete_package_heap_closed h st d hc
  | intern name d =>
    exact heap_closed_of_same (intern_same_edges h fuel st name d)
      (symbol_call_same_core h fuel st (.intern name d) rfl) hc
  | unintern s d =>
    exact heap_closed_of_same (unintern_same_edges h fuel st s d)
      (symbol_call_same_core h fuel st (.unintern s d) rfl) hc
  | export2 s d =>
    exact heap_closed_of_same (export2_same_edges h st s d)
      (symbol_call_same_core h fuel st (.export2 s d) rfl) hc
  | unexport2 s d =>
    exact heap_closed_of_same (unexport2_same_edges h st s d)
      (symbol_call_same_core h fuel st (.unexport2 s d) rfl) hc
  | import2 s d =>
    exact heap_closed_of_same (import2_same_edges h st s d)
      (symbol_call_same_core h fuel st (.import2 s d) rfl) hc
  | shadowing_import s d =>
    exact heap_closed_of_same (shadowing_import_same_edges h st s d)
      (symbol_call_same_core h fuel st (.shadowing_import s d) rfl) hc
  | shadow name d =>
    exact heap_closed_of_same (shadow_same_edges h st name d)
      (symbol_call_same_core h fuel st (.shadow name d) rfl) hc
  | use_package dx dp => exact use_package_heap_closed h st dx dp hc ha.1 ha.2
  | unuse_package dx dp => exact unuse_package_heap_closed h st dx dp hc

theorem call_mutual (h : Handler) (fuel : Nat) (st : State) (c : Call)
    (hm : mutual_use_edges st) (hfresh : next_package_unreferenced st) :
    mutual_use_edges (Call.run h fuel st c) := by
  cases c with
  | make_package name nicknames use_list es is =>
    exact make_sized_package_mutual h st name nicknames use_list es is hm hfresh
  | rename_package d name nicknames =>
    exact mutual_of_same_edges (rename_package_same_edges h st d name nicknames) hm
  | delete_package d => exact delete_package_mutual h st d hm
  | intern name d => exact mutual_of_same_edges (intern_same_edges h fuel st name d) hm
  | unintern s d => exact mutual_of_same_edges (unintern_same_edges h fuel st s d) hm
  | export2 s d => exact mutual_of_same_edges (export2_same_edges h st s d) hm
  | unexport2 s d => exact mutual_of_same_edges (unexport2_same_edges h st s d) hm
  | import2 s d => exact mutual_of_same_edges (import2_same_edges h st s d) hm
  | shadowing_import s d =>
    exact mutual_of_same_edges (shadowing_import_same_edges h st s d) hm
  | shadow name d => exact mutual_of_same_edges (shadow_same_edges h st name d) hm
  | use_package dx dp => exact use_package_mutual h st dx dp hm
  | unuse_package dx dp => exact unuse_package_mutual h st dx dp hm

/-- Mutuality along a run: from a state with use/used-by mutuality whose package
references are all allocated, every sequence of calls with allocated arguments leads to
a state with both properties. -/
theorem mutual_use_edges_run_all (h : Handler) (fuel : Nat) (cs : List Call) :
    ∀ st : State, mutual_use_edges st → heap_closed st → calls_allocated h fuel st cs →
      mutual_use_edges (Call.run_all h fuel st cs) ∧ heap_closed (Call.run_all h fuel st cs) := by
  induction cs with
  | nil => intro st hm hc _; exact ⟨hm, hc⟩
  | cons c cs ih =>
    intro st hm hc ha
    unfold Call.run_all
    exact ih _ (call_mutual h fuel st c hm (heap_closed_unreferenced st hc))
      (call_heap_closed h fuel st c hc ha.1) ha.2

/-! ## Import -/

theorem import2_open (h : Handler) (st : State) (s P : Nat)
    (hopen : (st.pack P).closed = false) :
    mkcl_import2 h st s (.package P) =
      if (mkcl_find_symbol_nolock st (mkcl_symbol_name st s) P).2 ≠ .zero
          ∧ (mkcl_find_symbol_nolock st (mkcl_symbol_name st s) P).1 ≠ s
          ∧ h (.import_conflict s P) = false then
        ⟨st, [.import_conflict s P], .declined (.import_conflict s P)⟩
      else if (mkcl_find_symbol_nolock st (mkcl_symbol_name st s) P).2 = .internal
          ∨ (mkcl_find_symbol_nolock st (mkcl_symbol_name st s) P).2 = .external then
        ⟨st,
          if (mkcl_find_symbol_nolock st (mkcl_symbol_name st s) P).2 ≠ .zero
              ∧ (mkcl_find_symbol_nolock st (mkcl_symbol_name st s) P).1 ≠ s then
            [.import_conflict s P] else [],
          .ret ()⟩
      else
        ⟨set_symbol_home_if_homeless
            (st.set_pack P
              { st.pack P with
                internal := mkcl_sethash (mkcl_symbol_name st s) (st.pack P).internal s })
            s P,
          if (mkcl_find_symbol_nolock st (mkcl_symbol_name st s) P).2 ≠ .zero
              ∧ (mkcl_find_symbol_nolock st (mkcl_symbol_name st s) P).1 ≠ s then
            [.import_conflict s P] else [],
          .ret ()⟩ := by
  unfold mkcl_import2
  simp only [mk_si_coerce_to_package, mkcl_find_package_nolock, hopen, Bool.false_eq_true,
    false_and, if_false, List.nil_append]
  split_ifs <;> simp_all

theorem home_if_homeless_symbol (st : State) (s p t : Nat) :
    (set_symbol_home_if_homeless st s p).symbol t =
      if t = s then
        { st.symbol s with
          hpack := if (st.symbol s).hpack = none then some p else (st.symbol s).hpack }
      else st.symbol t := by
  unfold set_symbol_home_if_homeless
  by_cases hh : (st.symbol s).hpack = none
  · simp [hh]
  · by_cases ht : t = s
    · simp [hh, ht]
    · simp [hh, ht]

theorem home_if_homeless_same_core (st : State) (s p : Nat) :
    (set_symbol_home_if_homeless st s p).packages = st.packages
    ∧ (set_symbol_home_if_homeless st s p).packages_to_be_created = st.packages_to_be_created
    ∧ (set_symbol_home_if_homeless st s p).pack_count = st.pack_count
    ∧ (set_symbol_home_if_homeless st s p).symbol_count = st.symbol_count
    ∧ (set_symbol_home_if_homeless st s p).keyword_package = st.keyword_package
    ∧ (set_symbol_home_if_homeless st s p).lisp_package = st.lisp_package := by
  unfold set_symbol_home_if_homeless
  split <;> exact ⟨rfl, rfl, rfl, rfl, rfl, rfl⟩

/-- C16: in an open package `P`, when the name of `s` does not resolve or resolves to
`s` itself as an inherited symbol, `mkcl_import2` returns without signalling, puts `s`
under its name in `P.internal` and leaves every other entry, every other field of `P`,
every other package and the registry as they were; of the symbols only the home of `s`
may change: it becomes `P` if `s` was homeless and stays otherwise.  When the name
already resolves to `s` as an internal or external symbol, the state is unchanged. -/
theorem import_inserts_internal (h : Handler) (st : State) (P s : Nat)
    (hopen : (st.pack P).closed = false) :
    (((mkcl_find_symbol_nolock st (mkcl_symbol_name st s) P).2 = .zero
        ∨ mkcl_find_symbol_nolock st (mkcl_symbol_name st s) P = (s, .inherited)) →
      (mkcl_import2 h st s (.package P)).exit = .ret () ∧
      (mkcl_import2 h st s (.package P)).signals = [] ∧
      (mkcl_import2 h st s (.package P)).state.pack P
        = { st.pack P with
            internal := mkcl_sethash (mkcl_symbol_name st s) (st.pack P).internal s } ∧
      mkcl_gethash_safe (mkcl_symbol_name st s)
          ((mkcl_import2 h st s (.package P)).state.pack P).internal = some s ∧
      (∀ m, m ≠ mkcl_symbol_name st s →
        mkcl_gethash_safe m ((mkcl_import2 h st s (.package P)).state.pack P).internal
          = mkcl_gethash_safe m (st.pack P).internal) ∧
      (∀ Q, Q ≠ P → (mkcl_import2 h st s (.package P)).state.pack Q = st.pack Q) ∧
      (mkcl_import2 h st s (.package P)).state.symbol s
        = { st.symbol s with
            hpack := if (st.symbol s).hpack = none then some P else (st.symbol s).hpack } ∧
      (∀ t, t ≠ s → (mkcl_import2 h st s (.package P)).state.symbol t = st.symbol t) ∧
      (mkcl_import2 h st s (.package P)).state.packages = st.packages ∧
      (mkcl_import2 h st s (.package P)).state.packages_to_be_created
        = st.packages_to_be_created ∧
      (mkcl_import2 h st s (.package P)).state.symbol_count = st.symbol_count ∧
      (mkcl_import2 h st s (.package P)).state.pack_count = st.pack_count) ∧
    ((mkcl_find_symbol_nolock st (mkcl_symbol_name st s) P = (s, .internal)
        ∨ mkcl_find_symbol_nolock st (mkcl_symbol_name st s) P = (s, .external)) →
      (mkcl_import2 h st s (.package P)).exit = .ret () ∧
      (mkcl_import2 h st s (.package P)).signals = [] ∧
      (mkcl_import2 h st s (.package P)).state = st) := by
  rw [import2_open h st s P hopen]
  constructor
  · intro hres
    have hnc : ¬ ((mkcl_find_symbol_nolock st (mkcl_symbol_name st s) P).2 ≠ .zero
        ∧ (mkcl_find_symbol_nolock st (mkcl_symbol_name st s) P).1 ≠ s) := by
      rcases hres with e | e
      · simp [e]
      · simp [e]
    have hnl : ¬ ((mkcl_find_symbol_nolock st (mkcl_symbol_name st s) P).2 = .internal
        ∨ (mkcl_find_symbol_nolock st (mkcl_symbol_name st s) P).2 = .external) := by
      rcases hres with e | e
      · simp [e]
      · simp [e]
    have hnc3 : ¬ ((mkcl_find_symbol_nolock st (mkcl_symbol_name st s) P).2 ≠ .zero
        ∧ (mkcl_find_symbol_nolock st (mkcl_symbol_name st s) P).1 ≠ s
        ∧ h (.import_conflict s P) = false) := fun c => hnc ⟨c.1, c.2.1⟩
    rw [if_neg hnc3, if_neg hnl, if_neg hnc]
    have hc := home_if_homeless_same_core
      (st.set_pack P
        { st.pack P with
          internal := mkcl_sethash (mkcl_symbol_name st s) (st.pack P).internal s }) s P
    refine ⟨rfl, rfl, ?_, ?_, ?_, ?_, ?_, ?_, hc.1, hc.2.1, hc.2.2.2.1, hc.2.2.1⟩
    · simp [set_symbol_home_if_homeless_pack]
    · simp [set_symbol_home_if_homeless_pack, gethash_sethash]
    · intro m hm
      have hm2 : ¬ mkcl_symbol_name st s = m := fun e => hm e.symm
      simp [set_symbol_home_if_homeless_pack, gethash_sethash, hm2]
    · intro Q hQ
      simp [set_symbol_home_if_homeless_pack, hQ]
    · rw [home_if_homeless_symbol]
      simp
    · intro t ht
      rw [home_if_homeless_symbol]
      simp [ht]
  · intro hres
    have hnc : ¬ ((mkcl_find_symbol_nolock st (mkcl_symbol_name st s) P).2 ≠ .zero
        ∧ (mkcl_find_symbol_nolock st (mkcl_symbol_name st s) P).1 ≠ s) := by
      rcases hres with e | e
      · simp [e]
      · simp [e]
    have hl : (mkcl_find_symbol_nolock st (mkcl_symbol_name st s) P).2 = .internal
        ∨ (mkcl_find_symbol_nolock st (mkcl_symbol_name st s) P).2 = .external := by
      rcases hres with e | e
      · left; rw [e]
      · right; rw [e]
    have hnc3 : ¬ ((mkcl_find_symbol_nolock st (mkcl_symbol_name st s) P).2 ≠ .zero
        ∧ (mkcl_find_symbol_nolock st (mkcl_symbol_name st s) P).1 ≠ s
        ∧ h (.import_conflict s P) = false) := fun c => hnc ⟨c.1, c.2.1⟩
    rw [if_neg hnc3, if_pos hl, if_neg hnc]
    exact ⟨rfl, rfl, rfl⟩

/-- Witness of C16: in `homeless_state` the homeless symbol `A` (2) does not resolve in
the open package `FOO` (2); the import puts it in `FOO.internal` and makes `FOO` its
home. -/
theorem import_inserts_internal_witness :
    (homeless_state.pack 2).closed = false ∧
    (mkcl_find_symbol_nolock homeless_state (mkcl_symbol_name homeless_state 2) 2).2
      = .zero ∧
    (homeless_state.symbol 2).hpack = none ∧
    mkcl_gethash_safe (mkcl_symbol_name homeless_state 2)
        ((mkcl_import2 default_handler homeless_state 2 (.package 2)).state.pack 2).internal
      = some 2 ∧
    ((mkcl_import2 default_handler homeless_state 2 (.package 2)).state.symbol 2).hpack
      = some 2 :=
  ⟨by decide!, by decide!, by decide!,
   ((import_inserts_internal default_handler homeless_state 2 2 (by decide!)).1
      (Or.inl (by decide!))).2.2.2.1,
   by
    rw [((import_inserts_internal default_handler homeless_state 2 2 (by decide!)).1
      (Or.inl (by decide!))).2.2.2.2.2.2.1]
    decide!⟩

/-- Counterexample to C17 as stated: in `inherited_conflict_state` the name `X` of the
symbol 3 resolves in the open package `A` (3) to the different symbol 2, inherited from
`U`; `mkcl_import2` signals the conflict and, with the default recovery, goes on to put
symbol 3 into `A.internal`, which was empty. -/
theorem import_inherited_conflict_counterexample :
    (inherited_conflict_state.pack 3).closed = false ∧
    mkcl_find_symbol_nolock inherited_conflict_state
        (mkcl_symbol_name inherited_conflict_state 3) 3 = (2, .inherited) ∧
    (mkcl_import2 default_handler inherited_conflict_state 3 (.package 3)).signals
      = [.import_conflict 3 3] ∧
    (mkcl_import2 default_handler inherited_conflict_state 3 (.package 3)).exit = .ret () ∧
    (inherited_conflict_state.pack 3).internal = [] ∧
    ((mkcl_import2 default_handler inherited_conflict_state 3 (.package 3)).state.pack
      3).internal = [("X", 3)] := by
  decide!

/-- C17, amended: in an open package `P` in which the name of `s` resolves to a
different symbol, `mkcl_import2` signals the continuable conflict error.  If the handler
declines, the state is unchanged.  If it continues (the default), then: when the other
symbol is local (internal or external) the call returns with the state unchanged; when
it is inherited the import proceeds, `s` is put into `P.internal` under its name, the
home of `s` becomes `P` if `s` was homeless, and nothing else changes. -/
theorem import_conflict_recovery (h : Handler) (st : State) (P s : Nat)
    (hopen : (st.pack P).closed = false)
    (hfound : (mkcl_find_symbol_nolock st (mkcl_symbol_name st s) P).2 ≠ .zero)
    (hdiff : (mkcl_find_symbol_nolock st (mkcl_symbol_name st s) P).1 ≠ s) :
    (mkcl_import2 h st s (.package P)).signals = [.import_conflict s P] ∧
    (h (.import_conflict s P) = false →
      (mkcl_import2 h st s (.package P)).exit = .declined (.import_conflict s P) ∧
      (mkcl_import2 h st s (.package P)).state = st) ∧
    (h (.import_conflict s P) = true →
      (mkcl_import2 h st s (.package P)).exit = .ret () ∧
      (((mkcl_find_symbol_nolock st (mkcl_symbol_name st s) P).2 = .internal
          ∨ (mkcl_find_symbol_nolock st (mkcl_symbol_name st s) P).2 = .external) →
        (mkcl_import2 h st s (.package P)).state = st) ∧
      ((mkcl_find_symbol_nolock st (mkcl_symbol_name st s) P).2 = .inherited →
        (mkcl_import2 h st s (.package P)).state.pack P
          = { st.pack P with
              internal := mkcl_sethash (mkcl_symbol_name st s) (st.pack P).internal s } ∧
        (∀ Q, Q ≠ P → (mkcl_import2 h st s (.package P)).state.pack Q = st.pack Q) ∧
        (mkcl_import2 h st s (.package P)).state.symbol s
          = { st.symbol s with
              hpack := if (st.symbol s).hpack = none then some P else (st.symbol s).hpack } ∧
        (∀ t, t ≠ s → (mkcl_import2 h st s (.package P)).state.symbol t = st.symbol t))) := by
  rw [import2_open h st s P hopen]
  have hc : (mkcl_find_symbol_nolock st (mkcl_symbol_name st s) P).2 ≠ .zero
      ∧ (mkcl_find_symbol_nolock st (mkcl_symbol_name st s) P).1 ≠ s := ⟨hfound, hdiff⟩
  refine ⟨?_, ?_, ?_⟩
  · split_ifs <;> simp_all
  · intro hh
    rw [if_pos ⟨hfound, hdiff, hh⟩]
    exact ⟨rfl, rfl⟩
  · intro hh
    have hn3 : ¬ ((mkcl_find_symbol_nolock st (mkcl_symbol_name st s) P).2 ≠ .zero
        ∧ (mkcl_find_symbol_nolock st (mkcl_symbol_name st s) P).1 ≠ s
        ∧ h (.import_conflict s P) = false) := by
      intro c
      rw [hh] at c
      simp at c
    rw [if_neg hn3]
    refine ⟨?_, ?_, ?_⟩
    · split_ifs <;> rfl
    · intro hl
      rw [if_pos hl]
    · intro hi
      have hnl : ¬ ((mkcl_find_symbol_nolock st (mkcl_symbol_name st s) P).2 = .internal
          ∨ (mkcl_find_symbol_nolock st (mkcl_symbol_name st s) P).2 = .external) := by
        rw [hi]; simp
      rw [if_neg hnl]
      refine ⟨?_, ?_, ?_, ?_⟩
      · simp [set_symbol_home_if_homeless_pack]
      · intro Q hQ
        simp [set_symbol_home_if_homeless_pack, hQ]
      · rw [home_if_homeless_symbol]
        simp
      · intro t ht
        rw [home_if_homeless_symbol]
        simp [ht]

/-- Witness of the amended C17: `inherited_conflict_state`, symbol 3 and package `A`
(3); with the default handler the import proceeds. -/
theorem import_conflict_recovery_witness :
    (inherited_conflict_state.pack 3).closed = false ∧
    (mkcl_find_symbol_nolock inherited_conflict_state
        (mkcl_symbol_name inherited_conflict_state 3) 3).2 ≠ .zero ∧
    (mkcl_find_symbol_nolock inherited_conflict_state
        (mkcl_symbol_name inherited_conflict_state 3) 3).1 ≠ 3 ∧
    (mkcl_import2 default_handler inherited_conflict_state 3 (.package 3)).signals
      = [.import_conflict 3 3] :=
  ⟨by decide!, by decide!, by decide!,
   (import_conflict_recovery default_handler inherited_conflict_state 3 3 (by decide!)
      (by decide!) (by decide!)).1⟩

/-! ## Shadowing import -/

theorem homeless_symbol (st : State) (s p t : Nat) :
    (make_resident_symbol_homeless st s p).symbol t =
      if t = s then
        { st.symbol s with
          hpack := if (st.symbol s).hpack = some p then none else (st.symbol s).hpack }
      else st.symbol t := by
  unfold make_resident_symbol_homeless
  by_cases hh : (st.symbol s).hpack = some p
  · simp [hh]
  · by_cases ht : t = s
    · simp [hh, ht]
    · simp [hh, ht]

theorem closed_eq_false (st : State) (P : Nat) (hopen : (st.pack P).closed = false) :
    ((st.pack P).closed = true) = False := by
  simp [hopen]

theorem shadowing_import_present (h : Handler) (st : State) (s P : Nat)
    (hopen : (st.pack P).closed = false)
    (hf : (mkcl_find_symbol_nolock st (mkcl_symbol_name st s) P).2 = .internal
      ∨ (mkcl_find_symbol_nolock st (mkcl_symbol_name st s) P).2 = .external)
    (hx : (mkcl_find_symbol_nolock st (mkcl_symbol_name st s) P).1 = s) :
    mkcl_shadowing_import h st s (.package P) =
      ⟨if s ∈ (st.pack P).shadowings then st
        else st.set_pack P { st.pack P with shadowings := s :: (st.pack P).shadowings },
        [], .ret ()⟩ := by
  have hc := closed_eq_false st P hopen
  have h1 : (mkcl_find_symbol_nolock st (mkcl_symbol_name st s) P).2 ≠ .zero
      ∧ (mkcl_find_symbol_nolock st (mkcl_symbol_name st s) P).2 ≠ .inherited
      ∧ (mkcl_find_symbol_nolock st (mkcl_symbol_name st s) P).1 = s := by
    rcases hf with e | e <;> simp [e, hx]
  unfold mkcl_shadowing_import
  simp only [mk_si_coerce_to_package, mkcl_find_package_nolock, hc, false_and, if_false]
  rw [if_pos h1, hx]
  by_cases hm : s ∈ (st.pack P).shadowings
  · simp [mkcl_member_eq, hm]
  · simp [mkcl_member_eq, hm]

theorem shadowing_import_absent (h : Handler) (st : State) (s P : Nat)
    (hopen : (st.pack P).closed = false)
    (hf : (mkcl_find_symbol_nolock st (mkcl_symbol_name st s) P).2 = .zero
      ∨ (mkcl_find_symbol_nolock st (mkcl_symbol_name st s) P).2 = .inherited) :
    mkcl_shadowing_import h st s (.package P) =
      ⟨set_symbol_home_if_homeless
          (st.set_pack P
            { st.pack P with
              shadowings := s :: (st.pack P).shadowings
              internal := mkcl_sethash (mkcl_symbol_name st s) (st.pack P).internal s })
          s P,
        [], .ret ()⟩ := by
  have hc := closed_eq_false st P hopen
  have h1 : ¬ ((mkcl_find_symbol_nolock st (mkcl_symbol_name st s) P).2 ≠ .zero
      ∧ (mkcl_find_symbol_nolock st (mkcl_symbol_name st s) P).2 ≠ .inherited
      ∧ (mkcl_find_symbol_nolock st (mkcl_symbol_name st s) P).1 = s) := by
    rcases hf with e | e <;> simp [e]
  have h2 : ¬ ((mkcl_find_symbol_nolock st (mkcl_symbol_name st s) P).2 ≠ .zero
      ∧ (mkcl_find_symbol_nolock st (mkcl_symbol_name st s) P).2 ≠ .inherited) := by
    rcases hf with e | e <;> simp [e]
  unfold mkcl_shadowing_import
  simp only [mk_si_coerce_to_package, mkcl_find_package_nolock, hc, false_and, if_false]
  rw [if_neg h1, if_neg h2]

theorem shadowing_import_evicts (h : Handler) (st : State) (s P : Nat)
    (hopen : (st.pack P).closed = false)
    (hf : (mkcl_find_symbol_nolock st (mkcl_symbol_name st s) P).2 = .internal
      ∨ (mkcl_find_symbol_nolock st (mkcl_symbol_name st s) P).2 = .external)
    (hx : (mkcl_find_symbol_nolock st (mkcl_symbol_name st s) P).1 ≠ s) :
    (mkcl_shadowing_import h st s (.package P)).exit = .ret () ∧
    (mkcl_shadowing_import h st s (.package P)).signals = [] ∧
    (mkcl_shadowing_import h st s (.package P)).state.pack P
      = { st.pack P with
          shadowings := s ::
            (if (mkcl_find_symbol_nolock st (mkcl_symbol_name st s) P).1
                ∈ (st.pack P).shadowings then
              mkcl_remove_eq (mkcl_find_symbol_nolock st (mkcl_symbol_name st s) P).1
                (st.pack P).shadowings
            else (st.pack P).shadowings)
          internal := mkcl_sethash (mkcl_symbol_name st s)
            (if (mkcl_find_symbol_nolock st (mkcl_symbol_name st s) P).2 = .internal then
              mkcl_remhash (mkcl_symbol_name st s) (st.pack P).internal
            else (st.pack P).internal) s
          external :=
            if (mkcl_find_symbol_nolock st (mkcl_symbol_name st s) P).2 = .internal then
              (st.pack P).external
            else mkcl_remhash (mkcl_symbol_name st s) (st.pack P).external } ∧
    (∀ Q, Q ≠ P → (mkcl_shadowing_import h st s (.package P)).state.pack Q = st.pack Q) ∧
    (∀ t, (mkcl_shadowing_import h st s (.package P)).state.symbol t =
      if t = s then
        { st.symbol s with
          hpack := if (st.symbol s).hpack = none then some P else (st.symbol s).hpack }
      else if t = (mkcl_find_symbol_nolock st (mkcl_symbol_name st s) P).1 then
        { st.symbol t with
          hpack := if (st.symbol t).hpack = some P then none else (st.symbol t).hpack }
      else st.symbol t) := by
  have hc := closed_eq_false st P hopen
  have h1 : ¬ ((mkcl_find_symbol_nolock st (mkcl_symbol_name st s) P).2 ≠ .zero
      ∧ (mkcl_find_symbol_nolock st (mkcl_symbol_name st s) P).2 ≠ .inherited
      ∧ (mkcl_find_symbol_nolock st (mkcl_symbol_name st s) P).1 = s) :=
    fun c => hx c.2.2
  have h2 : (mkcl_find_symbol_nolock st (mkcl_symbol_name st s) P).2 ≠ .zero
      ∧ (mkcl_find_symbol_nolock st (mkcl_symbol_name st s) P).2 ≠ .inherited := by
    rcases hf with e | e <;> simp [e]
  unfold mkcl_shadowing_import
  simp only [mk_si_coerce_to_package, mkcl_find_package_nolock, hc, false_and, if_false]
  rw [if_neg h1, if_pos h2]
  refine ⟨rfl, rfl, ?_, ?_, ?_⟩
  · simp only [set_symbol_home_if_homeless_pack, set_pack_pack, if_true,
      make_resident_symbol_homeless_pack, mkcl_member_eq, decide_eq_true_eq]
    rcases hf with e | e
    · simp [e]
    · simp [e]
  · intro Q hQ
    simp only [set_symbol_home_if_homeless_pack, set_pack_pack, hQ, if_false,
      make_resident_symbol_homeless_pack]
  · intro t
    rw [home_if_homeless_symbol]
    simp only [set_pack_symbol, homeless_symbol]
    by_cases ht : t = s
    · subst ht
      simp [hx, Ne.symm hx]
    · simp only [ht, if_false]
      by_cases hxt : t = (mkcl_find_symbol_nolock st (mkcl_symbol_name st s) P).1
      · rw [if_pos hxt, if_pos hxt, ← hxt]
      · rw [if_neg hxt, if_neg hxt]

theorem find_symbol_of_internal (st : State) (n : String) (p s : Nat)
    (hk : p ≠ st.keyword_package)
    (he : mkcl_gethash_safe n (st.pack p).external = none)
    (hi : mkcl_gethash_safe n (st.pack p).internal = some s) :
    mkcl_find_symbol_nolock st n p = (s, .internal) := by
  simp [mkcl_find_symbol_nolock, he, hi, hk]

theorem find_symbol_of_external (st : State) (n : String) (p s : Nat)
    (he : mkcl_gethash_safe n (st.pack p).external = some s) :
    mkcl_find_symbol_nolock st n p = (s, .external) := by
  simp [mkcl_find_symbol_nolock, he]

theorem find_symbol_external_entry (st : State) (n : String) (p : Nat)
    (hf : (mkcl_find_symbol_nolock st n p).2 = .external) :
    mkcl_gethash_safe n (st.pack p).external = some (mkcl_find_symbol_nolock st n p).1 := by
  unfold mkcl_find_symbol_nolock at hf ⊢
  cases he : mkcl_gethash_safe n (st.pack p).external with
  | some s => simp
  | none =>
    rw [he] at hf
    by_cases hk : p = st.keyword_package
    · simp [hk] at hf
    · cases hi : mkcl_gethash_safe n (st.pack p).internal with
      | some s => simp [hk, hi] at hf
      | none =>
        cases hu : find_in_uses st n (st.pack p).uses with
        | some s => simp [hk, hi, hu] at hf
        | none => simp [hk, hi, hu] at hf

theorem find_symbol_internal_entry (st : State) (n : String) (p : Nat)
    (hf : (mkcl_find_symbol_nolock st n p).2 = .internal) :
    p ≠ st.keyword_package ∧ mkcl_gethash_safe n (st.pack p).external = none ∧
      mkcl_gethash_safe n (st.pack p).internal = some (mkcl_find_symbol_nolock st n p).1 := by
  unfold mkcl_find_symbol_nolock at hf ⊢
  cases he : mkcl_gethash_safe n (st.pack p).external with
  | some s => simp [he] at hf
  | none =>
    rw [he] at hf
    by_cases hk : p = st.keyword_package
    · simp [hk] at hf
    · cases hi : mkcl_gethash_safe n (st.pack p).internal with
      | some s => simp [hk]
      | none =>
        cases hu : find_in_uses st n (st.pack p).uses with
        | some s => simp [hk, hi, hu] at hf
        | none => simp [hk, hi, hu] at hf

theorem flag_cases (f : InternFlag) :
    (f = .internal ∨ f = .external) ∨ (f = .zero ∨ f = .inherited) := by
  cases f <;> simp

/-- Counterexample to C18 as stated.  In `present_homeless_state` the symbol `A` (2) is
internal in the open package `FOO` (2) and homeless; after `mkcl_shadowing_import` it is a
shadowing symbol of `FOO` and still homeless.  In `boot_state` the symbol `CAR` (1) is
shadowing-imported into the open keyword package (1): it lands in the internal table,
and `mkcl_find_symbol_nolock` does not find it. -/
theorem shadowing_import_counterexample :
    (present_homeless_state.pack 2).closed = false ∧
    mkcl_find_symbol_nolock present_homeless_state
        (mkcl_symbol_name present_homeless_state 2) 2 = (2, .internal) ∧
    (present_homeless_state.symbol 2).hpack = none ∧
    ((mkcl_shadowing_import default_handler present_homeless_state 2
        (.package 2)).state.pack 2).shadowings = [2] ∧
    ((mkcl_shadowing_import default_handler present_homeless_state 2
        (.package 2)).state.symbol 2).hpack = none ∧
    (boot_state.pack 1).closed = false ∧
    (mkcl_shadowing_import default_handler boot_state 1 (.package 1)).exit = .ret () ∧
    mkcl_gethash_safe "CAR"
        ((mkcl_shadowing_import default_handler boot_state 1 (.package 1)).state.pack
          1).internal = some 1 ∧
    mkcl_find_symbol_nolock
        (mkcl_shadowing_import default_handler boot_state 1 (.package 1)).state "CAR" 1
      = (mk_cl_Cnil, .zero) := by
  decide!

/-- C18, amended: in an open package `P` other than the keyword package,
`mkcl_shadowing_import` returns without signalling; afterwards the name of `s` resolves
in `P` to `s` as a local symbol (external if `s` was external in `P`, internal
otherwise) and `s` is one of `P.shadowings`; the home of `s` is unchanged if `s` was
already local in `P`, and otherwise becomes `P` if `s` was homeless; a different local
symbol `x` of that name is afterwards in neither table of `P` under that name nor in
`P.shadowings`, and homeless if its home was `P`; no other package changes. -/
theorem shadowing_import_result (h : Handler) (st : State) (P s : Nat)
    (hopen : (st.pack P).closed = false) (hK : P ≠ st.keyword_package) :
    (mkcl_shadowing_import h st s (.package P)).exit = .ret () ∧
    (mkcl_shadowing_import h st s (.package P)).signals = [] ∧
    mkcl_find_symbol_nolock (mkcl_shadowing_import h st s (.package P)).state
        (mkcl_symbol_name (mkcl_shadowing_import h st s (.package P)).state s) P
      = (s, if mkcl_find_symbol_nolock st (mkcl_symbol_name st s) P = (s, .external)
          then .external else .internal) ∧
    s ∈ ((mkcl_shadowing_import h st s (.package P)).state.pack P).shadowings ∧
    ((mkcl_shadowing_import h st s (.package P)).state.symbol s).hpack
      = (if ((mkcl_find_symbol_nolock st (mkcl_symbol_name st s) P).2 = .internal
            ∨ (mkcl_find_symbol_nolock st (mkcl_symbol_name st s) P).2 = .external)
            ∧ (mkcl_find_symbol_nolock st (mkcl_symbol_name st s) P).1 = s
          then (st.symbol s).hpack
          else if (st.symbol s).hpack = none then some P else (st.symbol s).hpack) ∧
    (((mkcl_find_symbol_nolock st (mkcl_symbol_name st s) P).2 = .internal
        ∨ (mkcl_find_symbol_nolock st (mkcl_symbol_name st s) P).2 = .external) →
      (mkcl_find_symbol_nolock st (mkcl_symbol_name st s) P).1 ≠ s →
      mkcl_gethash_safe (mkcl_symbol_name st s)
          ((mkcl_shadowing_import h st s (.package P)).state.pack P).external
        ≠ some (mkcl_find_symbol_nolock st (mkcl_symbol_name st s) P).1 ∧
      mkcl_gethash_safe (mkcl_symbol_name st s)
          ((mkcl_shadowing_import h st s (.package P)).state.pack P).internal
        ≠ some (mkcl_find_symbol_nolock st (mkcl_symbol_name st s) P).1 ∧
      (mkcl_find_symbol_nolock st (mkcl_symbol_name st s) P).1
        ∉ ((mkcl_shadowing_import h st s (.package P)).state.pack P).shadowings ∧
      ((mkcl_shadowing_import h st s (.package P)).state.symbol
          (mkcl_find_symbol_nolock st (mkcl_symbol_name st s) P).1).hpack
        = (if (st.symbol (mkcl_find_symbol_nolock st (mkcl_symbol_name st s) P).1).hpack
              = some P then none
            else (st.symbol (mkcl_find_symbol_nolock st (mkcl_symbol_name st s) P).1).hpack)) ∧
    (∀ Q, Q ≠ P → (mkcl_shadowing_import h st s (.package P)).state.pack Q = st.pack Q) := by
  have hkw : (mkcl_shadowing_import h st s (.package P)).state.keyword_package
      = st.keyword_package :=
    (symbol_call_same_core h 0 st (.shadowing_import s (.package P)) rfl).1
  have hK' : P ≠ (mkcl_shadowing_import h st s (.package P)).state.keyword_package := by
    rw [hkw]; exact hK
  rcases flag_cases (mkcl_find_symbol_nolock st (mkcl_symbol_name st s) P).2 with hf | hf
  · by_cases hx : (mkcl_find_symbol_nolock st (mkcl_symbol_name st s) P).1 = s
    · -- `s` is already local
      have hfind : mkcl_find_symbol_nolock st (mkcl_symbol_name st s) P
          = (s, (mkcl_find_symbol_nolock st (mkcl_symbol_name st s) P).2) :=
        Prod.ext hx rfl
      rw [shadowing_import_present h st s P hopen hf hx]
      have hpk : ∀ Q, ((if s ∈ (st.pack P).shadowings then st
          else st.set_pack P
            { st.pack P with shadowings := s :: (st.pack P).shadowings }).pack Q).external
            = (st.pack Q).external
          ∧ ((if s ∈ (st.pack P).shadowings then st
          else st.set_pack P
            { st.pack P with shadowings := s :: (st.pack P).shadowings }).pack Q).internal
            = (st.pack Q).internal
          ∧ ((if s ∈ (st.pack P).shadowings then st
          else st.set_pack P
            { st.pack P with shadowings := s :: (st.pack P).shadowings }).pack Q).uses
            = (st.pack Q).uses := by
        intro Q
        by_cases hm : s ∈ (st.pack P).shadowings
        · simp [hm]
        · by_cases hQ : Q = P
          · subst hQ; simp [hm]
          · simp [hm, hQ]
      have hsym : (if s ∈ (st.pack P).shadowings then st
          else st.set_pack P
            { st.pack P with shadowings := s :: (st.pack P).shadowings }).symbol
            = st.symbol := by
        by_cases hm : s ∈ (st.pack P).shadowings <;> simp [hm]
      have hkw2 : (if s ∈ (st.pack P).shadowings then st
          else st.set_pack P
            { st.pack P with shadowings := s :: (st.pack P).shadowings }).keyword_package
            = st.keyword_package := by
        by_cases hm : s ∈ (st.pack P).shadowings <;> simp [hm]
      refine ⟨rfl, rfl, ?_, ?_, ?_, ?_, ?_⟩
      · have hsame : mkcl_find_symbol_nolock
            (if s ∈ (st.pack P).shadowings then st
              else st.set_pack P
                { st.pack P with shadowings := s :: (st.pack P).shadowings })
            (mkcl_symbol_name st s) P
            = mkcl_find_symbol_nolock st (mkcl_symbol_name st s) P := by
          unfold mkcl_find_symbol_nolock
          rw [(hpk P).1, (hpk P).2.1, (hpk P).2.2, hkw2]
          have := find_in_uses_congr st
            (if s ∈ (st.pack P).shadowings then st
              else st.set_pack P
                { st.pack P with shadowings := s :: (st.pack P).shadowings })
            (mkcl_symbol_name st s) (st.pack P).uses (fun U _ => (hpk U).1)
          rw [this]
        have hname : mkcl_symbol_name
            (if s ∈ (st.pack P).shadowings then st
              else st.set_pack P
                { st.pack P with shadowings := s :: (st.pack P).shadowings }) s
            = mkcl_symbol_name st s := by
          simp only [mkcl_symbol_name, hsym]
        rw [hname, hsame]
        rcases hf with e | e
        · have e2 : mkcl_find_symbol_nolock st (mkcl_symbol_name st s) P = (s, .internal) :=
            Prod.ext hx e
          rw [e2]; simp
        · have e2 : mkcl_find_symbol_nolock st (mkcl_symbol_name st s) P = (s, .external) :=
            Prod.ext hx e
          rw [e2]; simp
      · by_cases hm : s ∈ (st.pack P).shadowings
        · simp [hm]
        · simp [hm]
      · simp only [hsym]
        rw [if_pos ⟨hf, hx⟩]
      · intro _ hne
        exact absurd hx hne
      · intro Q hQ
        by_cases hm : s ∈ (st.pack P).shadowings
        · simp [hm]
        · simp [hm, hQ]
    · -- another local symbol is evicted
      obtain ⟨h1, h2, h3, h4, h5⟩ := shadowing_import_evicts h st s P hopen hf hx
      have hname : mkcl_symbol_name (mkcl_shadowing_import h st s (.package P)).state s
          = mkcl_symbol_name st s := by
        simp [mkcl_symbol_name, h5]
      have hnotext : mkcl_find_symbol_nolock st (mkcl_symbol_name st s) P ≠ (s, .external) := by
        intro e
        apply hx
        rw [e]
      have hext : mkcl_gethash_safe (mkcl_symbol_name st s)
          ((mkcl_shadowing_import h st s (.package P)).state.pack P).external = none := by
        rw [h3]
        rcases hf with e | e
        · simp only [e, if_true]
          exact (find_symbol_internal_entry st _ P e).2.1
        · simp [e, gethash_remhash]
      have hint : mkcl_gethash_safe (mkcl_symbol_name st s)
          ((mkcl_shadowing_import h st s (.package P)).state.pack P).internal = some s := by
        rw [h3]
        simp [gethash_sethash]
      refine ⟨h1, h2, ?_, ?_, ?_, ?_, h4⟩
      · rw [hname, if_neg hnotext]
        exact find_symbol_of_internal _ _ P s hK' hext hint
      · rw [h3]; simp
      · rw [h5 s]
        have : ¬ (((mkcl_find_symbol_nolock st (mkcl_symbol_name st s) P).2 = .internal
            ∨ (mkcl_find_symbol_nolock st (mkcl_symbol_name st s) P).2 = .external)
            ∧ (mkcl_find_symbol_nolock st (mkcl_symbol_name st s) P).1 = s) :=
          fun c => hx c.2
        simp [this]
      · intro _ _
        refine ⟨?_, ?_, ?_, ?_⟩
        · rw [hext]; simp
        · rw [hint]
          intro e
          apply hx
          simp only [Option.some.injEq] at e
          exact e.symm
        · rw [h3]
          simp only [List.mem_cons, not_or]
          refine ⟨hx, ?_⟩
          split
          · simp [mem_remove_eq]
          · assumption
        · rw [h5]
          simp [hx]
  · -- the name is not local
    rw [shadowing_import_absent h st s P hopen hf] at hK' ⊢
    have hnl : ¬ ((mkcl_find_symbol_nolock st (mkcl_symbol_name st s) P).2 = .internal
        ∨ (mkcl_find_symbol_nolock st (mkcl_symbol_name st s) P).2 = .external) := by
      rcases hf with e | e <;> simp [e]
    have hnotext : mkcl_find_symbol_nolock st (mkcl_symbol_name st s) P ≠ (s, .external) := by
      intro e
      apply hnl
      right
      rw [e]
    have hext0 : mkcl_gethash_safe (mkcl_symbol_name st s) (st.pack P).external = none :=
      find_symbol_not_external st _ P (fun e => hnl (Or.inr e))
    refine ⟨rfl, rfl, ?_, ?_, ?_, ?_, ?_⟩
    · rw [if_neg hnotext]
      have hname : mkcl_symbol_name
          (set_symbol_home_if_homeless
            (st.set_pack P
              { st.pack P with
                shadowings := s :: (st.pack P).shadowings
                internal := mkcl_sethash (mkcl_symbol_name st s) (st.pack P).internal s })
            s P) s = mkcl_symbol_name st s := by
        simp [mkcl_symbol_name, home_if_homeless_symbol]
      rw [hname]
      apply find_symbol_of_internal _ _ P s hK'
      · simp [set_symbol_home_if_homeless_pack, hext0]
      · simp [set_symbol_home_if_homeless_pack, gethash_sethash]
    · simp [set_symbol_home_if_homeless_pack]
    · simp only [home_if_homeless_symbol, if_true, set_pack_symbol]
      have : ¬ (((mkcl_find_symbol_nolock st (mkcl_symbol_name st s) P).2 = .internal
          ∨ (mkcl_find_symbol_nolock st (mkcl_symbol_name st s) P).2 = .external)
          ∧ (mkcl_find_symbol_nolock st (mkcl_symbol_name st s) P).1 = s) :=
        fun c => hnl c.1
      rw [if_neg this]
    · intro hl
      exact absurd hl hnl
    · intro Q hQ
      simp [set_symbol_home_if_homeless_pack, hQ]

/-- Witness for `shadowing_import_result`: shadowing-importing `CAR` (1) into the open
package `FOO` (2) that inherits it. -/
theorem shadowing_import_result_witness :
    (foo_state.pack 2).closed = false ∧ 2 ≠ foo_state.keyword_package ∧
    (mkcl_shadowing_import default_handler foo_state 1 (.package 2)).exit = .ret () ∧
    1 ∈ ((mkcl_shadowing_import default_handler foo_state 1 (.package 2)).state.pack
      2).shadowings :=
  ⟨by decide!, by decide!,
    (shadowing_import_result default_handler foo_state 2 1 (by decide!) (by decide!)).1,
    (shadowing_import_result default_handler foo_state 2 1 (by decide!) (by decide!)).2.2.2.1⟩

/-! ## Shadow -/

/-- C19, failing input: `(shadow "A" "KEYWORD")` in `boot_state`.  The keyword package
(1) is open and has no symbol named `A`; the call returns, having created symbol 2
named `A` with home 1, put it into the internal table of the keyword package and into
its shadowing list; `mkcl_find_symbol_nolock` afterwards finds no symbol named `A`
there. -/
theorem shadow_keyword_not_found :
    (boot_state.pack 1).closed = false ∧
    boot_state.keyword_package = 1 ∧
    mkcl_find_symbol_nolock boot_state "A" 1 = (mk_cl_Cnil, .zero) ∧
    (mkcl_shadow default_handler boot_state "A" (.package 1)).exit = .ret () ∧
    (mkcl_shadow default_handler boot_state "A" (.package 1)).signals = [] ∧
    (mkcl_shadow default_handler boot_state "A" (.package 1)).state.symbol_count
      = boot_state.symbol_count + 1 ∧
    ((mkcl_shadow default_handler boot_state "A" (.package 1)).state.symbol 2).name = "A" ∧
    ((mkcl_shadow default_handler boot_state "A" (.package 1)).state.symbol 2).hpack
      = some 1 ∧
    ((mkcl_shadow default_handler boot_state "A" (.package 1)).state.pack 1).internal
      = [("A", 2)] ∧
    ((mkcl_shadow default_handler boot_state "A" (.package 1)).state.pack 1).shadowings
      = [2] ∧
    mkcl_find_symbol_nolock
        (mkcl_shadow default_handler boot_state "A" (.package 1)).state "A" 1
      = (mk_cl_Cnil, .zero) := by
  decide!

/-- Shadowing off the keyword package.  In an open package `P` other than the keyword
package `mkcl_shadow` returns without signalling and changes no other
package; when `n` resolves to a local symbol `x` of `P`, no symbol is created, both
tables of `P` are as before and `x` is consed onto `P.shadowings`; otherwise the next
symbol reference is allocated with name `n` and home `P`, entered into `P.internal` and
consed onto `P.shadowings`, and `n` afterwards resolves in `P` to it as an internal
symbol. -/
theorem shadow_off_keyword (h : Handler) (st : State) (P : Nat) (n : String)
    (hopen : (st.pack P).closed = false) (hK : P ≠ st.keyword_package) :
    (mkcl_shadow h st n (.package P)).exit = .ret () ∧
    (mkcl_shadow h st n (.package P)).signals = [] ∧
    (∀ Q, Q ≠ P → (mkcl_shadow h st n (.package P)).state.pack Q = st.pack Q) ∧
    (((mkcl_find_symbol_nolock st n P).2 = .internal
        ∨ (mkcl_find_symbol_nolock st n P).2 = .external) →
      (mkcl_shadow h st n (.package P)).state
        = st.set_pack P
            { st.pack P with
              shadowings := (mkcl_find_symbol_nolock st n P).1 :: (st.pack P).shadowings }) ∧
    (((mkcl_find_symbol_nolock st n P).2 = .zero
        ∨ (mkcl_find_symbol_nolock st n P).2 = .inherited) →
      (mkcl_shadow h st n (.package P)).state.symbol_count = st.symbol_count + 1 ∧
      (mkcl_shadow h st n (.package P)).state.symbol st.symbol_count
        = { name := n, hpack := some P, constant := false, value := none } ∧
      (∀ t, t ≠ st.symbol_count →
        (mkcl_shadow h st n (.package P)).state.symbol t = st.symbol t) ∧
      (mkcl_shadow h st n (.package P)).state.pack P
        = { st.pack P with
            internal := mkcl_sethash n (st.pack P).internal st.symbol_count
            shadowings := st.symbol_count :: (st.pack P).shadowings } ∧
      mkcl_find_symbol_nolock (mkcl_shadow h st n (.package P)).state n P
        = (st.symbol_count, .internal)) := by
  have hc := closed_eq_false st P hopen
  have hkw : (mkcl_shadow h st n (.package P)).state.keyword_package
      = st.keyword_package :=
    (symbol_call_same_core h 0 st (.shadow n (.package P)) rfl).1
  rcases flag_cases (mkcl_find_symbol_nolock st n P).2 with hf | hf
  · have hl : ¬ ((mkcl_find_symbol_nolock st n P).2 ≠ .internal
        ∧ (mkcl_find_symbol_nolock st n P).2 ≠ .external) := by
      rcases hf with e | e <;> simp [e]
    have hnl : ¬ ((mkcl_find_symbol_nolock st n P).2 = .zero
        ∨ (mkcl_find_symbol_nolock st n P).2 = .inherited) := by
      rcases hf with e | e <;> simp [e]
    have hrun : mkcl_shadow h st n (.package P)
        = ⟨st.set_pack P
            { st.pack P with
              shadowings := (mkcl_find_symbol_nolock st n P).1 :: (st.pack P).shadowings },
          [], .ret ()⟩ := by
      unfold mkcl_shadow
      simp only [mk_si_coerce_to_package, mkcl_find_package_nolock, hc, false_and, if_false, hl]
    rw [hrun]
    refine ⟨rfl, rfl, ?_, fun _ => rfl, fun c => absurd c hnl⟩
    intro Q hQ
    simp [hQ]
  · have hl : (mkcl_find_symbol_nolock st n P).2 ≠ .internal
        ∧ (mkcl_find_symbol_nolock st n P).2 ≠ .external := by
      rcases hf with e | e <;> simp [e]
    have hnl : ¬ ((mkcl_find_symbol_nolock st n P).2 = .internal
        ∨ (mkcl_find_symbol_nolock st n P).2 = .external) := fun c =>
      c.elim hl.1 hl.2
    have hext0 : mkcl_gethash_safe n (st.pack P).external = none :=
      find_symbol_not_external st _ P hl.2
    have hrun : mkcl_shadow h st n (.package P)
        = ⟨(((mk_cl_make_symbol st n).1.set_pack P
              { (mk_cl_make_symbol st n).1.pack P with
                internal := mkcl_sethash n (st.pack P).internal st.symbol_count }).set_symbol
              st.symbol_count
              { name := n, hpack := some P, constant := false, value := none }).set_pack P
            { st.pack P with
              internal := mkcl_sethash n (st.pack P).internal st.symbol_count
              shadowings := st.symbol_count :: (st.pack P).shadowings },
          [], .ret ()⟩ := by
      unfold mkcl_shadow
      simp only [mk_si_coerce_to_package, mkcl_find_package_nolock, hc, false_and, if_false]
      rw [if_pos hl]
      simp [mk_cl_make_symbol]
    rw [hrun] at hkw ⊢
    refine ⟨rfl, rfl, ?_, fun c => absurd c hnl, fun _ => ⟨?_, ?_, ?_, ?_, ?_⟩⟩
    · intro Q hQ
      simp [hQ, mk_cl_make_symbol]
    · simp [mk_cl_make_symbol]
    · simp [mk_cl_make_symbol]
    · intro t ht
      simp [mk_cl_make_symbol, ht]
    · simp
    · apply find_symbol_of_internal
      · rw [hkw]; exact hK
      · simpa using hext0
      · simp [gethash_sethash]

/-- C20, failing input: `(shadow "A" "FOO")` twice in `foo_state`.  The first call
creates symbol 2 and leaves `FOO.shadowings = [2]`; the second call finds it as an
internal symbol and conses it again, so the two states differ and
`mk_cl_package_shadowing_symbols` returns the symbol twice. -/
theorem shadow_twice_duplicates :
    (foo_state.pack 2).closed = false ∧
    (mkcl_shadow default_handler foo_state "A" (.package 2)).exit = .ret () ∧
    ((mkcl_shadow default_handler foo_state "A" (.package 2)).state.pack 2).shadowings
      = [2] ∧
    (mkcl_shadow default_handler
        (mkcl_shadow default_handler foo_state "A" (.package 2)).state "A"
        (.package 2)).exit = .ret () ∧
    ((mkcl_shadow default_handler
        (mkcl_shadow default_handler foo_state "A" (.package 2)).state "A"
        (.package 2)).state.pack 2).shadowings = [2, 2] ∧
    (mk_cl_package_shadowing_symbols
        (mkcl_shadow default_handler
          (mkcl_shadow default_handler foo_state "A" (.package 2)).state "A"
          (.package 2)).state (.package 2)).exit = .ret [2, 2] ∧
    ¬ [2, 2].Nodup := by
  decide!

/-! ## Closed packages -/

theorem closed_eq_true (st : State) (P : Nat) (hclosed : (st.pack P).closed = true) :
    ((st.pack P).closed = true) = True := by
  simp [hclosed]

theorem set_pack_closed (st : State) (p : Nat) (v : Package) (Q : Nat)
    (hv : v.closed = (st.pack p).closed) :
    ((st.set_pack p v).pack Q).closed = (st.pack Q).closed := by
  by_cases hq : Q = p
  · subst hq; simp [hv]
  · simp [hq]

theorem andThen_quiet {α β : Type} (c : CError) (I : State → Prop) (o : Outcome α)
    (k : State → α → Outcome β) (ho : I o.state ∧ c ∉ o.signals)
    (hk : ∀ st a, I st → I (k st a).state ∧ c ∉ (k st a).signals) :
    I (o.andThen k).state ∧ c ∉ (o.andThen k).signals := by
  unfold Outcome.andThen
  split
  · refine ⟨(hk _ _ ho.1).1, ?_⟩
    simp only [List.mem_append, not_or]
    exact ⟨ho.2, (hk _ _ ho.1).2⟩
  · exact ho
  · exact ho
  · exact ho
  · exact ho

theorem unuse_package_quiet (h : Handler) (st : State) (dx dp : Designator) (P : Nat)
    (ho : (st.pack P).closed = false) :
    ((mkcl_unuse_package h st dx dp).state.pack P).closed = false
      ∧ CError.closed_package P ∉ (mkcl_unuse_package h st dx dp).signals := by
  unfold mkcl_unuse_package
  split
  · exact ⟨ho, by simp⟩
  · rename_i x _
    split
    · exact ⟨ho, by simp⟩
    · rename_i p _
      have hsig : CError.closed_package P ∉
          (if (st.pack p).closed then [CError.closed_package p] else []) := by
        by_cases hp : p = P
        · subst hp; simp [ho]
        · split
          · simp; exact fun e => hp e.symm
          · simp
      dsimp only
      split
      · exact ⟨ho, hsig⟩
      · split
        · exact ⟨ho, hsig⟩
        · refine ⟨?_, hsig⟩
          refine Eq.trans (set_pack_closed _ _ _ P ?_)
            (Eq.trans (set_pack_closed _ _ _ P ?_) ho)
          · rfl
          · rfl

theorem delete_unuse_loop_quiet (h : Handler) (p P : Nat) (l : List Nat) :
    ∀ st : State, (st.pack P).closed = false →
      ((delete_unuse_loop h p st l).state.pack P).closed = false
        ∧ CError.closed_package P ∉ (delete_unuse_loop h p st l).signals := by
  induction l with
  | nil => intro st ho; exact ⟨ho, by simp [delete_unuse_loop]⟩
  | cons y l ih =>
    intro st ho
    unfold delete_unuse_loop
    exact andThen_quiet _ (fun s => (s.pack P).closed = false) _ _
      (unuse_package_quiet h st _ _ P ho) (fun st1 _ h1 => ih st1 h1)

theorem delete_unused_loop_quiet (h : Handler) (p P : Nat) (l : List Nat) :
    ∀ st : State, (st.pack P).closed = false →
      ((delete_unused_loop h p st l).state.pack P).closed = false
        ∧ CError.closed_package P ∉ (delete_unused_loop h p st l).signals := by
  induction l with
  | nil => intro st ho; exact ⟨ho, by simp [delete_unused_loop]⟩
  | cons y l ih =>
    intro st ho
    unfold delete_unused_loop
    exact andThen_quiet _ (fun s => (s.pack P).closed = false) _ _
      (unuse_package_quiet h st _ _ P ho) (fun st1 _ h1 => ih st1 h1)

theorem delete_package_quiet (h : Handler) (st : State) (P : Nat)
    (ho : (st.pack P).closed = false) :
    CError.closed_package P ∉ (mk_cl_delete_package h st (.package P)).signals := by
  unfold mk_cl_delete_package
  simp only [mkcl_find_package_nolock]
  refine (andThen_quiet _ (fun s => (s.pack P).closed = false) _ _ ?_ ?_).2
  · rw [if_neg (by simp [ho])]
    exact ⟨ho, by simp⟩
  · intro st1 _ h1
    split
    · exact ⟨h1, by simp⟩
    · split
      · exact ⟨h1, by simp⟩
      · refine andThen_quiet _ (fun s => (s.pack P).closed = false) _ _
          (delete_unuse_loop_quiet h _ P _ st1 h1) ?_
        intro st2 _ h2
        refine andThen_quiet _ (fun s => (s.pack P).closed = false) _ _ ?_ ?_
        · split
          · refine andThen_quiet _ (fun s => (s.pack P).closed = false) _ _ ?_
              (fun st3 _ h3 => delete_unused_loop_quiet h _ P _ st3 h3)
            exact ⟨h2, by simp [cerror]⟩
          · exact ⟨h2, by simp⟩
        · intro st4 _ h4
          refine ⟨?_, by simp⟩
          simp [State.set_pack]
          exact h4

theorem intern_loop_quiet (h : Handler) (st : State) (n : String) (P : Nat)
    (ho : (st.pack P).closed = false) :
    ∀ fuel log, (mkcl_intern_loop h st n P fuel log).signals = log := by
  intro fuel
  induction fuel with
  | zero => intro log; rfl
  | succ fuel ih =>
    intro log
    unfold mkcl_intern_loop
    simp only [ho, Bool.false_eq_true, if_false]
    split
    · rfl
    · split
      · rfl
      · split <;> rfl

theorem intern_loop_closed_step (h : Handler) (st : State) (n : String) (P : Nat)
    (hclosed : (st.pack P).closed = true)
    (hz : (mkcl_find_symbol_nolock st n P).2 = .zero) (fuel : Nat) (log : List CError) :
    mkcl_intern_loop h st n P (fuel + 1) log
      = if h (.closed_package P) then
          mkcl_intern_loop h st n P fuel (log ++ [.closed_package P])
        else ⟨st, log ++ [.closed_package P], .declined (.closed_package P)⟩ := by
  rw [mkcl_intern_loop]
  obtain ⟨he, hk | ⟨hi, hu⟩⟩ := (find_symbol_flag_zero st n P).1 hz
  · simp [he, hk.symm, hclosed]
  · simp [he, hi, hu, hclosed]

theorem intern_loop_closed_tail (h : Handler) (st : State) (n : String) (P : Nat)
    (hclosed : (st.pack P).closed = true)
    (hz : (mkcl_find_symbol_nolock st n P).2 = .zero) :
    ∀ fuel log, (mkcl_intern_loop h st n P fuel log).state = st
      ∧ ∃ more, (mkcl_intern_loop h st n P fuel log).signals = log ++ more := by
  intro fuel
  induction fuel with
  | zero => intro log; exact ⟨rfl, [], by simp [mkcl_intern_loop]⟩
  | succ fuel ih =>
    intro log
    rw [intern_loop_closed_step h st n P hclosed hz]
    by_cases hh : h (.closed_package P) = true
    · rw [if_pos hh]
      obtain ⟨h1, more, h2⟩ := ih (log ++ [.closed_package P])
      exact ⟨h1, CError.closed_package P :: more, by rw [h2]; simp⟩
    · rw [if_neg hh]
      exact ⟨rfl, [CError.closed_package P], rfl⟩

theorem intern_loop_closed (h : Handler) (st : State) (n : String) (P : Nat)
    (hclosed : (st.pack P).closed = true)
    (hz : (mkcl_find_symbol_nolock st n P).2 = .zero) (fuel : Nat) :
    raises_closed_first h st P (mkcl_intern_loop h st n P (fuel + 1) []) := by
  unfold raises_closed_first
  rw [intern_loop_closed_step h st n P hclosed hz]
  by_cases hh : h (.closed_package P) = true
  · rw [if_pos hh]
    obtain ⟨_, more, h2⟩ := intern_loop_closed_tail h st n P hclosed hz fuel
      ([] ++ [.closed_package P])
    refine ⟨by rw [h2]; rfl, fun hd => ?_⟩
    rw [hh] at hd
    exact absurd hd (by simp)
  · rw [if_neg hh]
    exact ⟨rfl, fun _ => ⟨rfl, rfl⟩⟩

theorem import2_closed (h : Handler) (st : State) (P s : Nat)
    (hclosed : (st.pack P).closed = true) :
    raises_closed_first h st P (mkcl_import2 h st s (.package P)) := by
  unfold raises_closed_first mkcl_import2
  simp only [mk_si_coerce_to_package, mkcl_find_package_nolock, hclosed, true_and, if_true]
  refine ⟨?_, fun hd => ?_⟩
  · split_ifs <;> rfl
  · rw [if_pos hd]; exact ⟨rfl, rfl⟩

theorem export2_closed (h : Handler) (st : State) (P s : Nat)
    (hclosed : (st.pack P).closed = true) :
    raises_closed_first h st P (mkcl_export2 h st s (.package P)) := by
  unfold raises_closed_first mkcl_export2
  simp only [mk_si_coerce_to_package, mkcl_find_package_nolock, hclosed, true_and, if_true]
  refine ⟨?_, fun hd => ?_⟩
  · split_ifs
    any_goals rfl
    all_goals (split <;> rfl)
  · rw [if_pos hd]; exact ⟨rfl, rfl⟩

theorem unexport2_closed (h : Handler) (st : State) (P s : Nat)
    (hclosed : (st.pack P).closed = true) (hK : P ≠ st.keyword_package) :
    raises_closed_first h st P (mkcl_unexport2 h st s (.package P)) := by
  unfold raises_closed_first mkcl_unexport2
  simp only [mk_si_coerce_to_package, mkcl_find_package_nolock, hclosed, true_and, if_true,
    if_neg hK]
  refine ⟨?_, fun hd => ?_⟩
  · split_ifs <;> rfl
  · rw [if_pos hd]; exact ⟨rfl, rfl⟩

theorem shadow_closed (h : Handler) (st : State) (P : Nat) (n : String)
    (hclosed : (st.pack P).closed = true) :
    raises_closed_first h st P (mkcl_shadow h st n (.package P)) := by
  unfold raises_closed_first mkcl_shadow
  simp only [mk_si_coerce_to_package, mkcl_find_package_nolock, hclosed, true_and, if_true]
  refine ⟨?_, fun hd => ?_⟩
  · split_ifs <;> rfl
  · rw [if_pos hd]; exact ⟨rfl, rfl⟩

theorem use_package_closed (h : Handler) (st : State) (U P : Nat)
    (hclosed : (st.pack P).closed = true) (hK : U ≠ st.keyword_package) :
    raises_closed_first h st P (mkcl_use_package h st (.package U) (.package P)) := by
  unfold raises_closed_first mkcl_use_package
  simp only [mk_si_coerce_to_package, mkcl_find_package_nolock, hclosed, true_and, if_true,
    if_neg hK]
  refine ⟨?_, fun hd => ?_⟩
  · split_ifs
    any_goals rfl
    all_goals (split <;> rfl)
  · rw [if_pos hd]; exact ⟨rfl, rfl⟩

theorem unuse_package_closed (h : Handler) (st : State) (U P : Nat)
    (hclosed : (st.pack P).closed = true) :
    raises_closed_first h st P (mkcl_unuse_package h st (.package U) (.package P)) := by
  unfold raises_closed_first mkcl_unuse_package
  simp only [mk_si_coerce_to_package, mkcl_find_package_nolock, hclosed, true_and, if_true]
  refine ⟨?_, fun hd => ?_⟩
  · split_ifs <;> rfl
  · rw [if_pos hd]; exact ⟨rfl, rfl⟩

theorem rename_package_closed (h : Handler) (st : State) (P : Nat) (name : String)
    (nicknames : List String) (hclosed : (st.pack P).closed = true) :
    raises_closed_first h st P (mkcl_rename_package h st (.package P) name nicknames) := by
  unfold raises_closed_first mkcl_rename_package
  simp only [mk_si_coerce_to_package, mkcl_find_package_nolock, hclosed, true_and, if_true]
  refine ⟨?_, fun hd => ?_⟩
  · split_ifs
    any_goals rfl
    all_goals (split <;> (try split_ifs) <;> rfl)
  · rw [if_pos hd]; exact ⟨rfl, rfl⟩

theorem delete_package_closed (h : Handler) (st : State) (P : Nat)
    (hclosed : (st.pack P).closed = true) :
    raises_closed_first h st P (mk_cl_delete_package h st (.package P)) := by
  unfold raises_closed_first mk_cl_delete_package
  simp only [mkcl_find_package_nolock, hclosed, if_true]
  refine ⟨?_, fun hd => ?_⟩
  · unfold Outcome.andThen cerror
    dsimp only
    split <;> rfl
  · unfold Outcome.andThen cerror
    simp only [hd]
    exact ⟨rfl, rfl⟩

theorem import2_quiet (h : Handler) (st : State) (P s : Nat)
    (hopen : (st.pack P).closed = false) :
    CError.closed_package P ∉ (mkcl_import2 h st s (.package P)).signals := by
  unfold mkcl_import2
  simp only [mk_si_coerce_to_package, mkcl_find_package_nolock, closed_eq_false st P hopen,
    false_and, if_false, List.nil_append]
  split_ifs <;> simp

theorem export2_quiet (h : Handler) (st : State) (P s : Nat)
    (hopen : (st.pack P).closed = false) :
    CError.closed_package P ∉ (mkcl_export2 h st s (.package P)).signals := by
  unfold mkcl_export2
  simp only [mk_si_coerce_to_package, mkcl_find_package_nolock, closed_eq_false st P hopen,
    false_and, if_false, List.nil_append]
  split_ifs
  any_goals simp
  all_goals (split <;> simp)

theorem unexport2_quiet (h : Handler) (st : State) (P s : Nat)
    (hopen : (st.pack P).closed = false) :
    CError.closed_package P ∉ (mkcl_unexport2 h st s (.package P)).signals := by
  unfold mkcl_unexport2
  simp only [mk_si_coerce_to_package, mkcl_find_package_nolock, closed_eq_false st P hopen,
    false_and, if_false, List.nil_append]
  split_ifs <;> simp

theorem shadow_quiet (h : Handler) (st : State) (P : Nat) (n : String)
    (hopen : (st.pack P).closed = false) :
    CError.closed_package P ∉ (mkcl_shadow h st n (.package P)).signals := by
  unfold mkcl_shadow
  simp only [mk_si_coerce_to_package, mkcl_find_package_nolock, closed_eq_false st P hopen,
    false_and, if_false, List.nil_append]
  split_ifs <;> simp

theorem use_package_quiet (h : Handler) (st : State) (dx : Designator) (P : Nat)
    (hopen : (st.pack P).closed = false) :
    CError.closed_package P ∉ (mkcl_use_package h st dx (.package P)).signals := by
  unfold mkcl_use_package
  simp only [mk_si_coerce_to_package, mkcl_find_package_nolock, closed_eq_false st P hopen,
    false_and, if_false, List.nil_append]
  split
  · simp
  · split_ifs
    any_goals simp
    all_goals (split <;> simp)

theorem rename_package_quiet (h : Handler) (st : State) (P : Nat) (name : String)
    (nicknames : List String) (hopen : (st.pack P).closed = false) :
    CError.closed_package P ∉ (mkcl_rename_package h st (.package P) name nicknames).signals := by
  unfold mkcl_rename_package
  simp only [mk_si_coerce_to_package, mkcl_find_package_nolock, closed_eq_false st P hopen,
    false_and, if_false, List.nil_append]
  split
  · split_ifs <;> simp
  · simp

/-- Counterexample to C15 as stated.  In `closed_foo_state` the package `FOO` (2) is
closed: `(intern "BAR" "FOO")` finds the internal symbol `BAR` (2) and returns it, and
`(use-package "KEYWORD" "FOO")` fails with "Cannot use keyword package", neither
raising the closed-package error.  In `closed_keyword_state` the keyword package (1) is
closed: `unexport` fails with "Cannot unexport a symbol from the keyword package"
without raising the closed-package error. -/
theorem closed_immutability_counterexample :
    (closed_foo_state.pack 2).closed = true ∧
    (mkcl_intern default_handler 1 closed_foo_state "BAR" (.package 2)).signals = [] ∧
    (mkcl_intern default_handler 1 closed_foo_state "BAR" (.package 2)).exit
      = .ret (2, .internal) ∧
    (mkcl_use_package default_handler closed_foo_state (.package 1) (.package 2)).signals
      = [] ∧
    (mkcl_use_package default_handler closed_foo_state (.package 1) (.package 2)).exit
      = .fatal .use_keyword ∧
    (closed_keyword_state.pack 1).closed = true ∧
    closed_keyword_state.keyword_package = 1 ∧
    (mkcl_unexport2 default_handler closed_keyword_state 1 (.package 1)).signals = [] ∧
    (mkcl_unexport2 default_handler closed_keyword_state 1 (.package 1)).exit
      = .fatal .unexport_keyword := by
  decide!

/-- C15, amended: for a closed package `P`, each of import, export, shadow,
unuse-package, rename-package and delete-package on `P`, intern of a name that is not
accessible in `P`, unexport when `P` is not the keyword package, and use-package of a
package other than the keyword package, raises the closed-package error for `P` as its
first signal and before changing the state (`raises_closed_first`).  After
`mk_si_reopen_package` the flag is clear and none of the nine operations on `P` raises
that error, whatever its other arguments. -/
theorem closed_immutability (h : Handler) (st : State) (P : Nat)
    (hclosed : (st.pack P).closed = true) :
    (∀ fuel n, (mkcl_find_symbol_nolock st n P).2 = .zero →
      raises_closed_first h st P (mkcl_intern h (fuel + 1) st n (.package P))) ∧
    (∀ s, raises_closed_first h st P (mkcl_import2 h st s (.package P))) ∧
    (∀ s, raises_closed_first h st P (mkcl_export2 h st s (.package P))) ∧
    (∀ s, P ≠ st.keyword_package →
      raises_closed_first h st P (mkcl_unexport2 h st s (.package P))) ∧
    (∀ n, raises_closed_first h st P (mkcl_shadow h st n (.package P))) ∧
    (∀ U, U ≠ st.keyword_package →
      raises_closed_first h st P (mkcl_use_package h st (.package U) (.package P))) ∧
    (∀ U, raises_closed_first h st P (mkcl_unuse_package h st (.package U) (.package P))) ∧
    (∀ name nicknames,
      raises_closed_first h st P (mkcl_rename_package h st (.package P) name nicknames)) ∧
    raises_closed_first h st P (mk_cl_delete_package h st (.package P)) ∧
    (mk_si_reopen_package st (.package P)).exit = .ret P ∧
    ((mk_si_reopen_package st (.package P)).state.pack P).closed = false ∧
    (∀ fuel n, CError.closed_package P ∉
      (mkcl_intern h fuel (mk_si_reopen_package st (.package P)).state n
        (.package P)).signals) ∧
    (∀ s, CError.closed_package P ∉
      (mkcl_import2 h (mk_si_reopen_package st (.package P)).state s (.package P)).signals) ∧
    (∀ s, CError.closed_package P ∉
      (mkcl_export2 h (mk_si_reopen_package st (.package P)).state s (.package P)).signals) ∧
    (∀ s, CError.closed_package P ∉
      (mkcl_unexport2 h (mk_si_reopen_package st (.package P)).state s
        (.package P)).signals) ∧
    (∀ n, CError.closed_package P ∉
      (mkcl_shadow h (mk_si_reopen_package st (.package P)).state n (.package P)).signals) ∧
    (∀ dU, CError.closed_package P ∉
      (mkcl_use_package h (mk_si_reopen_package st (.package P)).state dU
        (.package P)).signals) ∧
    (∀ dU, CError.closed_package P ∉
      (mkcl_unuse_package h (mk_si_reopen_package st (.package P)).state dU
        (.package P)).signals) ∧
    (∀ name nicknames, CError.closed_package P ∉
      (mkcl_rename_package h (mk_si_reopen_package st (.package P)).state (.package P) name
        nicknames).signals) ∧
    CError.closed_package P ∉
      (mk_cl_delete_package h (mk_si_reopen_package st (.package P)).state
        (.package P)).signals := by
  have ho : ((mk_si_reopen_package st (.package P)).state.pack P).closed = false := by
    simp [mk_si_reopen_package, mk_si_coerce_to_package, mkcl_find_package_nolock]
  refine ⟨?_, fun s => import2_closed h st P s hclosed, fun s => export2_closed h st P s hclosed,
    fun s hK => unexport2_closed h st P s hclosed hK, fun n => shadow_closed h st P n hclosed,
    fun U hK => use_package_closed h st U P hclosed hK,
    fun U => unuse_package_closed h st U P hclosed,
    fun name nicknames => rename_package_closed h st P name nicknames hclosed,
    delete_package_closed h st P hclosed, rfl, ho, ?_, fun s => import2_quiet h _ P s ho,
    fun s => export2_quiet h _ P s ho, fun s => unexport2_quiet h _ P s ho,
    fun n => shadow_quiet h _ P n ho, fun dU => use_package_quiet h _ dU P ho,
    fun dU => (unuse_package_quiet h _ dU (.package P) P ho).2,
    fun name nicknames => rename_package_quiet h _ P name nicknames ho,
    delete_package_quiet h _ P ho⟩
  · intro fuel n hz
    exact intern_loop_closed h st n P hclosed hz fuel
  · intro fuel n
    have := intern_loop_quiet h (mk_si_reopen_package st (.package P)).state n P ho fuel []
    unfold mkcl_intern
    simp only [mk_si_coerce_to_package, mkcl_find_package_nolock]
    rw [this]
    simp

/-- Witness for `closed_immutability`: `FOO` (2) is closed in `closed_foo_state`; with
a handler that declines every error, importing `CAR` (1) raises the closed-package
error and leaves the state as it was. -/
theorem closed_immutability_witness :
    (closed_foo_state.pack 2).closed = true ∧
    raises_closed_first (fun _ => false) closed_foo_state 2
      (mkcl_import2 (fun _ => false) closed_foo_state 1 (.package 2)) :=
  ⟨by decide!,
    (closed_immutability (fun _ => false) closed_foo_state 2 (by decide!)).2.1 1⟩

/-! ## Unique names -/

/-- C11, failing input: `(rename-package "FOO" "FOO" '("LISP"))` in `foo_state`, whose
packages `KEYWORD`, `LISP` and `FOO` have distinct names, no nicknames, and whose
waiting list is empty.  The call returns `FOO` (2) without signalling, and `FOO` then
has the nickname `LISP`, the name of the live package 0. -/
theorem rename_package_nickname_collision :
    unique_names foo_state ∧
    foo_state.packages_to_be_created = [] ∧
    (mkcl_rename_package default_handler foo_state (.package 2) "FOO" ["LISP"]).exit
      = .ret 2 ∧
    (mkcl_rename_package default_handler foo_state (.package 2) "FOO" ["LISP"]).signals
      = [] ∧
    (mkcl_rename_package default_handler foo_state (.package 2) "FOO"
        ["LISP"]).state.packages = [2, 1, 0] ∧
    ((mkcl_rename_package default_handler foo_state (.package 2) "FOO"
        ["LISP"]).state.pack 2).nicknames = ["LISP"] ∧
    ((mkcl_rename_package default_handler foo_state (.package 2) "FOO"
        ["LISP"]).state.pack 0).name = some "LISP" ∧
    ¬ unique_names
      (mkcl_rename_package default_handler foo_state (.package 2) "FOO" ["LISP"]).state := by
  decide!

/-! ## Conflicts between used packages -/

theorem no_use_edges_of_same {st st' : State} (hs : same_edges st st')
    (he : no_use_edges st) : no_use_edges st' :=
  fun q => ((hs q).1).trans (he q)

theorem no_silent_conflict_of_no_edges (st : State) (he : no_use_edges st) :
    no_silent_conflict st := by
  intro P n
  right
  intro U hU
  rw [he P] at hU
  cases hU

theorem make_package_intern_no_edges (h : Handler) (st : State) (x : Nat)
    (nicknames : List String) (he : no_use_edges st) :
    no_use_edges (make_package_intern h st x nicknames []).state := by
  unfold make_package_intern
  split
  · exact he
  · simp only [use_list_loop]
    exact no_use_edges_of_same (same_edges_set_pack _ _ (same_edges_refl _) rfl rfl) he

theorem make_package_no_edges (h : Handler) (st : State) (name : String)
    (nicknames : List String) (es is : Int) (he : no_use_edges st) :
    no_use_edges (mkcl_make_sized_package h st name nicknames [] es is).state := by
  unfold mkcl_make_sized_package
  split
  · exact make_package_intern_no_edges h _ _ _ he
  · split
    · exact he
    · split
      · exact he
      · refine make_package_intern_no_edges h _ _ _ ?_
        intro q
        unfold _mkcl_alloc_sized_package
        by_cases hq : q = st.pack_count
        · subst hq; simp
        · simpa [Function.update, hq] using he q

theorem two_exporters_no_edges : no_use_edges two_exporters_state :=
  no_use_edges_of_same (export2_same_edges _ _ _ _)
    (no_use_edges_of_same (intern_same_edges _ _ _ _ _)
      (make_package_no_edges _ _ _ _ _ _
        (no_use_edges_of_same (export2_same_edges _ _ _ _)
          (no_use_edges_of_same (intern_same_edges _ _ _ _ _)
            (make_package_no_edges _ _ _ _ _ _ (fun q => (boot_state_edges q).1))))))

/-- C12, failing input: `(make-package "P" :use '("A" "B"))` in `two_exporters_state`,
where no package uses any package, so that there is no conflict.  The call returns the
new package 4 without signalling; `P` then uses `B` (3) and `A` (2), which export
different symbols named `X` (3 and 2), and has no shadowing symbol. -/
theorem make_package_silent_conflict :
    no_silent_conflict two_exporters_state ∧
    mkcl_gethash_safe "X" (two_exporters_state.pack 2).external = some 2 ∧
    mkcl_gethash_safe "X" (two_exporters_state.pack 3).external = some 3 ∧
    (mkcl_make_package default_handler two_exporters_state "P" []
        [.string "A", .string "B"]).exit = .ret 4 ∧
    (mkcl_make_package default_handler two_exporters_state "P" []
        [.string "A", .string "B"]).signals = [] ∧
    ((mkcl_make_package default_handler two_exporters_state "P" []
        [.string "A", .string "B"]).state.pack 4).uses = [3, 2] ∧
    ((mkcl_make_package default_handler two_exporters_state "P" []
        [.string "A", .string "B"]).state.pack 4).shadowings = [] ∧
    ¬ no_silent_conflict
      (mkcl_make_package default_handler two_exporters_state "P" []
        [.string "A", .string "B"]).state := by
  refine ⟨no_silent_conflict_of_no_edges _ two_exporters_no_edges, by decide!, by decide!,
    by decide!, by decide!, by decide!, by decide!, ?_⟩
  intro hc
  rcases hc 4 "X" with ⟨x, hx, _⟩ | hc
  · have hs : ((mkcl_make_package default_handler two_exporters_state "P" []
        [.string "A", .string "B"]).state.pack 4).shadowings = [] := by decide!
    rw [hs] at hx
    cases hx
  · have := hc 3 (by decide!) 2 (by decide!) 3 2 (by decide!) (by decide!)
    exact absurd this (by decide)

/-! ## The keyword package -/

/-- C14, failing inputs in `boot_state`, where the keyword package (1) is singular.
`(import 'car "KEYWORD")` returns and leaves `CAR` (1) in the internal table of the
keyword package; `(make-package "P" :use '("KEYWORD"))` returns the new package 2,
which uses the keyword package. -/
theorem keyword_not_singular :
    keyword_singular boot_state ∧
    boot_state.keyword_package = 1 ∧
    (mkcl_import2 default_handler boot_state 1 (.package 1)).exit = .ret () ∧
    (mkcl_import2 default_handler boot_state 1 (.package 1)).signals = [] ∧
    ((mkcl_import2 default_handler boot_state 1 (.package 1)).state.pack 1).internal
      = [("CAR", 1)] ∧
    ¬ keyword_singular (mkcl_import2 default_handler boot_state 1 (.package 1)).state ∧
    (mkcl_make_package default_handler boot_state "P" [] [.string "KEYWORD"]).exit
      = .ret 2 ∧
    (mkcl_make_package default_handler boot_state "P" [] [.string "KEYWORD"]).signals
      = [] ∧
    ((mkcl_make_package default_handler boot_state "P" []
        [.string "KEYWORD"]).state.pack 2).uses = [1] ∧
    ((mkcl_make_package default_handler boot_state "P" []
        [.string "KEYWORD"]).state.pack 1).usedby = [2] ∧
    ¬ keyword_singular
      (mkcl_make_package default_handler boot_state "P" [] [.string "KEYWORD"]).state := by
  decide!

/-! ## Home consistency -/

theorem boot_state_home_consistent : home_consistent boot_state := by
  intro s P hs
  match s with
  | 0 =>
    have hP : some 0 = some P := hs
    cases hP
    decide!
  | 1 =>
    have hP : some 0 = some P := hs
    cases hP
    decide!
  | n + 2 =>
    have hP : none = some P := hs
    cases hP

/-- C13, failing input: the calls `keyword_shadow_calls` in `boot_state`, which is
home consistent.  The homeless symbol `A` (2) is imported into the keyword package (1),
which becomes its home; `(shadow "A" "KEYWORD")` does not find it, makes the symbol 3
and enters it under `A` in the internal table; `A` (2) then has the keyword package as
its home and is in neither of its tables. -/
theorem keyword_shadow_breaks_home :
    home_consistent boot_state ∧
    ((Call.run_all default_handler 1 boot_state keyword_shadow_calls).symbol 2).name = "A" ∧
    ((Call.run_all default_handler 1 boot_state keyword_shadow_calls).symbol 2).hpack
      = some 1 ∧
    mkcl_gethash_safe "A"
      ((Call.run_all default_handler 1 boot_state keyword_shadow_calls).pack 1).external
      = none ∧
    mkcl_gethash_safe "A"
      ((Call.run_all default_handler 1 boot_state keyword_shadow_calls).pack 1).internal
      = some 3 ∧
    ¬ home_consistent (Call.run_all default_handler 1 boot_state keyword_shadow_calls) := by
  refine ⟨boot_state_home_consistent, by decide!, by decide!, by decide!, by decide!, ?_⟩
  intro hc
  have := hc 2 1 (by decide!)
  revert this
  decide!

theorem mem_names (pk : Package) (k : String) :
    k ∈ pk.names ↔ pk.name = some k ∨ k ∈ pk.nicknames := by
  unfold Package.names
  cases pk.name <;> simp [eq_comm]

theorem find_package_scan_none (st : State) (name : String) (l : List Nat)
    (hn : find_package_scan st name l = none) : ∀ q ∈ l, name ∉ (st.pack q).names := by
  induction l with
  | nil => simp
  | cons p l ih =>
    unfold find_package_scan at hn
    split at hn
    · cases hn
    · split at hn
      · cases hn
      · rename_i h1 h2
        intro q hq
        rcases List.mem_cons.1 hq with e | e
        · subst e
          rw [mem_names]
          rintro (a | b)
          · exact h1 a
          · exact h2 (by simp [member_string_E, b])
        · exact ih hn q e

theorem nicknames_scan_ok (st : State) (l : List String) :
    ∀ good res, nicknames_scan st l good = .ok res →
      ∀ k ∈ res, k ∈ good ∨ mkcl_find_package_nolock st (.string k) = none := by
  induction l with
  | nil =>
    intro good res hr k hk
    simp only [nicknames_scan, Except.ok.injEq] at hr
    subst hr
    exact Or.inl hk
  | cons nick l ih =>
    intro good res hr k hk
    unfold nicknames_scan at hr
    split at hr
    · cases hr
    · rename_i hnone
      rcases ih _ _ hr k hk with h1 | h1
      · rcases List.mem_cons.1 h1 with e | e
        · right; rw [e]; exact hnone
        · exact Or.inl e
      · exact Or.inr h1

theorem names_of_eq (a b : Package) (h1 : a.name = b.name) (h2 : a.nicknames = b.nicknames) :
    a.names = b.names := by
  unfold Package.names
  rw [h1, h2]

theorem set_pack_names (st : State) (p : Nat) (v : Package) (q : Nat)
    (hv : v.names = (st.pack p).names) :
    ((st.set_pack p v).pack q).names = (st.pack q).names := by
  by_cases hq : q = p
  · subst hq; simp [hv]
  · simp [hq]

theorem use_list_loop_names (x : Nat) (l : List Designator) :
    ∀ st : State, (use_list_loop x st l).1.packages = st.packages
      ∧ ∀ q, ((use_list_loop x st l).1.pack q).names = (st.pack q).names := by
  induction l with
  | nil => intro st; exact ⟨rfl, fun _ => rfl⟩
  | cons d l ih =>
    intro st
    unfold use_list_loop
    split
    · exact ⟨rfl, fun _ => rfl⟩
    · rename_i y _
      obtain ⟨h1, h2⟩ := ih
        ((st.set_pack x { st.pack x with uses := y :: (st.pack x).uses }).set_pack y
          { (st.set_pack x { st.pack x with uses := y :: (st.pack x).uses }).pack y with
            usedby := x ::
              ((st.set_pack x { st.pack x with uses := y :: (st.pack x).uses }).pack
                y).usedby })
      refine ⟨h1, fun q => (h2 q).trans ?_⟩
      refine Eq.trans (set_pack_names _ _ _ q ?_) (set_pack_names _ _ _ q ?_)
      · rfl
      · rfl

theorem unique_names_same (st st' : State) (hu : unique_names st)
    (hp : st'.packages = st.packages)
    (hsame : ∀ q ∈ st.packages, (st'.pack q).names = (st.pack q).names) :
    unique_names st' := by
  intro p hp1 q hq1 hne k hk
  rw [hp] at hp1 hq1
  rw [hsame p hp1] at hk
  rw [hsame q hq1]
  exact hu p hp1 q hq1 hne k hk

theorem unique_names_cons (st st' : State) (x : Nat) (hu : unique_names st)
    (hp : st'.packages = x :: st.packages)
    (hsame : ∀ q ∈ st.packages, (st'.pack q).names = (st.pack q).names)
    (hx : ∀ k ∈ (st'.pack x).names, ∀ q ∈ st.packages, k ∉ (st.pack q).names) :
    unique_names st' := by
  intro p hp1 q hq1 hne k hk hk2
  rw [hp] at hp1 hq1
  rcases List.mem_cons.1 hp1 with e1 | e1 <;> rcases List.mem_cons.1 hq1 with e2 | e2
  · exact hne (e1.trans e2.symm)
  · subst e1
    rw [hsame q e2] at hk2
    exact hx k hk q e2 hk2
  · subst e2
    rw [hsame p e1] at hk
    exact hx k hk2 p e1 hk
  · rw [hsame p e1] at hk
    rw [hsame q e2] at hk2
    exact hu p e1 q e2 hne k hk hk2

/-- Uniqueness of names under `mkcl_make_sized_package`: when no package is waiting to
be created and the package list holds allocated references only, a call, successful or
failed, leaves the names and nicknames of the packages of the list pairwise disjoint. -/
theorem make_package_unique_names (h : Handler) (st : State) (name : String)
    (nicknames : List String) (use_list : List Designator) (es is : Int)
    (hu : unique_names st) (hpend : st.packages_to_be_created = [])
    (halloc : ∀ p ∈ st.packages, p < st.pack_count) :
    unique_names (mkcl_make_sized_package h st name nicknames use_list es is).state := by
  unfold mkcl_make_sized_package
  rw [hpend]
  simp only [pending_scan]
  split
  · exact hu
  · rename_i hfind
    split
    · exact hu
    · have hfresh : ∀ q ∈ st.packages,
          ((_mkcl_alloc_sized_package st name).1.pack q).names = (st.pack q).names := by
        intro q hq
        have hne : q ≠ st.pack_count := Nat.ne_of_lt (halloc q hq)
        simp [_mkcl_alloc_sized_package, Function.update, hne]
      unfold make_package_intern
      split
      · exact unique_names_same st _ hu rfl hfresh
      · rename_i good hgood
        have hloop := use_list_loop_names (_mkcl_alloc_sized_package st name).2 use_list
          ((_mkcl_alloc_sized_package st name).1.set_pack (_mkcl_alloc_sized_package st name).2
            { (_mkcl_alloc_sized_package st name).1.pack (_mkcl_alloc_sized_package st name).2
              with nicknames := good })
        have hold : ∀ q ∈ st.packages,
            ((use_list_loop (_mkcl_alloc_sized_package st name).2
              ((_mkcl_alloc_sized_package st name).1.set_pack
                (_mkcl_alloc_sized_package st name).2
                { (_mkcl_alloc_sized_package st name).1.pack
                    (_mkcl_alloc_sized_package st name).2 with nicknames := good })
              use_list).1.pack q).names = (st.pack q).names := by
          intro q hq
          have hne : q ≠ st.pack_count := Nat.ne_of_lt (halloc q hq)
          rw [hloop.2 q]
          simp [_mkcl_alloc_sized_package, Function.update, hne]
        dsimp only
        split
        · rename_i st2 d heq
          rw [heq] at hloop hold
          exact unique_names_same st _ hu hloop.1 hold
        · rename_i st2 heq
          rw [heq] at hloop hold
          refine unique_names_cons st _ (_mkcl_alloc_sized_package st name).2 hu ?_ hold ?_
          · show _ :: st2.packages = _
            rw [hloop.1]
            rfl
          · intro k hk q hq
            have hk2 : k ∈ (st2.pack (_mkcl_alloc_sized_package st name).2).names := hk
            rw [hloop.2, mem_names] at hk2
            simp only [_mkcl_alloc_sized_package, set_pack_pack, if_true, Function.update,
              dite_true, Option.some.injEq] at hk2
            rcases hk2 with e | e
            · rw [← e]
              exact find_package_scan_none st name st.packages hfind q hq
            · rcases nicknames_scan_ok _ _ _ _ hgood k e with h1 | h1
              · cases h1
              · have := find_package_scan_none _ k _ h1 q hq
                rw [hfresh q hq] at this
                exact this

/-! ## The package registry -/

theorem find_package_scan_of_none (st : State) (name : String) (l : List Nat)
    (hn : ∀ q ∈ l, name ∉ (st.pack q).names) : find_package_scan st name l = none := by
  induction l with
  | nil => rfl
  | cons p l ih =>
    have hp := hn p (by simp)
    rw [mem_names, not_or] at hp
    unfold find_package_scan
    rw [if_neg hp.1, if_neg (by simpa [member_string_E] using hp.2)]
    exact ih (fun q hq => hn q (by simp [hq]))

theorem find_package_scan_first (st : State) (name : String) (l1 l2 : List Nat) (p : Nat)
    (hp : name ∈ (st.pack p).names) (h1 : ∀ q ∈ l1, name ∉ (st.pack q).names) :
    find_package_scan st name (l1 ++ p :: l2) = some p := by
  induction l1 with
  | nil =>
    rw [mem_names] at hp
    simp only [List.nil_append]
    unfold find_package_scan
    rcases hp with e | e
    · rw [if_pos e]
    · by_cases e2 : (st.pack p).name = some name
      · rw [if_pos e2]
      · rw [if_neg e2, if_pos (by simpa [member_string_E] using e)]
  | cons q l1 ih =>
    have hq := h1 q (by simp)
    rw [mem_names, not_or] at hq
    simp only [List.cons_append]
    unfold find_package_scan
    rw [if_neg hq.1, if_neg (by simpa [member_string_E] using hq.2)]
    exact ih (fun r hr => h1 r (by simp [hr]))

theorem find_package_scan_some (st : State) (name : String) (l : List Nat) (p : Nat)
    (hs : find_package_scan st name l = some p) :
    ∃ l1 l2, l = l1 ++ p :: l2 ∧ name ∈ (st.pack p).names
      ∧ ∀ q ∈ l1, name ∉ (st.pack q).names := by
  induction l with
  | nil => simp [find_package_scan] at hs
  | cons q l ih =>
    unfold find_package_scan at hs
    split at hs
    · rename_i h1
      simp only [Option.some.injEq] at hs
      subst hs
      exact ⟨[], l, rfl, by rw [mem_names]; exact Or.inl h1, by simp⟩
    · split at hs
      · rename_i h1 h2
        simp only [Option.some.injEq] at hs
        subst hs
        exact ⟨[], l, rfl, by rw [mem_names]; right; simpa [member_string_E] using h2,
          by simp⟩
      · rename_i h1 h2
        obtain ⟨l1, l2, e, hp, hq⟩ := ih hs
        refine ⟨q :: l1, l2, by rw [e]; rfl, hp, ?_⟩
        intro r hr
        rcases List.mem_cons.1 hr with e2 | e2
        · subst e2
          rw [mem_names]
          rintro (a | b)
          · exact h1 a
          · exact h2 (by simp [member_string_E, b])
        · exact hq r e2

/-- C27: `mkcl_find_package_nolock` returns a package argument as it is, whether or not
it is in the package list; for a string it returns the first package of the package
list whose name is the string or one of whose nicknames is the string, and it returns
nothing exactly when no package of the list has the string as its name or as a
nickname.  It is a function of the state and returns no state. -/
theorem find_package_first_match (st : State) :
    (∀ p, mkcl_find_package_nolock st (.package p) = some p) ∧
    (∀ n p, mkcl_find_package_nolock st (.string n) = some p ↔
      ∃ l1 l2, st.packages = l1 ++ p :: l2
        ∧ ((st.pack p).name = some n ∨ n ∈ (st.pack p).nicknames)
        ∧ ∀ q ∈ l1, ¬ ((st.pack q).name = some n ∨ n ∈ (st.pack q).nicknames)) ∧
    (∀ n, mkcl_find_package_nolock st (.string n) = none ↔
      ∀ q ∈ st.packages, ¬ ((st.pack q).name = some n ∨ n ∈ (st.pack q).nicknames)) := by
  refine ⟨fun _ => rfl, fun n p => ⟨fun hs => ?_, fun hs => ?_⟩,
    fun n => ⟨fun hn => ?_, fun hn => ?_⟩⟩
  · obtain ⟨l1, l2, e, hp, hq⟩ := find_package_scan_some st n st.packages p hs
    exact ⟨l1, l2, e, (mem_names _ _).1 hp, fun q hq1 => (mem_names _ _).not.1 (hq q hq1)⟩
  · obtain ⟨l1, l2, e, hp, hq⟩ := hs
    show find_package_scan st n st.packages = some p
    rw [e]
    exact find_package_scan_first st n l1 l2 p ((mem_names _ _).2 hp)
      (fun q hq1 => (mem_names _ _).not.2 (hq q hq1))
  · intro q hq
    exact (mem_names _ _).not.1 (find_package_scan_none st n st.packages hn q hq)
  · exact find_package_scan_of_none st n st.packages
      (fun q hq => (mem_names _ _).not.2 (hn q hq))

/-! ## Unintern -/

theorem unintern_scan_some_none (st : State) (name : String) (x0 : Nat) (l : List Nat) :
    unintern_scan st name (some x0) l = none ↔
      ∀ U ∈ l, ∀ a, mkcl_gethash_safe name (st.pack U).external = some a → a = x0 := by
  induction l with
  | nil => simp [unintern_scan]
  | cons u l ih =>
    unfold unintern_scan
    cases hu : mkcl_gethash_safe name (st.pack u).external with
    | none =>
      simp only [List.mem_cons, forall_eq_or_imp, hu]
      rw [ih]
      simp
    | some y =>
      simp only [List.mem_cons, forall_eq_or_imp, hu, Option.some.injEq]
      by_cases hxy : x0 = y
      · subst hxy
        simp only [ne_eq, not_true_eq_false, if_false]
        rw [ih]
        simp
      · simp only [ne_eq, hxy, not_false_eq_true, if_true]
        constructor
        · intro hc; cases hc
        · intro hc
          exact absurd (hc.1 y rfl).symm hxy

theorem unintern_scan_none_iff (st : State) (name : String) (l : List Nat) :
    unintern_scan st name none l = none ↔ ¬ uses_conflict st name l := by
  unfold uses_conflict
  induction l with
  | nil => simp [unintern_scan]
  | cons u l ih =>
    unfold unintern_scan
    cases hu : mkcl_gethash_safe name (st.pack u).external with
    | none =>
      simp only
      rw [ih]
      constructor
      · rintro hn ⟨U, hU, V, hV, a, b, ha, hb, hab⟩
        apply hn
        rcases List.mem_cons.1 hU with e | e
        · subst e; rw [hu] at ha; cases ha
        · rcases List.mem_cons.1 hV with e2 | e2
          · subst e2; rw [hu] at hb; cases hb
          · exact ⟨U, e, V, e2, a, b, ha, hb, hab⟩
      · rintro hn ⟨U, hU, V, hV, a, b, ha, hb, hab⟩
        exact hn ⟨U, by simp [hU], V, by simp [hV], a, b, ha, hb, hab⟩
    | some y =>
      simp only
      rw [unintern_scan_some_none]
      constructor
      · rintro hall ⟨U, hU, V, hV, a, b, ha, hb, hab⟩
        have h1 : a = y := by
          rcases List.mem_cons.1 hU with e | e
          · subst e; rw [hu] at ha; cases ha; rfl
          · exact hall U e a ha
        have h2 : b = y := by
          rcases List.mem_cons.1 hV with e | e
          · subst e; rw [hu] at hb; cases hb; rfl
          · exact hall V e b hb
        exact hab (h1.trans h2.symm)
      · intro hn U hU a ha
        by_contra hne
        exact hn ⟨U, by simp [hU], u, by simp, a, y, ha, hu, hne⟩

theorem remove_eq_not_mem (s : Nat) (l : List Nat) (hs : s ∉ l) : mkcl_remove_eq s l = l := by
  unfold mkcl_remove_eq
  rw [List.filter_eq_self]
  intro a ha
  simpa using fun e : a = s => hs (e ▸ ha)

theorem unintern_absent (h : Handler) (fuel : Nat) (st : State) (P s : Nat)
    (hi : mkcl_gethash_safe (mkcl_symbol_name st s) (st.pack P).internal ≠ some s)
    (he : mkcl_gethash_safe (mkcl_symbol_name st s) (st.pack P).external ≠ some s) :
    mkcl_unintern h (fuel + 1) st s (.package P) = ⟨st, [], .ret false⟩ := by
  unfold mkcl_unintern
  simp only [mk_si_coerce_to_package, mkcl_find_package_nolock]
  unfold mkcl_unintern_loop
  simp only [hi, he, if_false]

theorem unintern_conflict (h : Handler) (fuel : Nat) (st : State) (P s : Nat)
    (hopen : (st.pack P).closed = false)
    (hl : mkcl_gethash_safe (mkcl_symbol_name st s) (st.pack P).internal = some s
      ∨ mkcl_gethash_safe (mkcl_symbol_name st s) (st.pack P).external = some s)
    (hsh : s ∈ (st.pack P).shadowings) (x y : Nat)
    (hc : unintern_scan st (mkcl_symbol_name st s) none (st.pack P).uses = some (x, y)) :
    mkcl_unintern h (fuel + 1) st s (.package P)
      = ⟨st, [], .fatal (.unintern_conflict s P x y)⟩ := by
  unfold mkcl_unintern
  simp only [mk_si_coerce_to_package, mkcl_find_package_nolock]
  unfold mkcl_unintern_loop
  simp only [closed_eq_false st P hopen, if_false]
  have hm : mkcl_member_eq s (st.pack P).shadowings = true := by simpa [mkcl_member_eq] using hsh
  rcases hl with e | e
  · simp only [e, if_true, hm, hc]
  · by_cases e2 : mkcl_gethash_safe (mkcl_symbol_name st s) (st.pack P).internal = some s
    · simp only [e2, if_true, hm, hc]
    · simp only [e2, if_false, e, if_true, hm, hc, Bool.false_eq_true]

theorem unintern_removes (h : Handler) (fuel : Nat) (st : State) (P s : Nat)
    (hopen : (st.pack P).closed = false)
    (hl : mkcl_gethash_safe (mkcl_symbol_name st s) (st.pack P).internal = some s
      ∨ mkcl_gethash_safe (mkcl_symbol_name st s) (st.pack P).external = some s)
    (hc : s ∈ (st.pack P).shadowings →
      unintern_scan st (mkcl_symbol_name st s) none (st.pack P).uses = none) :
    mkcl_unintern h (fuel + 1) st s (.package P)
      = ⟨make_resident_symbol_homeless
          (st.set_pack P
            (if mkcl_gethash_safe (mkcl_symbol_name st s) (st.pack P).internal = some s then
              { st.pack P with
                shadowings := mkcl_remove_eq s (st.pack P).shadowings
                internal := mkcl_remhash (mkcl_symbol_name st s) (st.pack P).internal }
            else
              { st.pack P with
                shadowings := mkcl_remove_eq s (st.pack P).shadowings
                external := mkcl_remhash (mkcl_symbol_name st s) (st.pack P).external }))
          s P, [], .ret true⟩ := by
  unfold mkcl_unintern
  simp only [mk_si_coerce_to_package, mkcl_find_package_nolock]
  unfold mkcl_unintern_loop
  simp only [closed_eq_false st P hopen, if_false]
  by_cases hsh : s ∈ (st.pack P).shadowings
  · have hm : mkcl_member_eq s (st.pack P).shadowings = true := by
      simpa [mkcl_member_eq] using hsh
    rcases hl with e | e
    · simp only [e, if_true, hm, hc hsh]
    · by_cases e2 : mkcl_gethash_safe (mkcl_symbol_name st s) (st.pack P).internal = some s
      · simp only [e2, if_true, hm, hc hsh]
      · simp only [e2, if_false, e, if_true, hm, hc hsh, Bool.false_eq_true]
  · have hm : mkcl_member_eq s (st.pack P).shadowings = false := by
      simpa [mkcl_member_eq] using hsh
    rw [remove_eq_not_mem s _ hsh]
    rcases hl with e | e
    · simp only [e, if_true, hm, Bool.false_eq_true, if_false]
    · by_cases e2 : mkcl_gethash_safe (mkcl_symbol_name st s) (st.pack P).internal = some s
      · simp only [e2, if_true, hm, Bool.false_eq_true, if_false]
      · simp only [e2, if_false, e, if_true, hm, Bool.false_eq_true, if_false]

/-- C21: for an open package `P`, if neither table of `P` maps the name of `s` to `s`,
`mkcl_unintern` returns false in the unchanged state.  Otherwise, unless `s` is a
shadowing symbol of `P` and two used packages export different symbols of that name,
it returns true without signalling; the table that held `s` (the internal one if it held
`s`, else the external one) no longer has the name, `s` is not in `P.shadowings`, the
home of `s` is cleared if it was `P` and kept otherwise, and the other table, the other
shadowing symbols, the use and used-by lists, name, nicknames and flag of `P`, the other
packages, the other symbols and the registry are unchanged. -/
theorem unintern_result (h : Handler) (fuel : Nat) (st : State) (P s : Nat)
    (hopen : (st.pack P).closed = false) :
    (mkcl_gethash_safe (mkcl_symbol_name st s) (st.pack P).internal ≠ some s →
      mkcl_gethash_safe (mkcl_symbol_name st s) (st.pack P).external ≠ some s →
      mkcl_unintern h (fuel + 1) st s (.package P) = ⟨st, [], .ret false⟩) ∧
    ((mkcl_gethash_safe (mkcl_symbol_name st s) (st.pack P).internal = some s
        ∨ mkcl_gethash_safe (mkcl_symbol_name st s) (st.pack P).external = some s) →
      ¬ (s ∈ (st.pack P).shadowings
        ∧ uses_conflict st (mkcl_symbol_name st s) (st.pack P).uses) →
      (mkcl_unintern h (fuel + 1) st s (.package P)).exit = .ret true ∧
      (mkcl_unintern h (fuel + 1) st s (.package P)).signals = [] ∧
      (mkcl_unintern h (fuel + 1) st s (.package P)).state.pack P
        = (if mkcl_gethash_safe (mkcl_symbol_name st s) (st.pack P).internal = some s then
            { st.pack P with
              shadowings := mkcl_remove_eq s (st.pack P).shadowings
              internal := mkcl_remhash (mkcl_symbol_name st s) (st.pack P).internal }
          else
            { st.pack P with
              shadowings := mkcl_remove_eq s (st.pack P).shadowings
              external := mkcl_remhash (mkcl_symbol_name st s) (st.pack P).external }) ∧
      (mkcl_gethash_safe (mkcl_symbol_name st s) (st.pack P).internal = some s →
        mkcl_gethash_safe (mkcl_symbol_name st s)
          ((mkcl_unintern h (fuel + 1) st s (.package P)).state.pack P).internal = none) ∧
      (mkcl_gethash_safe (mkcl_symbol_name st s) (st.pack P).internal ≠ some s →
        mkcl_gethash_safe (mkcl_symbol_name st s)
          ((mkcl_unintern h (fuel + 1) st s (.package P)).state.pack P).external = none) ∧
      s ∉ ((mkcl_unintern h (fuel + 1) st s (.package P)).state.pack P).shadowings ∧
      ((mkcl_unintern h (fuel + 1) st s (.package P)).state.symbol s).hpack
        = (if (st.symbol s).hpack = some P then none else (st.symbol s).hpack) ∧
      (∀ Q, Q ≠ P → (mkcl_unintern h (fuel + 1) st s (.package P)).state.pack Q = st.pack Q) ∧
      (∀ t, t ≠ s →
        (mkcl_unintern h (fuel + 1) st s (.package P)).state.symbol t = st.symbol t) ∧
      same_core st (mkcl_unintern h (fuel + 1) st s (.package P)).state) := by
  refine ⟨unintern_absent h fuel st P s, fun hl hnc => ?_⟩
  have hc : s ∈ (st.pack P).shadowings →
      unintern_scan st (mkcl_symbol_name st s) none (st.pack P).uses = none :=
    fun hsh => (unintern_scan_none_iff st _ _).2 (fun c => hnc ⟨hsh, c⟩)
  rw [unintern_removes h fuel st P s hopen hl hc]
  refine ⟨rfl, rfl, ?_, ?_, ?_, ?_, ?_, ?_, ?_, ?_⟩
  · simp [make_resident_symbol_homeless_pack]
  · intro hi
    simp [make_resident_symbol_homeless_pack, hi, gethash_remhash]
  · intro hi
    simp [make_resident_symbol_homeless_pack, hi, gethash_remhash]
  · rw [make_resident_symbol_homeless_pack]
    split_ifs <;> simp [mem_remove_eq]
  · rw [homeless_symbol]
    simp
  · intro Q hQ
    simp [make_resident_symbol_homeless_pack, hQ]
  · intro t ht
    rw [homeless_symbol]
    simp [ht]
  · exact same_core_homeless _ _ (same_core_set_pack _ _ (same_core_refl st))

/-- Witness for `unintern_result`: uninterning the internal symbol `BAR` (2) of the open
package `FOO` (2) in `foo_bar_state`. -/
theorem unintern_result_witness :
    (foo_bar_state.pack 2).closed = false ∧
    mkcl_gethash_safe (mkcl_symbol_name foo_bar_state 2) (foo_bar_state.pack 2).internal
      = some 2 ∧
    2 ∉ (foo_bar_state.pack 2).shadowings ∧
    (mkcl_unintern default_handler 1 foo_bar_state 2 (.package 2)).exit = .ret true ∧
    ((mkcl_unintern default_handler 1 foo_bar_state 2 (.package 2)).state.symbol 2).hpack
      = none :=
  ⟨by decide!, by decide!, by decide!,
    ((unintern_result default_handler 0 foo_bar_state 2 2 (by decide!)).2
      (Or.inl (by decide!)) (fun c => absurd c.1 (by decide!))).1,
    by decide!⟩

/-- C22: for an open package `P` and a symbol `s` held by one of its tables and a member
of `P.shadowings`, `mkcl_unintern` fails with the fatal name-conflict error if and only
if two packages of `P.uses` have different symbols for the name of `s` in their external
tables; a call that fails leaves the whole state as it was, and a call without that
conflict returns true. -/
theorem unintern_conflict_iff (h : Handler) (fuel : Nat) (st : State) (P s : Nat)
    (hopen : (st.pack P).closed = false)
    (hl : mkcl_gethash_safe (mkcl_symbol_name st s) (st.pack P).internal = some s
      ∨ mkcl_gethash_safe (mkcl_symbol_name st s) (st.pack P).external = some s)
    (hsh : s ∈ (st.pack P).shadowings) :
    ((∃ x y, (mkcl_unintern h (fuel + 1) st s (.package P)).exit
        = .fatal (.unintern_conflict s P x y))
      ↔ uses_conflict st (mkcl_symbol_name st s) (st.pack P).uses) ∧
    (∀ e, (mkcl_unintern h (fuel + 1) st s (.package P)).exit = .fatal e →
      (mkcl_unintern h (fuel + 1) st s (.package P)).state = st
        ∧ ∃ x y, e = .unintern_conflict s P x y) ∧
    (¬ uses_conflict st (mkcl_symbol_name st s) (st.pack P).uses →
      (mkcl_unintern h (fuel + 1) st s (.package P)).exit = .ret true) := by
  cases hscan : unintern_scan st (mkcl_symbol_name st s) none (st.pack P).uses with
  | none =>
    have hnc := (unintern_scan_none_iff st _ _).1 hscan
    rw [unintern_removes h fuel st P s hopen hl (fun _ => hscan)]
    refine ⟨⟨?_, fun c => absurd c hnc⟩, ?_, fun _ => rfl⟩
    · rintro ⟨x, y, hxy⟩
      cases hxy
    · intro e he
      cases he
  | some r =>
    obtain ⟨x, y⟩ := r
    have hcf : uses_conflict st (mkcl_symbol_name st s) (st.pack P).uses := by
      by_contra hn
      rw [(unintern_scan_none_iff st _ _).2 hn] at hscan
      cases hscan
    rw [unintern_conflict h fuel st P s hopen hl hsh x y hscan]
    refine ⟨⟨fun _ => hcf, fun _ => ⟨x, y, rfl⟩⟩, ?_, fun hn => absurd hcf hn⟩
    intro e he
    simp only [Exit.fatal.injEq] at he
    exact ⟨rfl, x, y, he.symm⟩

/-- Witness for `unintern_conflict_iff`: in `shadowed_conflict_state` the shadowing
symbol `X` (4) of `P` (4) hides the different symbols `X` of `B` and `A`, and
uninterning it fails. -/
theorem unintern_conflict_iff_witness :
    (shadowed_conflict_state.pack 4).closed = false ∧
    mkcl_gethash_safe (mkcl_symbol_name shadowed_conflict_state 4)
      (shadowed_conflict_state.pack 4).internal = some 4 ∧
    4 ∈ (shadowed_conflict_state.pack 4).shadowings ∧
    (shadowed_conflict_state.pack 4).uses = [3, 2] ∧
    ∃ x y, (mkcl_unintern default_handler 1 shadowed_conflict_state 4 (.package 4)).exit
      = .fatal (.unintern_conflict 4 4 x y) :=
  ⟨by decide!, by decide!, by decide!, by decide!,
    (unintern_conflict_iff default_handler 0 shadowed_conflict_state 4 4 (by decide!)
      (Or.inl (by decide!)) (by decide!)).1.2
      ⟨3, by decide!, 2, by decide!, 3, 2, by decide!, by decide!, by decide⟩⟩

/-! ## Unexport -/

/-- C23: in an open package `P` other than the keyword package, when the name of `s`
resolves to `s` as an external symbol, `mkcl_unexport2` returns without signalling and
only `P` changes: the name leaves `P.external` and `P.internal` maps it to `s`; when it
resolves to `s` as an internal or inherited symbol the call returns without signalling
in the unchanged state; when it resolves to nothing or to another symbol the call fails
in the unchanged state.  In the keyword package, open or closed, the call fails in the
unchanged state. -/
theorem unexport_result (h : Handler) (st : State) (P s : Nat) :
    ((st.pack P).closed = false → P ≠ st.keyword_package →
      mkcl_find_symbol_nolock st (mkcl_symbol_name st s) P = (s, .external) →
      mkcl_unexport2 h st s (.package P)
          = ⟨st.set_pack P
              { st.pack P with
                external := mkcl_remhash (mkcl_symbol_name st s) (st.pack P).external
                internal := mkcl_sethash (mkcl_symbol_name st s) (st.pack P).internal s },
            [], .ret ()⟩
        ∧ mkcl_gethash_safe (mkcl_symbol_name st s)
            ((mkcl_unexport2 h st s (.package P)).state.pack P).external = none
        ∧ mkcl_gethash_safe (mkcl_symbol_name st s)
            ((mkcl_unexport2 h st s (.package P)).state.pack P).internal = some s) ∧
    ((st.pack P).closed = false → P ≠ st.keyword_package →
      (mkcl_find_symbol_nolock st (mkcl_symbol_name st s) P = (s, .internal)
        ∨ mkcl_find_symbol_nolock st (mkcl_symbol_name st s) P = (s, .inherited)) →
      mkcl_unexport2 h st s (.package P) = ⟨st, [], .ret ()⟩) ∧
    ((st.pack P).closed = false → P ≠ st.keyword_package →
      ((mkcl_find_symbol_nolock st (mkcl_symbol_name st s) P).2 = .zero
        ∨ (mkcl_find_symbol_nolock st (mkcl_symbol_name st s) P).1 ≠ s) →
      mkcl_unexport2 h st s (.package P) = ⟨st, [], .fatal (.unexport_not_belong s P)⟩) ∧
    (P = st.keyword_package →
      mkcl_unexport2 h st s (.package P) = ⟨st, [], .fatal .unexport_keyword⟩) := by
  refine ⟨fun hopen hK hf => ?_, fun hopen hK hf => ?_, fun hopen hK hf => ?_, fun hK => ?_⟩
  · have hrun : mkcl_unexport2 h st s (.package P)
        = ⟨st.set_pack P
            { st.pack P with
              external := mkcl_remhash (mkcl_symbol_name st s) (st.pack P).external
              internal := mkcl_sethash (mkcl_symbol_name st s) (st.pack P).internal s },
          [], .ret ()⟩ := by
      unfold mkcl_unexport2
      simp only [mk_si_coerce_to_package, mkcl_find_package_nolock, if_neg hK,
        closed_eq_false st P hopen, false_and, if_false, hf]
      simp
    rw [hrun]
    exact ⟨rfl, by simp [gethash_remhash], by simp [gethash_sethash]⟩
  · unfold mkcl_unexport2
    simp only [mk_si_coerce_to_package, mkcl_find_package_nolock, if_neg hK,
      closed_eq_false st P hopen, false_and, if_false]
    rcases hf with e | e <;> rw [e] <;> simp
  · unfold mkcl_unexport2
    simp only [mk_si_coerce_to_package, mkcl_find_package_nolock, if_neg hK,
      closed_eq_false st P hopen, false_and, if_false]
    rw [if_pos hf]
  · unfold mkcl_unexport2
    simp only [mk_si_coerce_to_package, mkcl_find_package_nolock]
    rw [if_pos hK]

/-- Witness for `unexport_result`: unexporting the external symbol `CAR` (1) of the open
package `LISP` (0) in `boot_state`. -/
theorem unexport_result_witness :
    (boot_state.pack 0).closed = false ∧ 0 ≠ boot_state.keyword_package ∧
    mkcl_find_symbol_nolock boot_state (mkcl_symbol_name boot_state 1) 0 = (1, .external) ∧
    (mkcl_unexport2 default_handler boot_state 1 (.package 0)).exit = .ret () ∧
    mkcl_find_symbol_nolock (mkcl_unexport2 default_handler boot_state 1 (.package 0)).state
      "CAR" 0 = (1, .internal) :=
  ⟨by decide!, by decide!, by decide!,
    congrArg Outcome.exit
      ((unexport_result default_handler boot_state 0 1).1 (by decide!) (by decide!)
        (by decide!)).1,
    by decide!⟩

/-! ## Export of a symbol that is not accessible -/

theorem find_symbol_zero_nil (st : State) (n : String) (p : Nat)
    (hz : (mkcl_find_symbol_nolock st n p).2 = .zero) :
    (mkcl_find_symbol_nolock st n p).1 = mk_cl_Cnil := by
  unfold mkcl_find_symbol_nolock at hz ⊢
  cases he : mkcl_gethash_safe n (st.pack p).external with
  | some s => simp [he] at hz
  | none =>
    rw [he] at hz
    by_cases hk : p = st.keyword_package
    · simp [hk]
    · cases hi : mkcl_gethash_safe n (st.pack p).internal with
      | some s => simp [hk, hi] at hz
      | none =>
        cases hu : find_in_uses st n (st.pack p).uses with
        | some s => simp [hk, hi, hu] at hz
        | none => simp [hk]

/-- What `mkcl_export2` does on an open package `P` with a symbol `s` other than `NIL`
whose name is not accessible in `P`: it signals the continuable error, and when that is
continued it fails with the fatal error of a different symbol of the same name; the
state is unchanged either way. -/
theorem export2_not_accessible (h : Handler) (st : State) (P s : Nat)
    (hopen : (st.pack P).closed = false) (hs : s ≠ mk_cl_Cnil)
    (hz : (mkcl_find_symbol_nolock st (mkcl_symbol_name st s) P).2 = .zero) :
    mkcl_export2 h st s (.package P)
      = ⟨st, [.not_accessible s P],
          if h (.not_accessible s P) then .fatal (.export_other_symbol s P)
          else .declined (.not_accessible s P)⟩ := by
  have hx : (mkcl_find_symbol_nolock st (mkcl_symbol_name st s) P).1 ≠ s := by
    rw [find_symbol_zero_nil st _ P hz]
    exact fun e => hs e.symm
  unfold mkcl_export2
  simp only [mk_si_coerce_to_package, mkcl_find_package_nolock, closed_eq_false st P hopen,
    false_and, if_false, hz, true_and, if_true, List.nil_append]
  by_cases hh : h (.not_accessible s P) = true
  · simp [hh, hx]
  · simp [hh]

/-- The other two cases of export: when the name of `s` resolves in the open package `P`
to a symbol other than `s` the call fails fatally in the unchanged state, and when `s`
is already external in `P` the call returns in the unchanged state. -/
theorem export2_other_or_external (h : Handler) (st : State) (P s : Nat)
    (hopen : (st.pack P).closed = false) :
    ((mkcl_find_symbol_nolock st (mkcl_symbol_name st s) P).2 ≠ .zero →
      (mkcl_find_symbol_nolock st (mkcl_symbol_name st s) P).1 ≠ s →
      mkcl_export2 h st s (.package P) = ⟨st, [], .fatal (.export_other_symbol s P)⟩) ∧
    (mkcl_find_symbol_nolock st (mkcl_symbol_name st s) P = (s, .external) →
      mkcl_export2 h st s (.package P) = ⟨st, [], .ret ()⟩) := by
  constructor
  · intro hf hx
    unfold mkcl_export2
    simp only [mk_si_coerce_to_package, mkcl_find_package_nolock, closed_eq_false st P hopen,
      false_and, if_false, hf]
    simp [hx]
  · intro hf
    unfold mkcl_export2
    simp only [mk_si_coerce_to_package, mkcl_find_package_nolock, closed_eq_false st P hopen,
      false_and, if_false, hf]
    simp

/-- C24, failing input: `(export 'a "FOO")` in `homeless_state`, where `FOO` (2) is open
and the name of the symbol `A` (2) does not resolve in it.  The not-accessible error is
signalled and continued by the default recovery; the call then fails with the fatal
error of a different symbol of the same name, nothing has been imported, and the name
still does not resolve in `FOO`. -/
theorem export_recovery_does_not_import :
    (homeless_state.pack 2).closed = false ∧
    mkcl_symbol_name homeless_state 2 = "A" ∧
    mkcl_find_symbol_nolock homeless_state "A" 2 = (mk_cl_Cnil, .zero) ∧
    (mkcl_export2 default_handler homeless_state 2 (.package 2)).signals
      = [.not_accessible 2 2] ∧
    default_handler (.not_accessible 2 2) = true ∧
    (mkcl_export2 default_handler homeless_state 2 (.package 2)).exit
      = .fatal (.export_other_symbol 2 2) ∧
    (mkcl_export2 default_handler homeless_state 2 (.package 2)).state = homeless_state ∧
    mkcl_find_symbol_nolock
        (mkcl_export2 default_handler homeless_state 2 (.package 2)).state "A" 2
      = (mk_cl_Cnil, .zero) := by
  refine ⟨by decide!, by decide!, by decide!, by decide!, by decide!, by decide!, ?_,
    by decide!⟩
  exact export2_state_of_not_ret _ _ _ _ (by decide!)

/-! ## Making a package whose name is taken -/

theorem find_package_scan_congr (st st' : State) (name : String) (l : List Nat)
    (hsame : ∀ q ∈ l, (st'.pack q).name = (st.pack q).name
      ∧ (st'.pack q).nicknames = (st.pack q).nicknames) :
    find_package_scan st' name l = find_package_scan st name l := by
  induction l with
  | nil => rfl
  | cons p l ih =>
    unfold find_package_scan
    rw [(hsame p (by simp)).1, (hsame p (by simp)).2,
      ih (fun q hq => hsame q (by simp [hq]))]

theorem alloc_find_package (st : State) (name k : String)
    (halloc : ∀ p ∈ st.packages, p < st.pack_count) :
    mkcl_find_package_nolock (_mkcl_alloc_sized_package st name).1 (.string k)
      = mkcl_find_package_nolock st (.string k) := by
  show find_package_scan _ k st.packages = find_package_scan st k st.packages
  refine find_package_scan_congr st _ k st.packages ?_
  intro q hq
  have hne : q ≠ st.pack_count := Nat.ne_of_lt (halloc q hq)
  simp [_mkcl_alloc_sized_package, Function.update, hne]

theorem nicknames_scan_error (st : State) (l : List String) :
    ∀ good nick other, nicknames_scan st l good = .error (nick, other) →
      nick ∈ l ∧ mkcl_find_package_nolock st (.string nick) = some other := by
  induction l with
  | nil => intro good nick other hr; simp [nicknames_scan] at hr
  | cons k l ih =>
    intro good nick other hr
    unfold nicknames_scan at hr
    split at hr
    · rename_i o ho
      simp only [Except.error.injEq, Prod.mk.injEq] at hr
      obtain ⟨e1, e2⟩ := hr
      subst e1 e2
      exact ⟨by simp, ho⟩
    · obtain ⟨h1, h2⟩ := ih _ _ _ hr
      exact ⟨by simp [h1], h2⟩

theorem nicknames_scan_ok_all (st : State) (l : List String) :
    ∀ good res, nicknames_scan st l good = .ok res →
      ∀ k ∈ l, mkcl_find_package_nolock st (.string k) = none := by
  induction l with
  | nil => intro good res _ k hk; cases hk
  | cons n l ih =>
    intro good res hr k hk
    unfold nicknames_scan at hr
    split at hr
    · cases hr
    · rename_i hnone
      rcases List.mem_cons.1 hk with e | e
      · rw [e]; exact hnone
      · exact ih _ _ hr k e

/-- C25: when no waiting entry matches, the sizes are in range, and the name or one of
the nicknames is the name or a nickname of a package of the package list,
`mkcl_make_sized_package` signals the continuable already-exists error for one of the
requested names `k` and the package `other` that `k` designates; continuing returns
`other`.  The package list and the waiting list are unchanged and so is every package
record other than the one at the next free reference: no package is registered and no
use edge is added. -/
theorem make_package_already_exists (h : Handler) (st : State) (name : String)
    (nicknames : List String) (use_list : List Designator) (es is : Int)
    (hpend : pending_scan name nicknames st.packages_to_be_created = none)
    (hsize : 0 ≤ es ∧ es ≤ st.atotlim ∧ 0 ≤ is ∧ is ≤ st.atotlim)
    (halloc : ∀ p ∈ st.packages, p < st.pack_count)
    (hcoll : ∃ k, (k = name ∨ k ∈ nicknames) ∧ ∃ q ∈ st.packages,
      (st.pack q).name = some k ∨ k ∈ (st.pack q).nicknames) :
    ∃ k other, (k = name ∨ k ∈ nicknames) ∧ other ∈ st.packages ∧
      mkcl_find_package_nolock st (.string k) = some other ∧
      (mkcl_make_sized_package h st name nicknames use_list es is).signals
        = [.already_exists k other] ∧
      (mkcl_make_sized_package h st name nicknames use_list es is).exit
        = (if h (.already_exists k other) then .ret other
            else .declined (.already_exists k other)) ∧
      (mkcl_make_sized_package h st name nicknames use_list es is).state.packages
        = st.packages ∧
      (mkcl_make_sized_package h st name nicknames use_list es is).state.packages_to_be_created
        = st.packages_to_be_created ∧
      ∀ q, q ≠ st.pack_count →
        (mkcl_make_sized_package h st name nicknames use_list es is).state.pack q
          = st.pack q := by
  have hrange : ¬ (es < 0 ∨ st.atotlim < es ∨ is < 0 ∨ st.atotlim < is) := by
    obtain ⟨h1, h2, h3, h4⟩ := hsize
    simp only [not_or, not_lt]
    exact ⟨h1, h2, h3, h4⟩
  unfold mkcl_make_sized_package
  rw [hpend]
  dsimp only
  cases hfind : mkcl_find_package_nolock st (.string name) with
  | some other =>
    exact ⟨name, other, Or.inl rfl, find_package_scan_mem st name _ other hfind, hfind, rfl,
      rfl, rfl, rfl, fun _ _ => rfl⟩
  | none =>
    dsimp only
    rw [if_neg hrange]
    unfold make_package_intern
    cases hscan : nicknames_scan (_mkcl_alloc_sized_package st name).1 nicknames [] with
    | error r =>
      obtain ⟨nick, other⟩ := r
      obtain ⟨h1, h2⟩ := nicknames_scan_error _ _ _ _ _ hscan
      rw [alloc_find_package st name nick halloc] at h2
      refine ⟨nick, other, Or.inr h1, find_package_scan_mem st nick _ other h2, h2, rfl, rfl,
        rfl, rfl, ?_⟩
      intro q hq
      simp [_mkcl_alloc_sized_package, Function.update, hq]
    | ok good =>
      exfalso
      obtain ⟨k, hk, q, hq, hown⟩ := hcoll
      have hk2 : mkcl_find_package_nolock st (.string k) = none := by
        rcases hk with e | e
        · rw [e]; exact hfind
        · rw [← alloc_find_package st name k halloc]
          exact nicknames_scan_ok_all _ _ _ _ hscan k e
      exact find_package_scan_none st k st.packages hk2 q hq ((mem_names _ _).2 hown)

/-- Witness for `make_package_already_exists`: `(make-package "BAR" :nicknames '("LISP"))`
in `foo_state` collides with the package `LISP` (0) on the nickname. -/
theorem make_package_already_exists_witness :
    pending_scan "BAR" ["LISP"] foo_state.packages_to_be_created = none ∧
    (foo_state.pack 0).name = some "LISP" ∧
    ∃ k other, (k = "BAR" ∨ k ∈ ["LISP"]) ∧ other ∈ foo_state.packages ∧
      mkcl_find_package_nolock foo_state (.string k) = some other ∧
      (mkcl_make_sized_package default_handler foo_state "BAR" ["LISP"] [.string "LISP"]
        129 129).signals = [.already_exists k other] ∧
      (mkcl_make_sized_package default_handler foo_state "BAR" ["LISP"] [.string "LISP"]
        129 129).exit
        = (if default_handler (.already_exists k other) then .ret other
            else .declined (.already_exists k other)) ∧
      (mkcl_make_sized_package default_handler foo_state "BAR" ["LISP"] [.string "LISP"]
        129 129).state.packages = foo_state.packages ∧
      (mkcl_make_sized_package default_handler foo_state "BAR" ["LISP"] [.string "LISP"]
        129 129).state.packages_to_be_created = foo_state.packages_to_be_created ∧
      ∀ q, q ≠ foo_state.pack_count →
        (mkcl_make_sized_package default_handler foo_state "BAR" ["LISP"] [.string "LISP"]
          129 129).state.pack q = foo_state.pack q :=
  ⟨by decide!, by decide!,
    make_package_already_exists default_handler foo_state "BAR" ["LISP"] [.string "LISP"]
      129 129 (by decide!) (by decide!) (by decide!)
      ⟨"LISP", Or.inr (by simp), 0, by decide!, Or.inl (by decide!)⟩⟩

/-! ## Adopting a waiting package -/

/-- C26, failing input: `(make-package "FOO" :nicknames '("F"))` in `pending_state`,
where the stand-in package 2 waits under the name `F`.  The entry matches the requested
nickname, the stand-in is adopted and returned without any error; it is registered with
the nickname `F` but its name is still `F`, not `FOO`, and `FOO` designates no
package. -/
theorem make_package_adopted_name :
    pending_state.packages_to_be_created = [("F", 2)] ∧
    (pending_state.pack 2).name = some "F" ∧
    2 ∉ pending_state.packages ∧
    (mkcl_make_package default_handler pending_state "FOO" ["F"] []).exit = .ret 2 ∧
    (mkcl_make_package default_handler pending_state "FOO" ["F"] []).signals = [] ∧
    (mkcl_make_package default_handler pending_state "FOO" ["F"] []).state.packages
      = [2, 1, 0] ∧
    (mkcl_make_package default_handler pending_state "FOO" ["F"]
        []).state.packages_to_be_created = [] ∧
    ((mkcl_make_package default_handler pending_state "FOO" ["F"] []).state.pack 2).name
      = some "F" ∧
    ((mkcl_make_package default_handler pending_state "FOO" ["F"] []).state.pack
        2).nicknames = ["F"] ∧
    mkcl_find_package_nolock
        (mkcl_make_package default_handler pending_state "FOO" ["F"] []).state
        (.string "FOO") = none ∧
    mkcl_find_package_nolock
        (mkcl_make_package default_handler pending_state "FOO" ["F"] []).state
        (.string "F") = some 2 := by
  decide!

/-! ## Renaming a package -/

theorem rename_nicknames_loop_frame (x : Nat) (l : List String) :
    ∀ st : State, ((rename_nicknames_loop x st l).pack x).name = (st.pack x).name
      ∧ (∀ Q, Q ≠ x → (rename_nicknames_loop x st l).pack Q = st.pack Q)
      ∧ (rename_nicknames_loop x st l).packages = st.packages := by
  induction l with
  | nil => intro st; exact ⟨rfl, fun _ _ => rfl, rfl⟩
  | cons nick l ih =>
    intro st
    unfold rename_nicknames_loop
    split
    · obtain ⟨h1, h2, h3⟩ :=
        ih (st.set_pack x { st.pack x with nicknames := nick :: (st.pack x).nicknames })
      refine ⟨h1.trans (by simp), fun Q hQ => (h2 Q hQ).trans (by simp [hQ]),
        h3.trans (by simp)⟩
    · exact ih st

theorem rename_package_taken (h : Handler) (st : State) (P y : Nat) (m : String)
    (nicknames : List String) (hopen : (st.pack P).closed = false)
    (hfind : mkcl_find_package_nolock st (.string m) = some y) (hy : y ≠ P) :
    mkcl_rename_package h st (.package P) m nicknames
      = ⟨st, [], .fatal (.rename_exists m)⟩ := by
  have hfind2 : find_package_scan st m st.packages = some y := hfind
  unfold mkcl_rename_package
  simp only [mk_si_coerce_to_package, mkcl_find_package_nolock, closed_eq_false st P hopen,
    false_and, if_false, hfind2]
  simp [hy]

theorem rename_package_free (h : Handler) (st : State) (P : Nat) (m : String)
    (nicknames : List String) (hopen : (st.pack P).closed = false)
    (hfind : mkcl_find_package_nolock st (.string m) = none
      ∨ mkcl_find_package_nolock st (.string m) = some P) :
    mkcl_rename_package h st (.package P) m nicknames
      = ⟨rename_nicknames_loop P
          (st.set_pack P { st.pack P with name := some m, nicknames := [] }) nicknames,
        [], .ret P⟩ := by
  unfold mkcl_rename_package
  simp only [mk_si_coerce_to_package, mkcl_find_package_nolock, closed_eq_false st P hopen,
    false_and, if_false]
  rcases hfind with e | e
  · have e2 : find_package_scan st m st.packages = none := e
    simp [e2]
  · have e2 : find_package_scan st m st.packages = some P := e
    simp [e2]

/-- Where two packages of the list share a name, the collision test of
`mkcl_rename_package` sees the first owner only.  In `nickname_collision_state` the
names are not unique: `LISP` is a nickname of `FOO` (2) and the name of package 0.
Renaming `FOO` to `LISP` finds `FOO` itself, the first owner in the list, so the call
returns `FOO` without any error and `FOO` is named `LISP`, as package 0 still is. -/
theorem rename_package_shared_name :
    ¬ unique_names nickname_collision_state ∧
    (nickname_collision_state.pack 2).closed = false ∧
    nickname_collision_state.packages = [2, 1, 0] ∧
    (nickname_collision_state.pack 0).name = some "LISP" ∧
    mkcl_find_package_nolock nickname_collision_state (.string "LISP") = some 2 ∧
    (mkcl_rename_package default_handler nickname_collision_state (.package 2) "LISP"
      []).exit = .ret 2 ∧
    (mkcl_rename_package default_handler nickname_collision_state (.package 2) "LISP"
      []).signals = [] ∧
    ((mkcl_rename_package default_handler nickname_collision_state (.package 2) "LISP"
      []).state.pack 2).name = some "LISP" ∧
    ((mkcl_rename_package default_handler nickname_collision_state (.package 2) "LISP"
      []).state.pack 0).name = some "LISP" := by
  decide!

/-- C28: for an open package `P` and a new name `m`.  When the names of the package
list are unique (invariant I5) and `P` is in the list: if a package of the list other
than `P` has `m` as its name or as one of its nicknames, `mkcl_rename_package` fails and
the state, so the name and nicknames of `P` and the package list, is unchanged.  If `m`
designates no package or `P` itself, the call returns `P` without signalling, `P` is
named `m`, and the package list and the other packages are unchanged.  One of the two
cases always applies; and the call also fails in the unchanged state whenever `m`
designates, by `mkcl_find_package_nolock`, a package other than `P`. -/
theorem rename_package_name (h : Handler) (st : State) (P : Nat) (m : String)
    (nicknames : List String) (hopen : (st.pack P).closed = false) :
    (unique_names st → P ∈ st.packages →
      (∃ q ∈ st.packages, q ≠ P ∧ ((st.pack q).name = some m ∨ m ∈ (st.pack q).nicknames)) →
      mkcl_rename_package h st (.package P) m nicknames
        = ⟨st, [], .fatal (.rename_exists m)⟩) ∧
    ((mkcl_find_package_nolock st (.string m) = none
        ∨ mkcl_find_package_nolock st (.string m) = some P) →
      (mkcl_rename_package h st (.package P) m nicknames).exit = .ret P ∧
      (mkcl_rename_package h st (.package P) m nicknames).signals = [] ∧
      ((mkcl_rename_package h st (.package P) m nicknames).state.pack P).name = some m ∧
      (mkcl_rename_package h st (.package P) m nicknames).state.packages = st.packages ∧
      ∀ Q, Q ≠ P →
        (mkcl_rename_package h st (.package P) m nicknames).state.pack Q = st.pack Q) ∧
    ((∃ q ∈ st.packages, q ≠ P ∧ ((st.pack q).name = some m ∨ m ∈ (st.pack q).nicknames))
      ∨ mkcl_find_package_nolock st (.string m) = none
      ∨ mkcl_find_package_nolock st (.string m) = some P) ∧
    (∀ y, mkcl_find_package_nolock st (.string m) = some y → y ≠ P →
      mkcl_rename_package h st (.package P) m nicknames
        = ⟨st, [], .fatal (.rename_exists m)⟩) := by
  refine ⟨fun hu hP hq => ?_, fun hfind => ?_, ?_,
    fun y hy hne => rename_package_taken h st P y m nicknames hopen hy hne⟩
  · obtain ⟨q, hq1, hqP, hown⟩ := hq
    cases hfind : mkcl_find_package_nolock st (.string m) with
    | none =>
      exact absurd ((mem_names _ _).2 hown)
        (find_package_scan_none st m st.packages hfind q hq1)
    | some y =>
      refine rename_package_taken h st P y m nicknames hopen hfind ?_
      intro hyP
      subst hyP
      obtain ⟨l1, l2, _, hp, _⟩ := find_package_scan_some st m st.packages y hfind
      exact hu q hq1 y hP hqP m ((mem_names _ _).2 hown) hp
  · rw [rename_package_free h st P m nicknames hopen hfind]
    obtain ⟨h1, h2, h3⟩ := rename_nicknames_loop_frame P nicknames
      (st.set_pack P { st.pack P with name := some m, nicknames := [] })
    refine ⟨rfl, rfl, h1.trans (by simp), h3.trans (by simp), fun Q hQ => ?_⟩
    exact (h2 Q hQ).trans (by simp [hQ])
  · cases hfind : mkcl_find_package_nolock st (.string m) with
    | none => exact Or.inr (Or.inl rfl)
    | some y =>
      by_cases hyP : y = P
      · exact Or.inr (Or.inr (by rw [hyP]))
      · obtain ⟨l1, l2, hl, hp, _⟩ := find_package_scan_some st m st.packages y hfind
        refine Or.inl ⟨y, ?_, hyP, (mem_names _ _).1 hp⟩
        rw [hl]
        simp

/-- Witness for `rename_package_name`: `foo_state` has unique names; its open package
`FOO` (2) cannot be renamed to `LISP`, the name of package 0, and can be renamed to
`BAR`, which designates no package. -/
theorem rename_package_name_witness :
    (foo_state.pack 2).closed = false ∧
    unique_names foo_state ∧
    2 ∈ foo_state.packages ∧
    (foo_state.pack 0).name = some "LISP" ∧
    mkcl_rename_package default_handler foo_state (.package 2) "LISP" []
      = ⟨foo_state, [], .fatal (.rename_exists "LISP")⟩ ∧
    mkcl_find_package_nolock foo_state (.string "BAR") = none ∧
    ((mkcl_rename_package default_handler foo_state (.package 2) "BAR" []).state.pack
      2).name = some "BAR" :=
  ⟨by decide!, by decide!, by decide!, by decide!,
    (rename_package_name default_handler foo_state 2 "LISP" [] (by decide!)).1
      (by decide!) (by decide!) ⟨0, by decide!, by decide!, Or.inl (by decide!)⟩,
    by decide!,
    ((rename_package_name default_handler foo_state 2 "BAR" [] (by decide!)).2.1
      (Or.inl (by decide!))).2.2.1⟩

/-- C29, failing input: `(rename-package "LISP" "LISP" '("FOO" "FOO"))` in `foo_state`,
where `FOO` is the name of the live package 2, which precedes `LISP` (0) in the package
list.  The call returns `LISP` without any error; both elements resolve to package 2,
not back to `LISP`, when they are processed, so both are attached and the nickname list
of `LISP` holds `FOO` twice. -/
theorem rename_package_repeated_nickname :
    (foo_state.pack 0).closed = false ∧
    foo_state.packages = [2, 1, 0] ∧
    (foo_state.pack 2).name = some "FOO" ∧
    (mkcl_rename_package default_handler foo_state (.package 0) "LISP"
      ["FOO", "FOO"]).exit = .ret 0 ∧
    (mkcl_rename_package default_handler foo_state (.package 0) "LISP"
      ["FOO", "FOO"]).signals = [] ∧
    ((mkcl_rename_package default_handler foo_state (.package 0) "LISP"
      ["FOO", "FOO"]).state.pack 0).nicknames = ["FOO", "FOO"] ∧
    ¬ ((mkcl_rename_package default_handler foo_state (.package 0) "LISP"
      ["FOO", "FOO"]).state.pack 0).nicknames.Nodup := by
  decide!

theorem rename_find_own (st : State) (P : Nat) (k : String) (hP : P ∈ st.packages)
    (hothers : ∀ q ∈ st.packages, q ≠ P → k ∉ (st.pack q).names) :
    mkcl_find_package_nolock st (.string k) ≠ some P ↔ k ∉ (st.pack P).names := by
  constructor
  · intro hne hk
    apply hne
    obtain ⟨l1, l2, e⟩ := List.append_of_mem hP
    by_cases hfirst : ∀ q ∈ l1, k ∉ (st.pack q).names
    · show find_package_scan st k st.packages = some P
      rw [e]
      exact find_package_scan_first st k l1 l2 P hk hfirst
    · exfalso
      simp only [not_forall, not_not] at hfirst
      obtain ⟨q, hq, hkq⟩ := hfirst
      by_cases hqP : q = P
      · cases hfind : find_package_scan st k st.packages with
        | none =>
          exact find_package_scan_none st k st.packages hfind P hP hk
        | some y =>
          obtain ⟨m1, m2, _, hy, _⟩ := find_package_scan_some st k st.packages y hfind
          by_cases hyP : y = P
          · exact hne (by rw [← hyP]; exact hfind)
          · exact hothers y (find_package_scan_mem st k _ y hfind) hyP hy
      · exact hothers q (by rw [e]; simp [hq]) hqP hkq
  · intro hk hfind
    obtain ⟨_, _, _, hp, _⟩ := find_package_scan_some st k st.packages P hfind
    exact hk hp

theorem rename_nicknames_loop_nodup (P : Nat) (m : String) (l : List String) :
    ∀ st : State, P ∈ st.packages → (st.pack P).name = some m →
      (∀ k ∈ l, ∀ q ∈ st.packages, q ≠ P → k ∉ (st.pack q).names) →
      (st.pack P).nicknames.Nodup → m ∉ (st.pack P).nicknames →
      ((rename_nicknames_loop P st l).pack P).nicknames.Nodup
        ∧ m ∉ ((rename_nicknames_loop P st l).pack P).nicknames
        ∧ (∀ k ∈ l, k ≠ m → k ∈ ((rename_nicknames_loop P st l).pack P).nicknames)
        ∧ (∀ k ∈ (st.pack P).nicknames,
            k ∈ ((rename_nicknames_loop P st l).pack P).nicknames)
        ∧ (∀ k ∈ ((rename_nicknames_loop P st l).pack P).nicknames,
            k ∈ (st.pack P).nicknames ∨ k ∈ l) := by
  induction l with
  | nil =>
    intro st _ _ _ hnd hm
    exact ⟨hnd, hm, fun _ hk => absurd hk (by simp), fun _ hk => hk, fun _ hk => Or.inl hk⟩
  | cons nick l ih =>
    intro st hP hname hothers hnd hm
    have hown := rename_find_own st P nick hP (hothers nick (by simp))
    rw [mem_names, hname, not_or] at hown
    unfold rename_nicknames_loop
    split
    · rename_i hne
      obtain ⟨hnm, hnn⟩ := hown.1 hne
      have hnm2 : nick ≠ m := fun e => hnm (by rw [e])
      obtain ⟨h1, h2, h3, h4, h5⟩ :=
        ih (st.set_pack P { st.pack P with nicknames := nick :: (st.pack P).nicknames })
          (by simpa using hP) (by simpa using hname)
          (fun k hk q hq hqP => by
            have := hothers k (by simp [hk]) q (by simpa using hq) hqP
            simpa [hqP] using this)
          (by simpa using List.nodup_cons.2 ⟨hnn, hnd⟩)
          (by simpa using ⟨fun c : m = nick => hnm2 c.symm, hm⟩)
      refine ⟨h1, h2, ?_, ?_, ?_⟩
      · intro k hk hkm
        rcases List.mem_cons.1 hk with e | e
        · exact h4 k (by simp [e])
        · exact h3 k e hkm
      · intro k hk
        exact h4 k (by simp [hk])
      · intro k hk
        rcases h5 k hk with e | e
        · simp only [set_pack_pack, if_true, List.mem_cons] at e
          rcases e with e | e
          · exact Or.inr (by simp [e])
          · exact Or.inl e
        · exact Or.inr (by simp [e])
    · rename_i hne
      have hres : nick = m ∨ nick ∈ (st.pack P).nicknames := by
        by_contra hc
        rw [not_or] at hc
        exact hne (hown.2 ⟨fun e => hc.1 (by simpa using e.symm), hc.2⟩)
      obtain ⟨h1, h2, h3, h4, h5⟩ :=
        ih st hP hname (fun k hk => hothers k (by simp [hk])) hnd hm
      refine ⟨h1, h2, ?_, h4, ?_⟩
      · intro k hk hkm
        rcases List.mem_cons.1 hk with e | e
        · rcases hres with r | r
          · exact absurd (e.trans r) hkm
          · exact h4 k (by rw [e]; exact r)
        · exact h3 k e hkm
      · intro k hk
        rcases h5 k hk with e | e
        · exact Or.inl e
        · exact Or.inr (by simp [e])

/-- Nicknames after a rename when no requested nickname is owned by another package:
for an open package `P` of the package list and a new name that designates no package
or `P`, if no element of `nicknames` is the name or a nickname of another package of the
list, the new nickname list of `P` has no duplicates, does not contain the new name, and
consists of the other elements of `nicknames`. -/
theorem rename_package_nicknames (h : Handler) (st : State) (P : Nat) (m : String)
    (nicknames : List String) (hopen : (st.pack P).closed = false) (hP : P ∈ st.packages)
    (hfind : mkcl_find_package_nolock st (.string m) = none
      ∨ mkcl_find_package_nolock st (.string m) = some P)
    (hothers : ∀ k ∈ nicknames, ∀ q ∈ st.packages, q ≠ P → k ∉ (st.pack q).names) :
    ((mkcl_rename_package h st (.package P) m nicknames).state.pack P).nicknames.Nodup ∧
    m ∉ ((mkcl_rename_package h st (.package P) m nicknames).state.pack P).nicknames ∧
    (∀ k ∈ nicknames, k ≠ m →
      k ∈ ((mkcl_rename_package h st (.package P) m nicknames).state.pack P).nicknames) ∧
    (∀ k ∈ ((mkcl_rename_package h st (.package P) m nicknames).state.pack P).nicknames,
      k ∈ nicknames) := by
  rw [rename_package_free h st P m nicknames hopen hfind]
  obtain ⟨h1, h2, h3, _, h5⟩ := rename_nicknames_loop_nodup P m nicknames
    (st.set_pack P { st.pack P with name := some m, nicknames := [] })
    (by simpa using hP) (by simp)
    (fun k hk q hq hqP => by
      have := hothers k hk q (by simpa using hq) hqP
      simpa [hqP] using this)
    (by simp) (by simp)
  refine ⟨h1, h2, h3, fun k hk => ?_⟩
  rcases h5 k hk with e | e
  · simp at e
  · exact e

/-! ## Deleting a package -/

theorem unuse_default (st : State) (x p : Nat) (hne : x ≠ p) :
    mkcl_unuse_package default_handler st (.package x) (.package p)
      = ⟨(st.set_pack p
            { st.pack p with uses := mkcl_remove_eq x (st.pack p).uses }).set_pack x
          { (st.set_pack p { st.pack p with uses := mkcl_remove_eq x (st.pack p).uses }).pack x
            with usedby := mkcl_remove_eq p ((st.set_pack p
              { st.pack p with uses := mkcl_remove_eq x (st.pack p).uses }).pack x).usedby },
        if (st.pack p).closed then [.closed_package p] else [], .ret ()⟩ := by
  unfold mkcl_unuse_package
  simp [mk_si_coerce_to_package, mkcl_find_package_nolock, default_handler, hne]

theorem unuse_default_exit (st : State) (x p : Nat) (hne : x ≠ p) :
    (mkcl_unuse_package default_handler st (.package x) (.package p)).exit = .ret () := by
  rw [unuse_default st x p hne]

theorem unuse_default_uses (st : State) (x p P Q : Nat) (hne : x ≠ p) :
    P ∈ ((mkcl_unuse_package default_handler st (.package x) (.package p)).state.pack Q).uses
      ↔ P ∈ (st.pack Q).uses ∧ ¬ (Q = p ∧ P = x) := by
  rw [unuse_default st x p hne]
  exact remove_edge_uses st x p P Q

theorem unuse_default_usedby (st : State) (x p P Q : Nat) (hne : x ≠ p) :
    Q ∈ ((mkcl_unuse_package default_handler st (.package x) (.package p)).state.pack
        P).usedby
      ↔ Q ∈ (st.pack P).usedby ∧ ¬ (Q = p ∧ P = x) := by
  rw [unuse_default st x p hne]
  exact remove_edge_usedby st x p P Q

theorem unuse_default_frame (st : State) (x p : Nat) (hne : x ≠ p) :
    (mkcl_unuse_package default_handler st (.package x) (.package p)).state.packages
        = st.packages
      ∧ ∀ Q,
        ((mkcl_unuse_package default_handler st (.package x) (.package p)).state.pack Q).name
            = (st.pack Q).name
          ∧ ((mkcl_unuse_package default_handler st (.package x)
              (.package p)).state.pack Q).nicknames = (st.pack Q).nicknames := by
  rw [unuse_default st x p hne]
  refine ⟨rfl, fun Q => ?_⟩
  by_cases h1 : Q = x <;> by_cases h2 : Q = p <;> simp_all

theorem andThen_ret {α β : Type} (o : Outcome α) (k : State → α → Outcome β) (a : α)
    (ho : o.exit = .ret a) :
    o.andThen k = ⟨(k o.state a).state, o.signals ++ (k o.state a).signals,
      (k o.state a).exit⟩ := by
  unfold Outcome.andThen
  rw [ho]

theorem delete_unuse_loop_default (p : Nat) (l : List Nat) (hp : p ∉ l) :
    ∀ st : State,
      (delete_unuse_loop default_handler p st l).exit = .ret ()
      ∧ (∀ P Q, P ∈ ((delete_unuse_loop default_handler p st l).state.pack Q).uses
          ↔ P ∈ (st.pack Q).uses ∧ ¬ (Q = p ∧ P ∈ l))
      ∧ (∀ P Q, Q ∈ ((delete_unuse_loop default_handler p st l).state.pack P).usedby
          ↔ Q ∈ (st.pack P).usedby ∧ ¬ (Q = p ∧ P ∈ l))
      ∧ (delete_unuse_loop default_handler p st l).state.packages = st.packages
      ∧ ∀ Q, ((delete_unuse_loop default_handler p st l).state.pack Q).name
            = (st.pack Q).name
          ∧ ((delete_unuse_loop default_handler p st l).state.pack Q).nicknames
            = (st.pack Q).nicknames := by
  induction l with
  | nil =>
    intro st
    exact ⟨rfl, fun P Q => by simp [delete_unuse_loop],
      fun P Q => by simp [delete_unuse_loop], rfl, fun _ => ⟨rfl, rfl⟩⟩
  | cons y l ih =>
    intro st
    have hyp : y ≠ p := fun c => hp (c ▸ List.mem_cons_self _ _)
    unfold delete_unuse_loop
    rw [andThen_ret _ _ () (unuse_default_exit st y p hyp)]
    obtain ⟨h1, h2, h3, h4, h5⟩ :=
      ih (fun c => hp (List.mem_cons_of_mem _ c))
        (mkcl_unuse_package default_handler st (.package y) (.package p)).state
    obtain ⟨f1, f2⟩ := unuse_default_frame st y p hyp
    refine ⟨h1, fun P Q => ?_, fun P Q => ?_, h4.trans f1, fun Q => ?_⟩
    · rw [h2, unuse_default_uses _ _ _ _ _ hyp]
      simp only [List.mem_cons]
      tauto
    · rw [h3, unuse_default_usedby _ _ _ _ _ hyp]
      simp only [List.mem_cons]
      tauto
    · exact ⟨(h5 Q).1.trans (f2 Q).1, (h5 Q).2.trans (f2 Q).2⟩

theorem delete_unused_loop_default (p : Nat) (l : List Nat) (hp : p ∉ l) :
    ∀ st : State,
      (delete_unused_loop default_handler p st l).exit = .ret ()
      ∧ (∀ P Q, P ∈ ((delete_unused_loop default_handler p st l).state.pack Q).uses
          ↔ P ∈ (st.pack Q).uses ∧ ¬ (Q ∈ l ∧ P = p))
      ∧ (∀ P Q, Q ∈ ((delete_unused_loop default_handler p st l).state.pack P).usedby
          ↔ Q ∈ (st.pack P).usedby ∧ ¬ (Q ∈ l ∧ P = p))
      ∧ (delete_unused_loop default_handler p st l).state.packages = st.packages
      ∧ ∀ Q, ((delete_unused_loop default_handler p st l).state.pack Q).name
            = (st.pack Q).name
          ∧ ((delete_unused_loop default_handler p st l).state.pack Q).nicknames
            = (st.pack Q).nicknames := by
  induction l with
  | nil =>
    intro st
    exact ⟨rfl, fun P Q => by simp [delete_unused_loop],
      fun P Q => by simp [delete_unused_loop], rfl, fun _ => ⟨rfl, rfl⟩⟩
  | cons y l ih =>
    intro st
    have hyp : p ≠ y := fun c => hp (c ▸ List.mem_cons_self _ _)
    unfold delete_unused_loop
    rw [andThen_ret _ _ () (unuse_default_exit st p y hyp)]
    obtain ⟨h1, h2, h3, h4, h5⟩ :=
      ih (fun c => hp (List.mem_cons_of_mem _ c))
        (mkcl_unuse_package default_handler st (.package p) (.package y)).state
    obtain ⟨f1, f2⟩ := unuse_default_frame st p y hyp
    refine ⟨h1, fun P Q => ?_, fun P Q => ?_, h4.trans f1, fun Q => ?_⟩
    · rw [h2, unuse_default_uses _ _ _ _ _ hyp]
      simp only [List.mem_cons]
      tauto
    · rw [h3, unuse_default_usedby _ _ _ _ _ hyp]
      simp only [List.mem_cons]
      tauto
    · exact ⟨(h5 Q).1.trans (f2 Q).1, (h5 Q).2.trans (f2 Q).2⟩

theorem cerror_default (st : State) (c : CError) :
    cerror default_handler st c = ⟨st, [c], .ret ()⟩ := rfl

theorem andThen_mk_ret {α β : Type} (s : State) (sig : List CError) (e : Exit α) (a : α)
    (k : State → α → Outcome β) (he : e = .ret a) :
    (Outcome.mk s sig e).andThen k
      = ⟨(k s a).state, sig ++ (k s a).signals, (k s a).exit⟩ := by
  subst he
  rfl

theorem delete_package_default (st : State) (P : Nat)
    (hopen : (st.pack P).closed = false) (hl : P ≠ st.lisp_package)
    (hk : P ≠ st.keyword_package) (hname : (st.pack P).name ≠ none)
    (hself : P ∉ (st.pack P).uses) (hself2 : P ∉ (st.pack P).usedby) :
    (mk_cl_delete_package default_handler st (.package P)).exit = .ret true ∧
    (mk_cl_delete_package default_handler st (.package P)).state
      = (({ (delete_unused_loop default_handler P
              (delete_unuse_loop default_handler P st (st.pack P).uses).state
              ((delete_unuse_loop default_handler P st (st.pack P).uses).state.pack
                P).usedby).state with
            packages := mkcl_remove_eq P
              (delete_unused_loop default_handler P
                (delete_unuse_loop default_handler P st (st.pack P).uses).state
                ((delete_unuse_loop default_handler P st (st.pack P).uses).state.pack
                  P).usedby).state.packages } : State).set_pack P
          { (delete_unused_loop default_handler P
              (delete_unuse_loop default_handler P st (st.pack P).uses).state
              ((delete_unuse_loop default_handler P st (st.pack P).uses).state.pack
                P).usedby).state.pack P with name := none }) := by
  have hlk : ¬ (P = st.lisp_package ∨ P = st.keyword_package) := fun c => c.elim hl hk
  have hself3 : P ∉ ((delete_unuse_loop default_handler P st (st.pack P).uses).state.pack
      P).usedby := fun c =>
    hself2 (((delete_unuse_loop_default P _ hself st).2.2.1 P P).1 c).1
  unfold mk_cl_delete_package
  simp only [mkcl_find_package_nolock, closed_eq_false st P hopen, if_false]
  rw [andThen_ret _ _ () rfl]
  simp only [if_neg hlk, if_neg hname]
  rw [andThen_ret _ _ () (delete_unuse_loop_default P _ hself st).1]
  by_cases hu : ((delete_unuse_loop default_handler P st (st.pack P).uses).state.pack
      P).usedby = []
  · simp only [hu, ne_eq, not_true_eq_false, if_false]
    rw [andThen_ret _ _ () rfl]
    simp [delete_unused_loop]
  · simp only [ne_eq, hu, not_false_eq_true, if_true, cerror_default]
    rw [andThen_mk_ret _ [_] _ () _ rfl]
    rw [andThen_mk_ret _ _ _ () _ (delete_unused_loop_default P _ hself3 _).1]
    exact ⟨rfl, rfl⟩

/-- For a package `P` of the package list with a name, open, neither the lisp nor the
keyword package and not using itself, in a state with mutual use edges and unique names,
`mk_cl_delete_package` with the default recoveries returns true, also when `P.usedby` is
not empty; afterwards `P` is not in the package list, its name is cleared, its use and
used-by lists are empty, no package has `P` in its use or used-by list, the other
packages of the list are still in it, and the former name of `P` designates no
package. -/
theorem delete_package_result (st : State) (P : Nat) (n : String)
    (hlive : P ∈ st.packages) (hname : (st.pack P).name = some n)
    (hopen : (st.pack P).closed = false) (hl : P ≠ st.lisp_package)
    (hk : P ≠ st.keyword_package) (hself : P ∉ (st.pack P).uses)
    (hm : mutual_use_edges st) (hu : unique_names st) :
    (mk_cl_delete_package default_handler st (.package P)).exit = .ret true ∧
    P ∉ (mk_cl_delete_package default_handler st (.package P)).state.packages ∧
    (∀ q ∈ st.packages, q ≠ P →
      q ∈ (mk_cl_delete_package default_handler st (.package P)).state.packages) ∧
    ((mk_cl_delete_package default_handler st (.package P)).state.pack P).name = none ∧
    ((mk_cl_delete_package default_handler st (.package P)).state.pack P).uses = [] ∧
    ((mk_cl_delete_package default_handler st (.package P)).state.pack P).usedby = [] ∧
    (∀ Q, P ∉ ((mk_cl_delete_package default_handler st (.package P)).state.pack Q).uses
      ∧ P ∉ ((mk_cl_delete_package default_handler st (.package P)).state.pack Q).usedby) ∧
    mkcl_find_package_nolock (mk_cl_delete_package default_handler st (.package P)).state
      (.string n) = none := by
  have hself2 : P ∉ (st.pack P).usedby := fun c => hself ((hm P P).2 c)
  obtain ⟨hexit, hD⟩ :=
    delete_package_default st P hopen hl hk (by rw [hname]; simp) hself hself2
  obtain ⟨_, a2, a3, a4, a5⟩ := delete_unuse_loop_default P (st.pack P).uses hself st
  have hself3 : P ∉ ((delete_unuse_loop default_handler P st (st.pack P).uses).state.pack
      P).usedby := fun c => hself2 ((a3 P P).1 c).1
  obtain ⟨_, b2, b3, b4, b5⟩ := delete_unused_loop_default P
    ((delete_unuse_loop default_handler P st (st.pack P).uses).state.pack P).usedby hself3
    (delete_unuse_loop default_handler P st (st.pack P).uses).state
  have hm2 := delete_unuse_loop_mutual default_handler P (st.pack P).uses st hm
  have huses : ∀ Q,
      ((mk_cl_delete_package default_handler st (.package P)).state.pack Q).uses
        = ((delete_unused_loop default_handler P
            (delete_unuse_loop default_handler P st (st.pack P).uses).state
            ((delete_unuse_loop default_handler P st (st.pack P).uses).state.pack
              P).usedby).state.pack Q).uses := by
    intro Q
    rw [hD]
    by_cases hQ : Q = P
    · subst hQ; simp
    · simp [hQ]
  have husedby : ∀ Q,
      ((mk_cl_delete_package default_handler st (.package P)).state.pack Q).usedby
        = ((delete_unused_loop default_handler P
            (delete_unuse_loop default_handler P st (st.pack P).uses).state
            ((delete_unuse_loop default_handler P st (st.pack P).uses).state.pack
              P).usedby).state.pack Q).usedby := by
    intro Q
    rw [hD]
    by_cases hQ : Q = P
    · subst hQ; simp
    · simp [hQ]
  have hnames : ∀ Q, Q ≠ P →
      ((mk_cl_delete_package default_handler st (.package P)).state.pack Q).names
        = (st.pack Q).names := by
    intro Q hQ
    rw [hD]
    simp only [set_pack_pack, if_neg hQ]
    exact names_of_eq _ _ (((b5 Q).1).trans (a5 Q).1) (((b5 Q).2).trans (a5 Q).2)
  have hpk : (mk_cl_delete_package default_handler st (.package P)).state.packages
      = mkcl_remove_eq P st.packages := by
    rw [hD]
    simp only [set_pack_packages]
    rw [b4, a4]
  have hnoU : ∀ Q,
      P ∉ ((mk_cl_delete_package default_handler st (.package P)).state.pack Q).uses := by
    intro Q hc
    rw [huses, b2] at hc
    obtain ⟨h1, h2⟩ := hc
    exact h2 ⟨(hm2 P Q).1 h1, rfl⟩
  have hnoB : ∀ Q,
      P ∉ ((mk_cl_delete_package default_handler st (.package P)).state.pack Q).usedby := by
    intro Q hc
    rw [husedby, b3, a3] at hc
    obtain ⟨⟨h1, h2⟩, _⟩ := hc
    exact h2 ⟨rfl, (hm Q P).2 h1⟩
  refine ⟨hexit, ?_, ?_, ?_, ?_, ?_, fun Q => ⟨hnoU Q, hnoB Q⟩, ?_⟩
  · rw [hpk, mem_remove_eq]
    exact fun c => c.2 rfl
  · intro q hq hqP
    rw [hpk, mem_remove_eq]
    exact ⟨hq, hqP⟩
  · rw [hD]
    simp
  · rw [List.eq_nil_iff_forall_not_mem]
    intro y hy
    rw [huses, b2, a2] at hy
    exact hy.1.2 ⟨rfl, hy.1.1⟩
  · rw [List.eq_nil_iff_forall_not_mem]
    intro y hy
    rw [husedby, b3] at hy
    exact hy.2 ⟨hy.1, rfl⟩
  · show find_package_scan _ n _ = none
    refine find_package_scan_of_none _ n _ ?_
    intro q hq
    rw [hpk, mem_remove_eq] at hq
    rw [hnames q hq.2]
    exact hu P hlive q hq.1 (fun e => hq.2 e.symm) n
      ((mem_names _ _).2 (Or.inl hname))

theorem boot_state_heap_closed : heap_closed boot_state := by
  refine ⟨fun Q r hr => ?_, fun Q r hr => ?_, by decide!, by decide!⟩
  · rw [(boot_state_edges Q).1] at hr
    cases hr
  · rw [(boot_state_edges Q).2] at hr
    cases hr

theorem baz_state_mutual : mutual_use_edges baz_state := by
  have hrun : baz_state = Call.run_all default_handler 1 boot_state
      [.make_package "FOO" [] [.string "LISP"] 129 129, .intern "BAR" (.package 2),
       .make_package "BAZ" [] [.string "FOO"] 129 129] := rfl
  rw [hrun]
  have hcalls : calls_allocated default_handler 1 boot_state
      [.make_package "FOO" [] [.string "LISP"] 129 129, .intern "BAR" (.package 2),
       .make_package "BAZ" [] [.string "FOO"] 129 129] := by
    refine ⟨?_, ?_, ?_, trivial⟩
    · intro d hd
      simp only [List.mem_singleton] at hd
      subst hd
      trivial
    · show 2 < _
      decide!
    · intro d hd
      simp only [List.mem_singleton] at hd
      subst hd
      trivial
  exact (mutual_use_edges_run_all default_handler 1 _ boot_state boot_state_mutual
    boot_state_heap_closed hcalls).1

/-- An instance of `delete_package_result`: in `baz_state` the package `FOO` (2) uses
`LISP` and is used by `BAZ` (3); deleting it succeeds. -/
theorem delete_package_result_witness :
    2 ∈ baz_state.packages ∧ (baz_state.pack 2).name = some "FOO" ∧
    (baz_state.pack 2).closed = false ∧ (baz_state.pack 2).usedby = [3] ∧
    (mk_cl_delete_package default_handler baz_state (.package 2)).exit = .ret true ∧
    mkcl_find_package_nolock (mk_cl_delete_package default_handler baz_state (.package 2)).state
      (.string "FOO") = none :=
  ⟨by decide!, by decide!, by decide!, by decide!,
    (delete_package_result baz_state 2 "FOO" (by decide!) (by decide!) (by decide!)
      (by decide!) (by decide!) (by decide!) baz_state_mutual (by decide!)).1,
    (delete_package_result baz_state 2 "FOO" (by decide!) (by decide!) (by decide!)
      (by decide!) (by decide!) (by decide!) baz_state_mutual (by decide!)).2.2.2.2.2.2.2⟩

/-- C30, failing input: `self_use_state`, reached from `pending_state` by the call
`(make-package "F" :use (list f))` with the waiting stand-in `f` (2) itself in the use
list.  The package `F` (2) is in the package list, open, neither the lisp nor the
keyword package, the names are unique, and `F` uses itself.  With the default
recoveries `(delete-package "F")` never returns: the first loop calls
`mkcl_unuse_package` with `F` in both places, which waits for its own lock; `F` is still
in the package list under its name and still uses itself. -/
theorem delete_package_self_use :
    (mkcl_make_package default_handler pending_state "F" [] [.package 2]).exit = .ret 2 ∧
    self_use_state.packages = [2, 1, 0] ∧
    (self_use_state.pack 2).name = some "F" ∧
    (self_use_state.pack 2).closed = false ∧
    2 ≠ self_use_state.lisp_package ∧ 2 ≠ self_use_state.keyword_package ∧
    unique_names self_use_state ∧
    (self_use_state.pack 2).uses = [2] ∧
    (self_use_state.pack 2).usedby = [2] ∧
    (mk_cl_delete_package default_handler self_use_state (.package 2)).exit = .deadlock ∧
    (mk_cl_delete_package default_handler self_use_state (.string "F")).exit = .deadlock ∧
    (mk_cl_delete_package default_handler self_use_state (.package 2)).state.packages
      = [2, 1, 0] ∧
    ((mk_cl_delete_package default_handler self_use_state (.package 2)).state.pack 2).name
      = some "F" ∧
    ((mk_cl_delete_package default_handler self_use_state (.package 2)).state.pack 2).uses
      = [2] := by
  decide!

theorem nicknames_scan_ok_rev (st : State) (l : List String) :
    ∀ good res, nicknames_scan st l good = .ok res → res = l.reverse ++ good := by
  induction l with
  | nil =>
    intro good res hr
    simp only [nicknames_scan, Except.ok.injEq] at hr
    simp [hr]
  | cons k l ih =>
    intro good res hr
    unfold nicknames_scan at hr
    split at hr
    · cases hr
    · rw [ih _ _ hr]
      simp

theorem coerce_congr (st st' : State) (d : Designator) (hp : st'.packages = st.packages)
    (hsame : ∀ q ∈ st.packages, (st'.pack q).name = (st.pack q).name
      ∧ (st'.pack q).nicknames = (st.pack q).nicknames) :
    mk_si_coerce_to_package st' d = mk_si_coerce_to_package st d := by
  cases d with
  | package p => rfl
  | string k =>
    show find_package_scan st' k st'.packages = find_package_scan st k st.packages
    rw [hp]
    exact find_package_scan_congr st st' k st.packages hsame

theorem use_list_loop_uses (x : Nat) (l : List Designator) :
    ∀ st st' : State, use_list_loop x st l = (st', none) →
      st'.packages = st.packages
      ∧ (∀ Q, (st'.pack Q).name = (st.pack Q).name
          ∧ (st'.pack Q).nicknames = (st.pack Q).nicknames
          ∧ (st'.pack Q).external = (st.pack Q).external
          ∧ (st'.pack Q).internal = (st.pack Q).internal
          ∧ (st'.pack Q).shadowings = (st.pack Q).shadowings
          ∧ (st'.pack Q).closed = (st.pack Q).closed)
      ∧ ∀ y, y ∈ (st'.pack x).uses
          ↔ y ∈ (st.pack x).uses ∨ ∃ d ∈ l, mk_si_coerce_to_package st d = some y := by
  induction l with
  | nil =>
    intro st st' hr
    simp only [use_list_loop, Prod.mk.injEq, and_true] at hr
    subst hr
    exact ⟨rfl, fun _ => ⟨rfl, rfl, rfl, rfl, rfl, rfl⟩, fun y => by simp⟩
  | cons d l ih =>
    intro st st' hr
    unfold use_list_loop at hr
    split at hr
    · simp at hr
    · rename_i y hy
      obtain ⟨h1, h2, h3⟩ := ih _ _ hr
      have hframe : ∀ Q,
          (((st.set_pack x { st.pack x with uses := y :: (st.pack x).uses }).set_pack y
            { (st.set_pack x { st.pack x with uses := y :: (st.pack x).uses }).pack y with
              usedby := x :: ((st.set_pack x
                { st.pack x with uses := y :: (st.pack x).uses }).pack y).usedby }).pack
              Q).name = (st.pack Q).name
          ∧ (((st.set_pack x { st.pack x with uses := y :: (st.pack x).uses }).set_pack y
            { (st.set_pack x { st.pack x with uses := y :: (st.pack x).uses }).pack y with
              usedby := x :: ((st.set_pack x
                { st.pack x with uses := y :: (st.pack x).uses }).pack y).usedby }).pack
              Q).nicknames = (st.pack Q).nicknames
          ∧ (((st.set_pack x { st.pack x with uses := y :: (st.pack x).uses }).set_pack y
            { (st.set_pack x { st.pack x with uses := y :: (st.pack x).uses }).pack y with
              usedby := x :: ((st.set_pack x
                { st.pack x with uses := y :: (st.pack x).uses }).pack y).usedby }).pack
              Q).external = (st.pack Q).external
          ∧ (((st.set_pack x { st.pack x with uses := y :: (st.pack x).uses }).set_pack y
            { (st.set_pack x { st.pack x with uses := y :: (st.pack x).uses }).pack y with
              usedby := x :: ((st.set_pack x
                { st.pack x with uses := y :: (st.pack x).uses }).pack y).usedby }).pack
              Q).internal = (st.pack Q).internal
          ∧ (((st.set_pack x { st.pack x with uses := y :: (st.pack x).uses }).set_pack y
            { (st.set_pack x { st.pack x with uses := y :: (st.pack x).uses }).pack y with
              usedby := x :: ((st.set_pack x
                { st.pack x with uses := y :: (st.pack x).uses }).pack y).usedby }).pack
              Q).shadowings = (st.pack Q).shadowings
          ∧ (((st.set_pack x { st.pack x with uses := y :: (st.pack x).uses }).set_pack y
            { (st.set_pack x { st.pack x with uses := y :: (st.pack x).uses }).pack y with
              usedby := x :: ((st.set_pack x
                { st.pack x with uses := y :: (st.pack x).uses }).pack y).usedby }).pack
              Q).closed = (st.pack Q).closed := by
        intro Q
        by_cases q1 : Q = x <;> by_cases q2 : Q = y <;> by_cases q3 : y = x <;> simp_all
      refine ⟨h1.trans (by simp), fun Q => ?_, fun z => ?_⟩
      · obtain ⟨a1, a2, a3, a4, a5, a6⟩ := h2 Q
        obtain ⟨b1, b2, b3, b4, b5, b6⟩ := hframe Q
        exact ⟨a1.trans b1, a2.trans b2, a3.trans b3, a4.trans b4, a5.trans b5,
          a6.trans b6⟩
      · rw [h3 z, add_edge_uses st y x z x]
        have hco : ∀ d', mk_si_coerce_to_package
            ((st.set_pack x { st.pack x with uses := y :: (st.pack x).uses }).set_pack y
              { (st.set_pack x { st.pack x with uses := y :: (st.pack x).uses }).pack y with
                usedby := x :: ((st.set_pack x
                  { st.pack x with uses := y :: (st.pack x).uses }).pack y).usedby }) d'
            = mk_si_coerce_to_package st d' :=
          fun d' => coerce_congr st _ d' (by simp)
            (fun q _ => ⟨(hframe q).1, (hframe q).2.1⟩)
        simp only [hco, List.mem_cons, exists_eq_or_imp, true_and]
        constructor
        · rintro ((e | e) | e)
          · exact Or.inr (Or.inl (by rw [hy, e]))
          · exact Or.inl e
          · exact Or.inr (Or.inr e)
        · rintro (e | e | e)
          · exact Or.inl (Or.inr e)
          · rw [hy] at e
            exact Or.inl (Or.inl (Option.some.inj e).symm)
          · exact Or.inr e

/-- Making a fresh package: when no waiting entry matches and the package list holds
allocated references only, a call of `mkcl_make_sized_package` that returns `x` without
signalling has allocated `x`; afterwards `x` is in the package list, has the requested
name, the requested nicknames (in reverse order), exactly the packages designated by the
use list as its use list, empty tables, no shadowing symbols, and is open; the name and
every requested nickname designate `x`. -/
theorem make_package_fresh (h : Handler) (st : State) (name : String)
    (nicknames : List String) (use_list : List Designator) (es is : Int) (x : Nat)
    (hpend : pending_scan name nicknames st.packages_to_be_created = none)
    (halloc : ∀ p ∈ st.packages, p < st.pack_count)
    (hsig : (mkcl_make_sized_package h st name nicknames use_list es is).signals = [])
    (hexit : (mkcl_make_sized_package h st name nicknames use_list es is).exit = .ret x) :
    x = st.pack_count ∧
    x ∈ (mkcl_make_sized_package h st name nicknames use_list es is).state.packages ∧
    ((mkcl_make_sized_package h st name nicknames use_list es is).state.pack x).name
      = some name ∧
    ((mkcl_make_sized_package h st name nicknames use_list es is).state.pack x).nicknames
      = nicknames.reverse ∧
    (∀ y, y ∈ ((mkcl_make_sized_package h st name nicknames use_list es is).state.pack
        x).uses ↔ ∃ d ∈ use_list, mk_si_coerce_to_package st d = some y) ∧
    ((mkcl_make_sized_package h st name nicknames use_list es is).state.pack x).external
      = [] ∧
    ((mkcl_make_sized_package h st name nicknames use_list es is).state.pack x).internal
      = [] ∧
    ((mkcl_make_sized_package h st name nicknames use_list es is).state.pack x).shadowings
      = [] ∧
    ((mkcl_make_sized_package h st name nicknames use_list es is).state.pack x).closed
      = false ∧
    mkcl_find_package_nolock
      (mkcl_make_sized_package h st name nicknames use_list es is).state (.string name)
      = some x ∧
    ∀ k ∈ nicknames, mkcl_find_package_nolock
      (mkcl_make_sized_package h st name nicknames use_list es is).state (.string k)
      = some x := by
  revert hsig hexit
  unfold mkcl_make_sized_package
  rw [hpend]
  dsimp only
  cases hfind : mkcl_find_package_nolock st (.string name) with
  | some other =>
    intro hsig
    simp at hsig
  | none =>
    dsimp only
    split
    · intro _ hexit
      cases hexit
    · unfold make_package_intern
      cases hscan : nicknames_scan (_mkcl_alloc_sized_package st name).1 nicknames [] with
      | error r =>
        intro hsig
        simp at hsig
      | ok good =>
        have hgood : good = nicknames.reverse := by
          rw [nicknames_scan_ok_rev _ _ _ _ hscan]
          simp
        dsimp only
        cases hloop : use_list_loop (_mkcl_alloc_sized_package st name).2
            ((_mkcl_alloc_sized_package st name).1.set_pack
              (_mkcl_alloc_sized_package st name).2
              { (_mkcl_alloc_sized_package st name).1.pack
                  (_mkcl_alloc_sized_package st name).2 with nicknames := good })
            use_list with
        | mk st3 r =>
          cases r with
          | some d =>
            intro _ hexit
            cases hexit
          | none =>
            intro _ hexit
            simp only [Exit.ret.injEq] at hexit
            obtain ⟨h1, h2, h3⟩ := use_list_loop_uses _ _ _ _ hloop
            have hx : x = st.pack_count := hexit.symm
            subst hx
            have hold : ∀ q ∈ st.packages, (st.pack_count ≠ q) := fun q hq e =>
              Nat.lt_irrefl _ (e ▸ halloc q hq)
            obtain ⟨n1, n2, n3, n4, n5, n6⟩ := h2 st.pack_count
            have hhead : ∀ k, (k = name ∨ k ∈ nicknames) →
                find_package_scan
                  ({ st3 with packages := st.pack_count :: st3.packages } : State) k
                  (st.pack_count :: st3.packages) = some st.pack_count := by
              intro k hk
              refine find_package_scan_first _ k [] _ st.pack_count ?_ (by simp)
              rw [mem_names]
              show (st3.pack st.pack_count).name = some k
                ∨ k ∈ (st3.pack st.pack_count).nicknames
              rw [n1, n2]
              rcases hk with e | e
              · left
                simp [_mkcl_alloc_sized_package, e]
              · right
                simp [_mkcl_alloc_sized_package, hgood, e]
            refine ⟨rfl, ?_, ?_, ?_, ?_, ?_, ?_, ?_, ?_, hhead name (Or.inl rfl),
              fun k hk => hhead k (Or.inr hk)⟩
            · show st.pack_count ∈ st.pack_count :: st3.packages
              simp
            · show (st3.pack st.pack_count).name = _
              rw [n1]
              simp [_mkcl_alloc_sized_package]
            · show (st3.pack st.pack_count).nicknames = _
              rw [n2]
              simp [_mkcl_alloc_sized_package, hgood]
            · intro y
              refine (h3 y).trans ?_
              have hco : ∀ d, mk_si_coerce_to_package
                  ((_mkcl_alloc_sized_package st name).1.set_pack
                    (_mkcl_alloc_sized_package st name).2
                    { (_mkcl_alloc_sized_package st name).1.pack
                        (_mkcl_alloc_sized_package st name).2 with nicknames := good }) d
                  = mk_si_coerce_to_package st d := by
                intro d
                refine coerce_congr st _ d (by simp [_mkcl_alloc_sized_package]) ?_
                intro q hq
                have hne : q ≠ st.pack_count := fun e => hold q hq e.symm
                simp [_mkcl_alloc_sized_package, Function.update, hne]
              simp only [hco]
              simp [_mkcl_alloc_sized_package]
            · show (st3.pack st.pack_count).external = _
              rw [n3]
              simp [_mkcl_alloc_sized_package]
            · show (st3.pack st.pack_count).internal = _
              rw [n4]
              simp [_mkcl_alloc_sized_package]
            · show (st3.pack st.pack_count).shadowings = _
              rw [n5]
              simp [_mkcl_alloc_sized_package]
            · show (st3.pack st.pack_count).closed = _
              rw [n6]
              simp [_mkcl_alloc_sized_package]

/-! ## The lookup of intern -/

/-- C37: for every package `P`, open or closed, keyword or not, and every name `n`, if
`mkcl_find_symbol_nolock` returns a symbol with a tag other than none, `mkcl_intern`
returns that symbol with that tag, without signalling and in the unchanged state; a
call of `mkcl_intern` that allocates a symbol is one for which
`mkcl_find_symbol_nolock` reports none. -/
theorem intern_agrees_with_find (h : Handler) (fuel : Nat) (st : State) (P : Nat)
    (n : String) :
    ((mkcl_find_symbol_nolock st n P).2 ≠ .zero →
      mkcl_intern h (fuel + 1) st n (.package P)
        = ⟨st, [], .ret (mkcl_find_symbol_nolock st n P)⟩) ∧
    ((mkcl_intern h (fuel + 1) st n (.package P)).state.symbol_count ≠ st.symbol_count →
      (mkcl_find_symbol_nolock st n P).2 = .zero) := by
  have hfound : (mkcl_find_symbol_nolock st n P).2 ≠ .zero →
      mkcl_intern h (fuel + 1) st n (.package P)
        = ⟨st, [], .ret (mkcl_find_symbol_nolock st n P)⟩ := by
    intro hf
    unfold mkcl_intern
    simp only [mk_si_coerce_to_package, mkcl_find_package_nolock]
    exact intern_loop_found h st n P fuel [] hf
  refine ⟨hfound, fun hne => ?_⟩
  by_contra hf
  rw [hfound hf] at hne
  exact hne rfl

/-- Witness for `intern_agrees_with_find`: `CAR` is inherited in `FOO` (2) from `LISP`,
and `mkcl_intern` returns it as inherited. -/
theorem intern_agrees_with_find_witness :
    mkcl_find_symbol_nolock foo_state "CAR" 2 = (1, .inherited) ∧
    mkcl_intern default_handler 1 foo_state "CAR" (.package 2)
      = ⟨foo_state, [], .ret (mkcl_find_symbol_nolock foo_state "CAR" 2)⟩ :=
  ⟨by decide!,
    (intern_agrees_with_find default_handler 0 foo_state 2 "CAR").1 (by decide!)⟩

/-! ## Unuse -/

theorem unuse_package_open (h : Handler) (st : State) (U P : Nat)
    (hopen : (st.pack P).closed = false) (hne : U ≠ P) :
    mkcl_unuse_package h st (.package U) (.package P)
      = ⟨(st.set_pack P
            { st.pack P with uses := mkcl_remove_eq U (st.pack P).uses }).set_pack U
          { (st.set_pack P { st.pack P with uses := mkcl_remove_eq U (st.pack P).uses }).pack U
            with usedby := mkcl_remove_eq P ((st.set_pack P
              { st.pack P with uses := mkcl_remove_eq U (st.pack P).uses }).pack U).usedby },
        [], .ret ()⟩ := by
  unfold mkcl_unuse_package
  simp only [mk_si_coerce_to_package, mkcl_find_package_nolock, closed_eq_false st P hopen,
    false_and, if_false, if_neg hne]

/-- With the same package in both places `mkcl_unuse_package` takes the lock of the
package and then waits for it: on an open package the call never returns, signals
nothing and changes nothing. -/
theorem unuse_package_self_lock (h : Handler) (st : State) (P : Nat)
    (hopen : (st.pack P).closed = false) :
    mkcl_unuse_package h st (.package P) (.package P) = ⟨st, [], .deadlock⟩ := by
  unfold mkcl_unuse_package
  simp only [mk_si_coerce_to_package, mkcl_find_package_nolock, closed_eq_false st P hopen,
    false_and, if_false, if_true]

/-- For an open package `P` and a package `U` other than `P`, `mkcl_unuse_package`
returns without signalling; afterwards `P.uses` is the old list without the occurrences
of `U` and `U.usedby` the old list without the occurrences of `P`, the other elements in
their order; the other use and used-by lists, every table, shadowing list, name,
nickname list and flag, every symbol and the registry are unchanged, whether or not `U`
was in `P.uses`. -/
theorem unuse_package_result (h : Handler) (st : State) (U P : Nat)
    (hopen : (st.pack P).closed = false) (hne : U ≠ P) :
    (mkcl_unuse_package h st (.package U) (.package P)).exit = .ret () ∧
    (mkcl_unuse_package h st (.package U) (.package P)).signals = [] ∧
    ((mkcl_unuse_package h st (.package U) (.package P)).state.pack P).uses
      = (st.pack P).uses.filter (fun y => decide (y ≠ U)) ∧
    ((mkcl_unuse_package h st (.package U) (.package P)).state.pack U).usedby
      = (st.pack U).usedby.filter (fun y => decide (y ≠ P)) ∧
    U ∉ ((mkcl_unuse_package h st (.package U) (.package P)).state.pack P).uses ∧
    P ∉ ((mkcl_unuse_package h st (.package U) (.package P)).state.pack U).usedby ∧
    (∀ Q, Q ≠ P →
      ((mkcl_unuse_package h st (.package U) (.package P)).state.pack Q).uses
        = (st.pack Q).uses) ∧
    (∀ Q, Q ≠ U →
      ((mkcl_unuse_package h st (.package U) (.package P)).state.pack Q).usedby
        = (st.pack Q).usedby) ∧
    (∀ Q,
      ((mkcl_unuse_package h st (.package U) (.package P)).state.pack Q).external
          = (st.pack Q).external
        ∧ ((mkcl_unuse_package h st (.package U) (.package P)).state.pack Q).internal
          = (st.pack Q).internal
        ∧ ((mkcl_unuse_package h st (.package U) (.package P)).state.pack Q).shadowings
          = (st.pack Q).shadowings
        ∧ ((mkcl_unuse_package h st (.package U) (.package P)).state.pack Q).name
          = (st.pack Q).name
        ∧ ((mkcl_unuse_package h st (.package U) (.package P)).state.pack Q).nicknames
          = (st.pack Q).nicknames
        ∧ ((mkcl_unuse_package h st (.package U) (.package P)).state.pack Q).closed
          = (st.pack Q).closed) ∧
    (mkcl_unuse_package h st (.package U) (.package P)).state.symbol = st.symbol ∧
    same_core st (mkcl_unuse_package h st (.package U) (.package P)).state ∧
    (mkcl_unuse_package h st (.package U) (.package P)).state.symbol_count
      = st.symbol_count := by
  rw [unuse_package_open h st U P hopen hne]
  have hUP : ¬ U = P := hne
  have hPU : ¬ P = U := fun c => hne c.symm
  refine ⟨rfl, rfl, ?_, ?_, ?_, ?_, ?_, ?_, ?_, rfl, ?_, rfl⟩
  · simp [hPU, mkcl_remove_eq]
  · simp [hUP, mkcl_remove_eq]
  · simp [hPU, mem_remove_eq]
  · simp [hUP, mem_remove_eq]
  · intro Q hQ
    by_cases hQU : Q = U <;> by_cases hUP : U = P <;> simp_all
  · intro Q hQ
    by_cases hQP : Q = P <;> by_cases hUP : U = P <;> simp_all
  · intro Q
    by_cases hQU : Q = U <;> by_cases hQP : Q = P <;> by_cases hUP : U = P <;> simp_all
  · exact same_core_set_pack _ _ (same_core_set_pack _ _ (same_core_refl st))

/-- An instance of `unuse_package_result`: `FOO` (2) stops using `LISP` (0) in
`foo_state`. -/
theorem unuse_package_result_witness :
    (foo_state.pack 2).closed = false ∧ (foo_state.pack 2).uses = [0] ∧
    (mkcl_unuse_package default_handler foo_state (.package 0) (.package 2)).exit
      = .ret () ∧
    0 ∉ ((mkcl_unuse_package default_handler foo_state (.package 0)
      (.package 2)).state.pack 2).uses :=
  ⟨by decide!, by decide!,
    (unuse_package_result default_handler foo_state 0 2 (by decide!) (by decide)).1,
    (unuse_package_result default_handler foo_state 0 2 (by decide!) (by decide)).2.2.2.2.1⟩

/-- C33, failing input: `(unuse-package "FOO" "FOO")` in `foo_state`, where `FOO` (2) is
open.  `mkcl_unuse_package` has no test `p == x`: it takes the lock of `FOO` and asks
for it again, so the call never returns (and nothing is changed or signalled), whereas
`(use-package "FOO" "FOO")`, which has the test, returns at once. -/
theorem unuse_package_self_deadlock :
    (foo_state.pack 2).closed = false ∧
    mkcl_unuse_package default_handler foo_state (.package 2) (.package 2)
      = ⟨foo_state, [], .deadlock⟩ ∧
    (mkcl_unuse_package default_handler foo_state (.string "FOO") (.string "FOO")).exit
      = .deadlock ∧
    mkcl_unuse_package_events default_handler foo_state (.package 2) (.package 2)
      = [.lock 2, .lock 2] ∧
    (mkcl_use_package default_handler foo_state (.package 2) (.package 2)).exit
      = .ret () ∧
    mkcl_use_package_events default_handler foo_state (.package 2) (.package 2) = [] :=
  ⟨by decide!, unuse_package_self_lock default_handler foo_state 2 (by decide!),
    by decide!, by decide!, by decide!, by decide!⟩

/-! ## Refused deletions -/

/-- C31: `mk_cl_delete_package` on a designator of no package signals the continuable
not-found error and, when that is continued, returns false; on the lisp or the keyword
package it never returns, and fails with the fatal cannot-remove error when the package
is open or its closed-package error is continued; on a package other than these two
whose name has been cleared by an earlier deletion it returns false when the package is
open or its closed-package error is continued.  In all three cases the whole state,
the registry and every use and used-by list included, is unchanged. -/
theorem delete_package_refused (h : Handler) (st : State) (d : Designator) :
    (mkcl_find_package_nolock st d = none →
      (mk_cl_delete_package h st d).state = st ∧
      (mk_cl_delete_package h st d).signals = [.package_not_found] ∧
      (mk_cl_delete_package h st d).exit
        = (if h .package_not_found then .ret false else .declined .package_not_found)) ∧
    (∀ P, mkcl_find_package_nolock st d = some P →
      (P = st.lisp_package ∨ P = st.keyword_package) →
      (mk_cl_delete_package h st d).state = st ∧
      (∀ b, (mk_cl_delete_package h st d).exit ≠ .ret b) ∧
      (((st.pack P).closed = false ∨ h (.closed_package P) = true) →
        (mk_cl_delete_package h st d).exit = .fatal (.cannot_remove P))) ∧
    (∀ P, mkcl_find_package_nolock st d = some P →
      P ≠ st.lisp_package → P ≠ st.keyword_package → (st.pack P).name = none →
      (mk_cl_delete_package h st d).state = st ∧
      ((st.pack P).closed = false → (mk_cl_delete_package h st d).signals = []) ∧
      (((st.pack P).closed = false ∨ h (.closed_package P) = true) →
        (mk_cl_delete_package h st d).exit = .ret false)) := by
  refine ⟨fun hfind => ?_, fun P hfind hP => ?_, fun P hfind hl hk hname => ?_⟩
  · unfold mk_cl_delete_package
    simp only [hfind]
    unfold Outcome.andThen cerror
    by_cases hh : h .package_not_found = true
    · simp [hh]
    · simp [hh]
  · unfold mk_cl_delete_package
    simp only [hfind]
    by_cases hc : (st.pack P).closed = true
    · simp only [hc, if_true]
      unfold Outcome.andThen cerror
      by_cases hh : h (.closed_package P) = true
      · simp [hh, hP]
      · simp [hh]
    · simp only [hc, Bool.false_eq_true, if_false]
      unfold Outcome.andThen
      simp [hP]
  · have hlk : ¬ (P = st.lisp_package ∨ P = st.keyword_package) := fun c => c.elim hl hk
    unfold mk_cl_delete_package
    simp only [hfind]
    by_cases hc : (st.pack P).closed = true
    · simp only [hc, if_true]
      unfold Outcome.andThen cerror
      by_cases hh : h (.closed_package P) = true
      · simp [hh, hlk, hname]
      · simp [hh]
    · simp only [hc, Bool.false_eq_true, if_false]
      unfold Outcome.andThen
      simp [hlk, hname]

/-- Witness for `delete_package_refused`: in `boot_state` deleting `LISP` fails and
deleting `NOPE`, which designates nothing, returns false with the default recovery. -/
theorem delete_package_refused_witness :
    mkcl_find_package_nolock boot_state (.string "NOPE") = none ∧
    (mk_cl_delete_package default_handler boot_state (.string "NOPE")).exit = .ret false ∧
    mkcl_find_package_nolock boot_state (.string "LISP") = some 0 ∧
    0 = boot_state.lisp_package ∧
    (mk_cl_delete_package default_handler boot_state (.string "LISP")).exit
      = .fatal (.cannot_remove 0) ∧
    (mk_cl_delete_package default_handler boot_state (.string "LISP")).state = boot_state :=
  ⟨by decide!,
    ((delete_package_refused default_handler boot_state (.string "NOPE")).1
      (by decide!)).2.2,
    by decide!, by decide!,
    ((delete_package_refused default_handler boot_state (.string "LISP")).2.1 0
      (by decide!) (Or.inl (by decide!))).2.2 (Or.inl (by decide!)),
    ((delete_package_refused default_handler boot_state (.string "LISP")).2.1 0
      (by decide!) (Or.inl (by decide!))).1⟩

theorem unexport_normal (h : Handler) (st : State) (P s : Nat)
    (hopen : (st.pack P).closed = false) (hK : P ≠ st.keyword_package)
    (hf : mkcl_find_symbol_nolock st (mkcl_symbol_name st s) P = (s, .external)) :
    mkcl_unexport2 h st s (.package P)
      = ⟨st.set_pack P
          { st.pack P with
            external := mkcl_remhash (mkcl_symbol_name st s) (st.pack P).external
            internal := mkcl_sethash (mkcl_symbol_name st s) (st.pack P).internal s },
        [], .ret ()⟩ := by
  unfold mkcl_unexport2
  simp only [mk_si_coerce_to_package, mkcl_find_package_nolock, if_neg hK,
    closed_eq_false st P hopen, false_and, if_false, hf]
  simp

/-! ## Export followed by unexport -/

theorem gethash_sethash_remhash_self (n k : String) (t : HashTable) (s : Nat)
    (hn : mkcl_gethash_safe n t = some s) :
    mkcl_gethash_safe k (mkcl_sethash n (mkcl_remhash n t) s) = mkcl_gethash_safe k t := by
  rw [gethash_sethash]
  by_cases hk : k = n
  · subst hk
    simp [hn]
  · have hk2 : ¬ n = k := fun e => hk e.symm
    simp [hk, hk2, gethash_remhash]

/-- C40: for an open package `P` other than the keyword package and a symbol `s`
internal in `P`, if `mkcl_export2` returns, a following `mkcl_unexport2` returns without
signalling and restores the state before the export: `P.external` is the same table,
`P.internal` maps every name as before, the shadowing symbols, the use and used-by
lists, name, nicknames and flag of `P`, the other packages, every symbol (so every home)
and the registry are as before. -/
theorem export_unexport_inverse (h1 h2 : Handler) (st : State) (P s : Nat)
    (hopen : (st.pack P).closed = false) (hK : P ≠ st.keyword_package)
    (hfind : mkcl_find_symbol_nolock st (mkcl_symbol_name st s) P = (s, .internal))
    (hexp : (mkcl_export2 h1 st s (.package P)).exit = .ret ()) :
    (mkcl_unexport2 h2 (mkcl_export2 h1 st s (.package P)).state s (.package P)).exit
      = .ret () ∧
    (mkcl_unexport2 h2 (mkcl_export2 h1 st s (.package P)).state s (.package P)).signals
      = [] ∧
    ((mkcl_unexport2 h2 (mkcl_export2 h1 st s (.package P)).state s
      (.package P)).state.pack P).external = (st.pack P).external ∧
    (∀ k, mkcl_gethash_safe k
        ((mkcl_unexport2 h2 (mkcl_export2 h1 st s (.package P)).state s
          (.package P)).state.pack P).internal
      = mkcl_gethash_safe k (st.pack P).internal) ∧
    ((mkcl_unexport2 h2 (mkcl_export2 h1 st s (.package P)).state s
      (.package P)).state.pack P).shadowings = (st.pack P).shadowings ∧
    ((mkcl_unexport2 h2 (mkcl_export2 h1 st s (.package P)).state s
      (.package P)).state.pack P).uses = (st.pack P).uses ∧
    ((mkcl_unexport2 h2 (mkcl_export2 h1 st s (.package P)).state s
      (.package P)).state.pack P).usedby = (st.pack P).usedby ∧
    ((mkcl_unexport2 h2 (mkcl_export2 h1 st s (.package P)).state s
      (.package P)).state.pack P).name = (st.pack P).name ∧
    ((mkcl_unexport2 h2 (mkcl_export2 h1 st s (.package P)).state s
      (.package P)).state.pack P).nicknames = (st.pack P).nicknames ∧
    ((mkcl_unexport2 h2 (mkcl_export2 h1 st s (.package P)).state s
      (.package P)).state.pack P).closed = (st.pack P).closed ∧
    (∀ Q, Q ≠ P →
      (mkcl_unexport2 h2 (mkcl_export2 h1 st s (.package P)).state s
        (.package P)).state.pack Q = st.pack Q) ∧
    (mkcl_unexport2 h2 (mkcl_export2 h1 st s (.package P)).state s
      (.package P)).state.symbol = st.symbol ∧
    same_core st
      (mkcl_unexport2 h2 (mkcl_export2 h1 st s (.package P)).state s (.package P)).state ∧
    (mkcl_unexport2 h2 (mkcl_export2 h1 st s (.package P)).state s
      (.package P)).state.symbol_count = st.symbol_count := by
  have hx : (mkcl_find_symbol_nolock st (mkcl_symbol_name st s) P).1 = s := by rw [hfind]
  have hf : (mkcl_find_symbol_nolock st (mkcl_symbol_name st s) P).2 = .internal := by
    rw [hfind]
  obtain ⟨_, hext, hint⟩ := find_symbol_internal_entry st _ P hf
  rw [hx] at hint
  have hrun := export2_accessible h1 st s P hopen hx (Or.inl hf)
  cases hscan : export_usedby_scan st (mkcl_symbol_name st s) s (st.pack P).usedby with
  | some q =>
    rw [hrun, hscan] at hexp
    cases hexp
  | none =>
    rw [hscan] at hrun
    simp only [hf, if_true] at hrun
    rw [hrun]
    have hfind2 : mkcl_find_symbol_nolock
        (st.set_pack P
          { st.pack P with
            internal := mkcl_remhash (mkcl_symbol_name st s) (st.pack P).internal
            external := mkcl_sethash (mkcl_symbol_name st s) (st.pack P).external s })
        (mkcl_symbol_name st s) P = (s, .external) :=
      find_symbol_of_external _ _ P s (by simp [gethash_sethash])
    have h3 := (unexport_normal h2
      (st.set_pack P
        { st.pack P with
          internal := mkcl_remhash (mkcl_symbol_name st s) (st.pack P).internal
          external := mkcl_sethash (mkcl_symbol_name st s) (st.pack P).external s })
      P s (by simpa using hopen) (by simpa using hK) (by simpa [mkcl_symbol_name] using hfind2))
    simp only [mkcl_symbol_name, set_pack_symbol] at h3 ⊢
    rw [h3]
    refine ⟨rfl, rfl, ?_, ?_, ?_, ?_, ?_, ?_, ?_, ?_, ?_, ?_, ?_, rfl⟩
    · simp only [set_pack_pack, if_true]
      have : mkcl_remhash (st.symbol s).name
          (mkcl_sethash (st.symbol s).name (st.pack P).external s)
          = (st.pack P).external := by
        unfold mkcl_sethash
        simp only [mkcl_remhash, List.filter_cons, ne_eq, not_true_eq_false, decide_False,
          Bool.false_eq_true, if_false, List.filter_filter, Bool.and_self]
        exact remhash_absent _ _ hext
      exact this
    · intro k
      simp only [set_pack_pack, if_true]
      exact gethash_sethash_remhash_self _ k _ s hint
    · simp
    · simp
    · simp
    · simp
    · simp
    · simp
    · intro Q hQ
      simp [hQ]
    · simp
    · exact same_core_set_pack _ _ (same_core_set_pack _ _ (same_core_refl st))

/-- Witness for `export_unexport_inverse`: exporting and then unexporting the internal
symbol `BAR` (2) of `FOO` (2) in `foo_bar_state`. -/
theorem export_unexport_inverse_witness :
    (foo_bar_state.pack 2).closed = false ∧ 2 ≠ foo_bar_state.keyword_package ∧
    mkcl_find_symbol_nolock foo_bar_state (mkcl_symbol_name foo_bar_state 2) 2
      = (2, .internal) ∧
    (mkcl_export2 default_handler foo_bar_state 2 (.package 2)).exit = .ret () ∧
    (mkcl_unexport2 default_handler
      (mkcl_export2 default_handler foo_bar_state 2 (.package 2)).state 2
      (.package 2)).exit = .ret () ∧
    ∀ k, mkcl_gethash_safe k
        ((mkcl_unexport2 default_handler
          (mkcl_export2 default_handler foo_bar_state 2 (.package 2)).state 2
          (.package 2)).state.pack 2).internal
      = mkcl_gethash_safe k (foo_bar_state.pack 2).internal :=
  ⟨by decide!, by decide!, by decide!, by decide!,
    (export_unexport_inverse default_handler default_handler foo_bar_state 2 2 (by decide!)
      (by decide!) (by decide!) (by decide!)).1,
    (export_unexport_inverse default_handler default_handler foo_bar_state 2 2 (by decide!)
      (by decide!) (by decide!) (by decide!)).2.2.2.1⟩

/-! ## Use of and in the keyword package, and repeated use -/

theorem use_package_of_keyword (h : Handler) (st : State) (U : Nat) (dp : Designator)
    (hU : U = st.keyword_package) :
    mkcl_use_package h st (.package U) dp = ⟨st, [], .fatal .use_keyword⟩ := by
  unfold mkcl_use_package
  simp only [mk_si_coerce_to_package, mkcl_find_package_nolock]
  rw [if_pos hU]

theorem use_package_present (h : Handler) (st : State) (U P : Nat)
    (hopen : (st.pack P).closed = false) (hU : U ≠ st.keyword_package)
    (hP : P ≠ st.keyword_package) (hin : U = P ∨ U ∈ (st.pack P).uses) :
    mkcl_use_package h st (.package U) (.package P) = ⟨st, [], .ret ()⟩ := by
  unfold mkcl_use_package
  simp only [mk_si_coerce_to_package, mkcl_find_package_nolock, if_neg hU,
    closed_eq_false st P hopen, false_and, if_false, if_neg hP]
  rcases hin with e | e
  · simp [e]
  · by_cases hPU : P = U
    · simp [hPU]
    · simp [hPU, mkcl_member_eq, e]

theorem add_edge_frame (st : State) (x p Q : Nat) :
    (((st.set_pack p { st.pack p with uses := x :: (st.pack p).uses }).set_pack x
        { (st.set_pack p { st.pack p with uses := x :: (st.pack p).uses }).pack x with
          usedby := p :: ((st.set_pack p
            { st.pack p with uses := x :: (st.pack p).uses }).pack x).usedby }).pack Q).closed
        = (st.pack Q).closed
      ∧ (((st.set_pack p { st.pack p with uses := x :: (st.pack p).uses }).set_pack x
        { (st.set_pack p { st.pack p with uses := x :: (st.pack p).uses }).pack x with
          usedby := p :: ((st.set_pack p
            { st.pack p with uses := x :: (st.pack p).uses }).pack x).usedby }).pack Q).name
        = (st.pack Q).name
      ∧ (((st.set_pack p { st.pack p with uses := x :: (st.pack p).uses }).set_pack x
        { (st.set_pack p { st.pack p with uses := x :: (st.pack p).uses }).pack x with
          usedby := p :: ((st.set_pack p
            { st.pack p with uses := x :: (st.pack p).uses }).pack x).usedby }).pack
          Q).nicknames = (st.pack Q).nicknames := by
  by_cases q1 : Q = x <;> by_cases q2 : Q = p <;> by_cases q3 : x = p <;> simp_all

theorem use_package_frame (h : Handler) (st : State) (dx dp : Designator) :
    (mkcl_use_package h st dx dp).state.keyword_package = st.keyword_package
      ∧ (mkcl_use_package h st dx dp).state.packages = st.packages
      ∧ ∀ Q, ((mkcl_use_package h st dx dp).state.pack Q).closed = (st.pack Q).closed
        ∧ ((mkcl_use_package h st dx dp).state.pack Q).name = (st.pack Q).name
        ∧ ((mkcl_use_package h st dx dp).state.pack Q).nicknames = (st.pack Q).nicknames := by
  have hrefl : st.keyword_package = st.keyword_package ∧ st.packages = st.packages
      ∧ ∀ Q, (st.pack Q).closed = (st.pack Q).closed ∧ (st.pack Q).name = (st.pack Q).name
        ∧ (st.pack Q).nicknames = (st.pack Q).nicknames :=
    ⟨rfl, rfl, fun _ => ⟨rfl, rfl, rfl⟩⟩
  unfold mkcl_use_package
  dsimp only
  split
  · exact hrefl
  · split_ifs
    all_goals first
      | exact hrefl
      | (split
         · exact hrefl
         · split_ifs
           all_goals first
             | exact hrefl
             | (split
                · exact hrefl
                · exact ⟨rfl, rfl, fun Q => add_edge_frame st _ _ Q⟩))

theorem use_package_state_cases (h : Handler) (st : State) (U P : Nat) :
    (mkcl_use_package h st (.package U) (.package P)).state = st
      ∨ ((mkcl_use_package h st (.package U) (.package P)).state
          = (st.set_pack P { st.pack P with uses := U :: (st.pack P).uses }).set_pack U
              { (st.set_pack P { st.pack P with uses := U :: (st.pack P).uses }).pack U with
                usedby := P :: ((st.set_pack P
                  { st.pack P with uses := U :: (st.pack P).uses }).pack U).usedby }
        ∧ U ≠ st.keyword_package
        ∧ ¬ ((st.pack P).closed = true ∧ h (.closed_package P) = false)
        ∧ P ≠ st.keyword_package) := by
  unfold mkcl_use_package
  simp only [mk_si_coerce_to_package, mkcl_find_package_nolock]
  split_ifs
  all_goals first
    | exact Or.inl rfl
    | (split
       · exact Or.inl rfl
       · exact Or.inr ⟨rfl, by assumption, by assumption, by assumption⟩)

theorem use_package_member (h : Handler) (st : State) (U P : Nat)
    (hU : U ≠ st.keyword_package)
    (hd : ¬ ((st.pack P).closed = true ∧ h (.closed_package P) = false))
    (hP : P ≠ st.keyword_package) (hin : U ∈ (st.pack P).uses) :
    (mkcl_use_package h st (.package U) (.package P)).state = st := by
  unfold mkcl_use_package
  simp only [mk_si_coerce_to_package, mkcl_find_package_nolock, if_neg hU, if_neg hd,
    if_neg hP]
  by_cases hPU : P = U
  · simp [hPU]
  · simp [hPU, mkcl_member_eq, hin]

theorem use_package_twice (h : Handler) (st : State) (U P : Nat) :
    (mkcl_use_package h (mkcl_use_package h st (.package U) (.package P)).state
        (.package U) (.package P)).state
      = (mkcl_use_package h st (.package U) (.package P)).state := by
  rcases use_package_state_cases h st U P with e | ⟨e, hU, hd, hP⟩
  · rw [e]
    exact e
  · rw [e]
    refine use_package_member h _ U P (by simpa using hU) ?_ (by simpa using hP) ?_
    · rw [(add_edge_frame st U P P).1]
      exact hd
    · rw [add_edge_uses st U P U P]
      exact Or.inl ⟨rfl, rfl⟩

/-- Counterexample to C32 as stated.  In `closed_foo_state` the closed package `FOO` (2)
already uses `LISP` (0), and `(use-package "LISP" "FOO")` signals the closed-package
error; in `boot_state`, `(use-package "KEYWORD" "KEYWORD")`, where `U` is `P`, fails with
the fatal error. -/
theorem use_package_noop_counterexample :
    (0 ∈ (closed_foo_state.pack 2).uses) ∧
    (closed_foo_state.pack 2).closed = true ∧
    (mkcl_use_package default_handler closed_foo_state (.package 0) (.package 2)).signals
      = [.closed_package 2] ∧
    boot_state.keyword_package = 1 ∧
    (mkcl_use_package default_handler boot_state (.package 1) (.package 1)).exit
      = .fatal .use_keyword := by
  decide!

/-- C32, amended: `mkcl_use_package` fails in the unchanged state with the fatal error
whenever `U` is the keyword package, and, when `P` is the keyword package, fails in the
unchanged state, with the fatal error if `P` is open or its closed-package error is
continued; it returns without signalling in the unchanged state whenever `P` is open,
neither package is the keyword package, and `U` is `P` or already in `P.uses`; and for
all packages a second call with the same arguments leaves the state the first call
left. -/
theorem use_package_refusals (h : Handler) (st : State) (U P : Nat) :
    (U = st.keyword_package →
      mkcl_use_package h st (.package U) (.package P) = ⟨st, [], .fatal .use_keyword⟩) ∧
    (U ≠ st.keyword_package → P = st.keyword_package →
      (mkcl_use_package h st (.package U) (.package P)).state = st ∧
      (mkcl_use_package h st (.package U) (.package P)).exit ≠ .ret () ∧
      (((st.pack P).closed = false ∨ h (.closed_package P) = true) →
        (mkcl_use_package h st (.package U) (.package P)).exit = .fatal .use_in_keyword)) ∧
    ((st.pack P).closed = false → U ≠ st.keyword_package → P ≠ st.keyword_package →
      (U = P ∨ U ∈ (st.pack P).uses) →
      mkcl_use_package h st (.package U) (.package P) = ⟨st, [], .ret ()⟩) ∧
    (mkcl_use_package h (mkcl_use_package h st (.package U) (.package P)).state
        (.package U) (.package P)).state
      = (mkcl_use_package h st (.package U) (.package P)).state := by
  refine ⟨fun hU => use_package_of_keyword h st U _ hU, fun hU hP => ?_,
    fun hopen hU hP hin => use_package_present h st U P hopen hU hP hin,
    use_package_twice h st U P⟩
  subst hP
  unfold mkcl_use_package
  simp only [mk_si_coerce_to_package, mkcl_find_package_nolock, if_neg hU]
  by_cases hc : (st.pack st.keyword_package).closed = true
  · by_cases hh : h (.closed_package st.keyword_package) = true
    · simp [hc, hh]
    · simp [hc, hh]
  · simp [hc]

/-- Witness for `use_package_refusals`: in `foo_state` the open package `FOO` (2)
already uses `LISP` (0), and using it again changes nothing. -/
theorem use_package_refusals_witness :
    (foo_state.pack 2).closed = false ∧ 0 ≠ foo_state.keyword_package ∧
    2 ≠ foo_state.keyword_package ∧ 0 ∈ (foo_state.pack 2).uses ∧
    mkcl_use_package default_handler foo_state (.package 0) (.package 2)
      = ⟨foo_state, [], .ret ()⟩ :=
  ⟨by decide!, by decide!, by decide!, by decide!,
    (use_package_refusals default_handler foo_state 0 2).2.2.1 (by decide!) (by decide!)
      (by decide!) (Or.inr (by decide!))⟩

/-! ## Continuing the closed-package error of intern and unintern -/

theorem intern_loop_closed_forever (h : Handler) (st : State) (n : String) (P : Nat)
    (hclosed : (st.pack P).closed = true)
    (hz : (mkcl_find_symbol_nolock st n P).2 = .zero)
    (hh : h (.closed_package P) = true) :
    ∀ fuel log, mkcl_intern_loop h st n P fuel log
      = ⟨st, log ++ List.replicate fuel (.closed_package P), .out_of_fuel⟩ := by
  intro fuel
  induction fuel with
  | zero => intro log; simp [mkcl_intern_loop]
  | succ fuel ih =>
    intro log
    rw [intern_loop_closed_step h st n P hclosed hz, if_pos hh, ih]
    simp [List.replicate_succ]

theorem unintern_loop_closed_step (h : Handler) (st : State) (s P : Nat) (name : String)
    (hclosed : (st.pack P).closed = true)
    (hl : mkcl_gethash_safe name (st.pack P).internal = some s
      ∨ mkcl_gethash_safe name (st.pack P).external = some s)
    (fuel : Nat) (log : List CError) :
    mkcl_unintern_loop h st s P name (fuel + 1) log
      = if h (.closed_package P) then
          mkcl_unintern_loop h st s P name fuel (log ++ [.closed_package P])
        else ⟨st, log ++ [.closed_package P], .declined (.closed_package P)⟩ := by
  rw [mkcl_unintern_loop]
  rcases hl with e | e
  · simp [e, hclosed]
  · by_cases e2 : mkcl_gethash_safe name (st.pack P).internal = some s
    · simp [e2, hclosed]
    · simp [e2, e, hclosed]

theorem unintern_loop_closed_forever (h : Handler) (st : State) (s P : Nat) (name : String)
    (hclosed : (st.pack P).closed = true)
    (hl : mkcl_gethash_safe name (st.pack P).internal = some s
      ∨ mkcl_gethash_safe name (st.pack P).external = some s)
    (hh : h (.closed_package P) = true) :
    ∀ fuel log, mkcl_unintern_loop h st s P name fuel log
      = ⟨st, log ++ List.replicate fuel (.closed_package P), .out_of_fuel⟩ := by
  intro fuel
  induction fuel with
  | zero => intro log; simp [mkcl_unintern_loop]
  | succ fuel ih =>
    intro log
    rw [unintern_loop_closed_step h st s P name hclosed hl, if_pos hh, ih]
    simp [List.replicate_succ]

/-- C34, failing input: in `closed_foo_state` the package `FOO` (2) is closed, the name
`QUUX` is not accessible in it and the symbol `BAR` (2) is resident in it.  With the
default recovery, `(intern "QUUX" "FOO")` and `(unintern 'bar "FOO")` signal the
closed-package error again after each retry: whatever the number of retries allowed,
the call has not completed, the state is unchanged, and the error has been signalled
once per retry. -/
theorem closed_retry_never_completes :
    (closed_foo_state.pack 2).closed = true ∧
    default_handler (.closed_package 2) = true ∧
    (mkcl_find_symbol_nolock closed_foo_state "QUUX" 2).2 = .zero ∧
    (∀ fuel, mkcl_intern default_handler fuel closed_foo_state "QUUX" (.package 2)
      = ⟨closed_foo_state, List.replicate fuel (.closed_package 2), .out_of_fuel⟩) ∧
    mkcl_symbol_name closed_foo_state 2 = "BAR" ∧
    mkcl_gethash_safe "BAR" (closed_foo_state.pack 2).internal = some 2 ∧
    (∀ fuel, mkcl_unintern default_handler fuel closed_foo_state 2 (.package 2)
      = ⟨closed_foo_state, List.replicate fuel (.closed_package 2), .out_of_fuel⟩) := by
  refine ⟨by decide!, rfl, by decide!, fun fuel => ?_, by decide!, by decide!,
    fun fuel => ?_⟩
  · have := intern_loop_closed_forever default_handler closed_foo_state "QUUX" 2
      (by decide!) (by decide!) rfl fuel []
    simpa [mkcl_intern, mk_si_coerce_to_package, mkcl_find_package_nolock] using this
  · have := unintern_loop_closed_forever default_handler closed_foo_state 2 2
      (mkcl_symbol_name closed_foo_state 2) (by decide!) (Or.inl (by decide!)) rfl fuel []
    simpa [mkcl_unintern, mk_si_coerce_to_package, mkcl_find_package_nolock] using this

/-! ## A use list that cannot be coerced -/

/-- C38, failing input: `(make-package "P" :use '("LISP" "NOPE"))` in `boot_state`, where
`NOPE` designates no package.  The call fails with the fatal no-such-package error after
the first element of the use list has been processed: the package list is unchanged,
but the used-by list of `LISP` (0), empty before, now holds the reference 2 of the
package that was not registered. -/
theorem make_package_partial_use_list :
    boot_state.packages = [1, 0] ∧
    (boot_state.pack 0).usedby = [] ∧
    (mkcl_make_package default_handler boot_state "P" []
        [.string "LISP", .string "NOPE"]).exit = .fatal (.no_package (.string "NOPE")) ∧
    (mkcl_make_package default_handler boot_state "P" []
        [.string "LISP", .string "NOPE"]).state.packages = [1, 0] ∧
    ((mkcl_make_package default_handler boot_state "P" []
        [.string "LISP", .string "NOPE"]).state.pack 0).usedby = [2] ∧
    2 ∉ (mkcl_make_package default_handler boot_state "P" []
        [.string "LISP", .string "NOPE"]).state.packages := by
  decide!

/-! ## Shadowing symbols in the keyword package -/

theorem boot_state_shadowings (q : Nat) : (boot_state.pack q).shadowings = [] := by
  unfold boot_state
  dsimp only
  split <;> rfl

/-- C39, failing input: `(shadow "A" "KEYWORD")` twice in `boot_state`, where no package
has a shadowing symbol.  The first call makes the symbol 2 and enters it under `A` in the
internal table of the keyword package (1); the second call does not find it, makes the
symbol 3 and enters it under the same name; the symbol 2 is still in the shadowing list
and in neither table. -/
theorem keyword_shadow_not_local :
    shadows_local boot_state ∧
    ((Call.run_all default_handler 1 boot_state
        [.shadow "A" (.package 1), .shadow "A" (.package 1)]).pack 1).shadowings = [3, 2] ∧
    ((Call.run_all default_handler 1 boot_state
        [.shadow "A" (.package 1), .shadow "A" (.package 1)]).symbol 2).name = "A" ∧
    mkcl_gethash_safe "A"
      ((Call.run_all default_handler 1 boot_state
        [.shadow "A" (.package 1), .shadow "A" (.package 1)]).pack 1).external = none ∧
    mkcl_gethash_safe "A"
      ((Call.run_all default_handler 1 boot_state
        [.shadow "A" (.package 1), .shadow "A" (.package 1)]).pack 1).internal = some 3 ∧
    ¬ shadows_local
      (Call.run_all default_handler 1 boot_state
        [.shadow "A" (.package 1), .shadow "A" (.package 1)]) := by
  refine ⟨?_, by decide!, by decide!, by decide!, by decide!, ?_⟩
  · intro P s hs
    rw [boot_state_shadowings P] at hs
    cases hs
  · intro hc
    have := hc 1 2 (by decide!)
    revert this
    decide!

/-! ## Lock order and errors under a lock -/

/-- C35, failing input: the packages `A` (2) and `B` (3) of `two_packages_state`.
`(use-package "A" "B")` takes the lock of `A` and then the lock of `B`, and
`(use-package "B" "A")` takes the lock of `B` and then the lock of `A`: the order is the
order of the arguments.  The same holds for `unuse-package`. -/
theorem use_package_lock_order :
    mkcl_use_package_events default_handler two_packages_state (.package 2) (.package 3)
      = [.lock 2, .lock 3, .unlock 3, .unlock 2] ∧
    mkcl_use_package_events default_handler two_packages_state (.package 3) (.package 2)
      = [.lock 3, .lock 2, .unlock 2, .unlock 3] ∧
    locks_taken
      (mkcl_use_package_events default_handler two_packages_state (.package 2)
        (.package 3)) = [2, 3] ∧
    locks_taken
      (mkcl_use_package_events default_handler two_packages_state (.package 3)
        (.package 2)) = [3, 2] ∧
    locks_taken
      (mkcl_unuse_package_events default_handler two_packages_state (.package 2)
        (.package 3)) = [2, 3] ∧
    locks_taken
      (mkcl_unuse_package_events default_handler two_packages_state (.package 3)
        (.package 2)) = [3, 2] := by
  decide!

/-- The lock order of `mkcl_use_package` and `mkcl_unuse_package` in general: a call
that takes locks takes the lock of its first argument first and the lock of its second
argument second. -/
theorem lock_order_by_argument (h : Handler) (st : State) (x p : Nat) :
    (locks_taken (mkcl_use_package_events h st (.package x) (.package p)) = []
      ∨ (locks_taken (mkcl_use_package_events h st (.package x) (.package p))).take 2
        = [x, p]) ∧
    (locks_taken (mkcl_unuse_package_events h st (.package x) (.package p)) = []
      ∨ locks_taken (mkcl_unuse_package_events h st (.package x) (.package p))
        = [x, p]) := by
  constructor
  · unfold mkcl_use_package_events
    simp only [mk_si_coerce_to_package, mkcl_find_package_nolock]
    split_ifs
    all_goals first
      | (left; rfl)
      | (split <;> (right; rfl))
  · unfold mkcl_unuse_package_events
    simp only [mk_si_coerce_to_package, mkcl_find_package_nolock]
    split_ifs
    all_goals first
      | (left; rfl)
      | (right; rfl)

/-- The errors of `mkcl_use_package` are signalled with no lock held. -/
theorem use_package_signals_unlocked (h : Handler) (st : State) (dx dp : Designator) :
    signals_unlocked 0 (mkcl_use_package_events h st dx dp) = true := by
  unfold mkcl_use_package_events
  dsimp only
  split
  · rfl
  · split_ifs
    all_goals first
      | rfl
      | (split
         · rfl
         · split_ifs
           all_goals first
             | rfl
             | (split <;> rfl))

/-- C36, failing input: `(make-package "P" :use '("NOPE"))` in `boot_state`, where `NOPE`
designates no package.  The fatal no-such-package error is signalled by
`mk_si_coerce_to_package` inside the region protected by the lock of the package list:
the lock is taken, the error is signalled while it is held, and it is released only by
the unwinding. -/
theorem make_package_error_under_lock :
    (mkcl_make_package default_handler boot_state "P" [] [.string "NOPE"]).exit
      = .fatal (.no_package (.string "NOPE")) ∧
    mkcl_make_sized_package_events boot_state "P" [] [.string "NOPE"] 129 129
      = [.list_lock, .ferror (.no_package (.string "NOPE")), .list_unlock] ∧
    signals_unlocked 0
      (mkcl_make_sized_package_events boot_state "P" [] [.string "NOPE"] 129 129)
      = false := by
  decide!

end MKCL
